import Mathlib

/-! # Fountain screenplay parser: a verification development

Shallow embedding of `src/cpp/src/parser.cpp` (namespace `Fountain`).

* A `std::string` is a `List Char`; every `Char` stands for one `char` of the
  C++ string.
* `std::regex` (ECMAScript grammar, backtracking matcher) is embedded as a small
  regular-expression syntax `Re` with a continuation-passing backtracking
  interpreter `Re.run`; each regex literal of the source is a value of `Re`.
* The parser object is the record `FountainParser`; every member function is a
  function on that record, returning the new record together with the
  `bool` of the C++ function.
-/

namespace Fountain

/-- A C++ `std::string`. -/
abbrev Str := List Char

/-! ## Character classes -/

/-- The `std::isspace` test in the "C" locale, which is also the regex class `\s`. -/
def isspace (c : Char) : Bool :=
  c == ' ' || c == '\t' || c == '\n' || c == Char.ofNat 11 || c == Char.ofNat 12 || c == '\r'

/-- The regex wildcard `.` of the ECMAScript grammar: any character but a line terminator. -/
def isDot (c : Char) : Bool := c != '\n' && c != '\r'

/-- The regex class `[A-Z]`. -/
def isUpperAZ (c : Char) : Bool := decide ('A' ≤ c) && decide (c ≤ 'Z')

/-- The regex class `[a-z]`. -/
def isLowerAZ (c : Char) : Bool := decide ('a' ≤ c) && decide (c ≤ 'z')

/-- The regex class `[0-9]`. -/
def isDigit09 (c : Char) : Bool := decide ('0' ≤ c) && decide (c ≤ '9')

/-- The regex class `[a-zA-Z0-9]`. -/
def isAlnum (c : Char) : Bool := isLowerAZ c || isUpperAZ c || isDigit09 c

/-- The straight apostrophe, character 39. -/
def apostrophe : Char := Char.ofNat 39

/-! ## String helpers of `parser.cpp` and of `std::string` -/

/-- Leading whitespace removed. -/
def trimLeft (s : Str) : Str := s.dropWhile isspace

/-- Trailing whitespace removed. -/
def trimRight (s : Str) : Str := (s.reverse.dropWhile isspace).reverse

/-- The function `trim`: `std::regex_replace(str, std::regex("^\s+|\s+$"), "")`, which deletes the
leading run and the trailing run of whitespace. -/
def trim (str : Str) : Str := trimRight (trimLeft str)

/-- The function `isEmptyOrWhitespace`: `std::all_of` with `std::isspace`. -/
def isEmptyOrWhitespace (str : Str) : Bool := str.all isspace

/-- Search of `pat` in the suffix `s` that starts at index `i` of the whole string. -/
def findAux (pat : Str) : Str → Nat → Option Nat
  | [], i => if pat.isPrefixOf [] then some i else none
  | c :: cs, i => if pat.isPrefixOf (c :: cs) then some i else findAux pat cs (i + 1)

/-- The call `str.find(pat, pos)`; `none` is `std::string::npos`. -/
def find (str pat : Str) (pos : Nat) : Option Nat :=
  if pos ≤ str.length then findAux pat (str.drop pos) pos else none

/-- The test `str.find(pat) != std::string::npos`. -/
def contains (str pat : Str) : Bool := (find str pat 0).isSome

/-- The tests `str.rfind(pat, 0) == 0` and `str.starts_with(pat)`. -/
def startsWith (str pat : Str) : Bool := pat.isPrefixOf str

/-- The test `str.ends_with(pat)`. -/
def endsWith (str pat : Str) : Bool := pat.isSuffixOf str

/-- The call `str.substr(pos)`, at a position inside the string. -/
def substr (str : Str) (pos : Nat) : Str := str.drop pos

/-- The call `str.substr(pos, len)`, at a position inside the string. -/
def substrLen (str : Str) (pos len : Nat) : Str := (str.drop pos).take len

/-- The call `str.find_first_not_of(chars)`, counted from index `i`; `none` is `npos`. -/
def findFirstNotOf (chars : Str) : Str → Nat → Option Nat
  | [], _ => none
  | d :: ds, i => if chars.contains d then findFirstNotOf chars ds (i + 1) else some i

/-- The loop of `replaceAll`, one unit of fuel per iteration: find the next occurrence at or
after `pos`, replace it, move `pos` past the replacement. `none` when the fuel runs out. -/
def replaceAllLoop (fromStr toStr : Str) : Nat → Str → Nat → Option Str
  | 0, _, _ => none
  | fuel + 1, str, pos =>
    match find str fromStr pos with
    | none => some str
    | some p =>
      replaceAllLoop fromStr toStr fuel (str.take p ++ toStr ++ str.drop (p + fromStr.length))
        (p + toStr.length)

/-- The function `replaceAll`. The loop is run with `str.length + 1` units of fuel, which is
enough whenever `fromStr` is non-empty and `toStr` is empty (`replaceAllLoop_eq`), as at both call
sites. -/
def replaceAll (str fromStr toStr : Str) : Str :=
  (replaceAllLoop fromStr toStr (str.length + 1) str 0).getD str

/-! ## Regular expressions -/

/-- The fragment of the ECMAScript regular-expression grammar used by the source. Quantifiers
only ever apply to a single character class there. -/
inductive Re where
  /-- One character of a class. -/
  | cls (p : Char → Bool)
  /-- A class repeated at least `min` times, greedy (`*`, `+`, `{n,}`) or lazy (`*?`, `+?`). -/
  | rep (p : Char → Bool) (min : Nat) (greedy : Bool)
  /-- Concatenation. -/
  | seq (a b : Re)
  /-- Alternation `a|b`, left alternative first. -/
  | alt (a b : Re)
  /-- Greedy optional group `(?:a)?`. -/
  | opt (a : Re)
  /-- Capture group number `i`. -/
  | group (i : Nat) (a : Re)
  /-- The assertion `^`. -/
  | bol
  /-- The assertion `$`. -/
  | eol
  /-- Negative lookahead `(?!a)`. -/
  | notAhead (a : Re)
  /-- The empty regex. -/
  | eps

/-- Matcher state: the input still to be read and the captures made so far, most recent first. -/
structure MState where
  rest : Str
  caps : List (Nat × Str)
  deriving DecidableEq, Repr

/-- Greedy repetition of a class: as many characters as possible first, then fewer. -/
def repGreedy (p : Char → Bool) : Nat → Str → (Str → Option MState) → Option MState
  | 0, [], k => k []
  | 0, c :: cs, k =>
    if p c then (repGreedy p 0 cs k).orElse (fun _ => k (c :: cs)) else k (c :: cs)
  | _ + 1, [], _ => none
  | n + 1, c :: cs, k => if p c then repGreedy p n cs k else none

/-- Lazy repetition of a class: as few characters as possible first, then more. -/
def repLazy (p : Char → Bool) : Nat → Str → (Str → Option MState) → Option MState
  | 0, [], k => k []
  | 0, c :: cs, k =>
    (k (c :: cs)).orElse (fun _ => if p c then repLazy p 0 cs k else none)
  | _ + 1, [], _ => none
  | n + 1, c :: cs, k => if p c then repLazy p n cs k else none

/-- Backtracking matcher. `full` is the whole subject string, `k` the continuation that
matches the rest of the regex; the first successful path in priority order wins. -/
def Re.run (full : Str) : Re → MState → (MState → Option MState) → Option MState
  | .cls p, st, k =>
    match st.rest with
    | [] => none
    | c :: cs => if p c then k { st with rest := cs } else none
  | .rep p min greedy, st, k =>
    if greedy then repGreedy p min st.rest (fun r => k { st with rest := r })
    else repLazy p min st.rest (fun r => k { st with rest := r })
  | .seq a b, st, k => a.run full st (fun st1 => b.run full st1 k)
  | .alt a b, st, k => (a.run full st k).orElse (fun _ => b.run full st k)
  | .opt a, st, k => (a.run full st k).orElse (fun _ => k st)
  | .group i a, st, k =>
    a.run full st (fun st1 =>
      k { st1 with caps := (i, st.rest.take (st.rest.length - st1.rest.length)) :: st1.caps })
  | .bol, st, k => if st.rest.length == full.length then k st else none
  | .eol, st, k => if st.rest.isEmpty then k st else none
  | .notAhead a, st, k =>
    match a.run full st some with
    | some _ => none
    | none => k st
  | .eps, st, k => k st

/-- Concatenation of a list of regexes. -/
def Re.cat : List Re → Re
  | [] => .eps
  | [a] => a
  | a :: as => .seq a (Re.cat as)

/-- A literal character. -/
def Re.chr (c : Char) : Re := .cls (fun d => d == c)

/-- A literal character under `std::regex::icase`. -/
def Re.chrI (c : Char) : Re := .cls (fun d => d.toLower == c.toLower)

/-- A literal string. -/
def Re.lit (s : String) : Re := Re.cat (s.toList.map Re.chr)

/-- A literal string under `std::regex::icase`. -/
def Re.litI (s : String) : Re := Re.cat (s.toList.map Re.chrI)

/-- The final continuation of `std::regex_match`: the whole string has to be consumed. -/
def matchEnd (st : MState) : Option MState := if st.rest.isEmpty then some st else none

/-- The call `std::regex_match`: the whole string has to be matched. -/
def regex_match (s : Str) (re : Re) : Option MState := re.run s ⟨s, []⟩ matchEnd

/-- Attempts of `std::regex_search` at the start positions of the suffix `s` of `full`. -/
def searchFrom (full : Str) (re : Re) : Str → Option MState
  | [] => re.run full ⟨[], []⟩ some
  | c :: cs => (re.run full ⟨c :: cs, []⟩ some).orElse (fun _ => searchFrom full re cs)

/-- The call `std::regex_search`: the first start position with a match. -/
def regex_search (s : Str) (re : Re) : Option MState := searchFrom s re s

/-- The text of capture group `i`, as `match[i].str()`: empty when the group did not take part. -/
def MState.group (st : MState) (i : Nat) : Str :=
  match st.caps.lookup i with
  | some t => t
  | none => []

/-! ## The regex literals of `parser.cpp` -/

/-- The class `[A-Za-z0-9 ]` of title keys. -/
def isTitleKeyChar (c : Char) : Bool := isUpperAZ c || isLowerAZ c || isDigit09 c || c == ' '

/-- The regex `^\s*([A-Za-z0-9 ]+?)\s*:\s*(.*?)\s*$` of `parseTitlePage`. -/
def regexTitleEntry : Re :=
  Re.cat [.bol, .rep isspace 0 true, .group 1 (.rep isTitleKeyChar 1 false), .rep isspace 0 true,
    Re.chr ':', .rep isspace 0 true, .group 2 (.rep isDot 0 false), .rep isspace 0 true, .eol]

/-- The regex `^( {3,}|\t)` of `parseTitlePage`. -/
def regexTitleMultilineEntry : Re :=
  Re.cat [.bol, .group 1 (.alt (.rep (fun c => c == ' ') 3 true) (Re.chr '\t'))]

/-- The regex `^\.[a-zA-Z0-9]` of `parseForcedSceneHeading`. -/
def regexForcedHeading : Re := Re.cat [.bol, Re.chr '.', .cls isAlnum]

/-- The regex `^=(?!\=)` of `parseSynopsis`. -/
def synopsisRegex : Re := Re.cat [.bol, Re.chr '=', .notAhead (Re.chr '=')]

/-- The regex `^([^(\^]+?)\s*(?:\((.*)\))?(?:\s*\^\s*)?$` of `decodeCharacter`. -/
def regexCharacterDecode : Re :=
  Re.cat [.bol, .group 1 (.rep (fun c => c != '(' && c != '^') 1 false), .rep isspace 0 true,
    .opt (Re.cat [Re.chr '(', .group 2 (.rep isDot 0 true), Re.chr ')']),
    .opt (Re.cat [.rep isspace 0 true, Re.chr '^', .rep isspace 0 true]), .eol]

/-- The regex `^([A-Z][^a-z]*?)\s*(?:\(.*\))?(?:\s*\^\s*)?$` of `parseCharacter`. -/
def regexCharacter : Re :=
  Re.cat [.bol, .group 1 (Re.cat [.cls isUpperAZ, .rep (fun c => !isLowerAZ c) 0 false]),
    .rep isspace 0 true,
    .opt (Re.cat [Re.chr '(', .rep isDot 0 true, Re.chr ')']),
    .opt (Re.cat [.rep isspace 0 true, Re.chr '^', .rep isspace 0 true]), .eol]

/-- The regex `^\s*(?:[A-Z\s]+TO:)\s*$` of `parseTransition`. -/
def regexTransition : Re :=
  Re.cat [.bol, .rep isspace 0 true, .rep (fun c => isUpperAZ c || isspace c) 1 true,
    Re.lit "TO:", .rep isspace 0 true, .eol]

/-- The regex `^\s*\((.*)\)\s*$` of `parseParenthesis`. -/
def regexParenthesis : Re :=
  Re.cat [.bol, .rep isspace 0 true, Re.chr '(', .group 1 (.rep isDot 0 true), Re.chr ')',
    .rep isspace 0 true, .eol]

/-- The regex `^\s*((INT|EXT|EST|INT\.\/EXT|INT\/EXT|I\/E)(\.|\s))|(FADE IN:\s*)` of
`parseSceneHeading`, compiled with `std::regex::icase`. -/
def regexHeading : Re :=
  .alt
    (Re.cat [.bol, .rep isspace 0 true,
      .group 1 (Re.cat [
        .group 2 (.alt (Re.litI "INT") (.alt (Re.litI "EXT") (.alt (Re.litI "EST")
          (.alt (Re.litI "INT./EXT") (.alt (Re.litI "INT/EXT") (Re.litI "I/E")))))),
        .group 3 (.alt (Re.chrI '.') (.cls isspace))])])
    (.group 4 (Re.cat [Re.litI "FADE IN:", .rep isspace 0 true]))

/-- The regex `(.*?)(?:\s*#(.*?)#)?` of `decodeHeading`. -/
def regexDecodeHeading : Re :=
  Re.cat [.group 1 (.rep isDot 0 false),
    .opt (Re.cat [.rep isspace 0 true, Re.chr '#', .group 2 (.rep isDot 0 false), Re.chr '#'])]

/-! ## Element model -/

/-- The enumeration `Element` of element kinds. -/
inductive Element where
  | TITLEENTRY | HEADING | ACTION | CHARACTER | DIALOGUE | PARENTHESIS | LYRIC | TRANSITION
  | PAGEBREAK | NOTES | BONEYARD | SECTION | SYNOPSIS
  deriving DecidableEq, Repr

/-- Modelled from the spec: the element classes (`FountainAction`, `FountainCharacter`, ...)
are declared in the header `fountain_tools/parser.h`, which is not part of the sources. The
spec's data model gives one variant per kind with these fields; constructor arguments that a
call in `parser.cpp` leaves out (`forced`, `centered`) default to `false`. -/
inductive FountainElement where
  | TitleEntry (key text : Str)
  | Heading (text sceneNumber : Str) (forced : Bool)
  | Action (text : Str) (forced centered : Bool)
  | Character (text name extension : Str) (dual : Bool)
  | Dialogue (text : Str)
  | Parenthesis (text : Str)
  | Lyric (text : Str)
  | Transition (text : Str) (forced : Bool)
  | PageBreak
  | Notes (text : Str)
  | Boneyard (text : Str)
  | Section (text : Str) (depth : Nat)
  | Synopsis (text : Str)
  deriving DecidableEq, Repr

namespace FountainElement

/-- The kind tag `getType()`. -/
def getType : FountainElement → Element
  | TitleEntry _ _ => .TITLEENTRY
  | Heading _ _ _ => .HEADING
  | Action _ _ _ => .ACTION
  | Character _ _ _ _ => .CHARACTER
  | Dialogue _ => .DIALOGUE
  | Parenthesis _ => .PARENTHESIS
  | Lyric _ => .LYRIC
  | Transition _ _ => .TRANSITION
  | PageBreak => .PAGEBREAK
  | Notes _ => .NOTES
  | Boneyard _ => .BONEYARD
  | Section _ _ => .SECTION
  | Synopsis _ => .SYNOPSIS

/-- The accumulated text `getTextRaw()`. -/
def getTextRaw : FountainElement → Str
  | TitleEntry _ t => t
  | Heading t _ _ => t
  | Action t _ _ => t
  | Character t _ _ _ => t
  | Dialogue t => t
  | Parenthesis t => t
  | Lyric t => t
  | Transition t _ => t
  | PageBreak => []
  | Notes t => t
  | Boneyard t => t
  | Section t _ => t
  | Synopsis t => t

/-- The accumulated text replaced. -/
def setText (t : Str) : FountainElement → FountainElement
  | TitleEntry k _ => TitleEntry k t
  | Heading _ n f => Heading t n f
  | Action _ f c => Action t f c
  | Character _ n e d => Character t n e d
  | Dialogue _ => Dialogue t
  | Parenthesis _ => Parenthesis t
  | Lyric _ => Lyric t
  | Transition _ f => Transition t f
  | PageBreak => PageBreak
  | Notes _ => Notes t
  | Boneyard _ => Boneyard t
  | Section _ d => Section t d
  | Synopsis _ => Synopsis t

/-- Modelled from the spec: `appendLine` is declared in the missing header; the spec has the
accumulated text of a multi-line element "joined by line breaks". -/
def appendLine (e : FountainElement) (line : Str) : FountainElement :=
  e.setText (e.getTextRaw ++ '\n' :: line)

/-- Modelled from the spec: `isEmpty` is declared in the missing header; the spec calls the
elements it selects "blank", that is, of empty or whitespace-only text. -/
def isEmpty (e : FountainElement) : Bool := isEmptyOrWhitespace e.getTextRaw

/-- The flag `isCentered()` of an action; other kinds have none. -/
def isCentered : FountainElement → Bool
  | Action _ _ c => c
  | _ => false

end FountainElement

/-! ## Parser state -/

/-- The struct `PendingElement`: a speculative element and its fallback. -/
structure PendingElement where
  type : Element
  element : FountainElement
  backup : FountainElement
  deriving DecidableEq, Repr

/-- The class `FountainScript`: committed elements and title-page headers, oldest first. -/
structure FountainScript where
  elements : List FountainElement
  headers : List FountainElement
  deriving DecidableEq, Repr

/-- The struct `CharacterInfo`. -/
structure CharacterInfo where
  name : Str
  extension : Str
  dual : Bool
  deriving DecidableEq, Repr

/-- The data members of the class `FountainParser`. -/
structure FountainParser where
  script : FountainScript
  mergeActions : Bool
  mergeDialogue : Bool
  inTitlePage : Bool
  multiLineHeader : Bool
  lineBeforeBoneyard : Str
  boneyard : Option FountainElement
  lineBeforeNote : Str
  note : Option FountainElement
  pending : List PendingElement
  padActions : List FountainElement
  line : Str
  lineTrim : Str
  lastLineEmpty : Bool
  lastLine : Str
  inDialogue : Bool
  deriving DecidableEq, Repr

/-- Modelled from the spec: the member initialisers are in the missing header. A new parser
has an empty script, is in title-page mode, has no open block, nothing pending, empty line
buffers and is not in dialogue; the two merge switches are its configuration. -/
def FountainParser.fresh (mergeActions mergeDialogue : Bool) : FountainParser :=
  { script := ⟨[], []⟩, mergeActions := mergeActions, mergeDialogue := mergeDialogue,
    inTitlePage := true, multiLineHeader := false, lineBeforeBoneyard := [], boneyard := none,
    lineBeforeNote := [], note := none, pending := [], padActions := [], line := [],
    lineTrim := [], lastLineEmpty := true, lastLine := [], inDialogue := false }

/-- The call `script->addElement(e)`: append to the document. -/
def FountainScript.addElement (s : FountainScript) (e : FountainElement) : FountainScript :=
  { s with elements := s.elements ++ [e] }

/-- The call `script->addHeader(e)`. -/
def FountainScript.addHeader (s : FountainScript) (e : FountainElement) : FountainScript :=
  { s with headers := s.headers ++ [e] }

/-- The call `ptr->appendLine(line)` on the element object stored at index `i` of a list. -/
def appendLineAt : List FountainElement → Nat → Str → List FountainElement
  | [], _, _ => []
  | e :: es, 0, line => e.appendLine line :: es
  | e :: es, i + 1, line => e :: appendLineAt es i line

namespace FountainParser

/-- The function `getLastElement`. -/
def getLastElement (p : FountainParser) : Option FountainElement := p.script.elements.getLast?

/-- The null test and kind test `lastElement && lastElement->getType() == t`. -/
def lastIs (last : Option FountainElement) (t : Element) : Bool :=
  match last with
  | some e => e.getType == t
  | none => false

/-- The test `lastElement && ... && !lastElement->isCentered()` on an action. -/
def lastIsPlainAction (last : Option FountainElement) : Bool :=
  match last with
  | some e => e.getType == .ACTION && !e.isCentered
  | none => false

/-- The call `lastElement->appendLine(line)`, where `lastElement` is the object that was last
in the document when the enclosing function was entered, `idx` its index. -/
def appendToElement (p : FountainParser) (idx : Nat) (line : Str) : FountainParser :=
  { p with script := { p.script with elements := appendLineAt p.script.elements idx line } }

/-- The function `addElement`. -/
def addElement (p : FountainParser) (element : FountainElement) : FountainParser :=
  let lastElement := p.getLastElement
  let idx := p.script.elements.length - 1
  if element.getType == .ACTION && element.isEmpty && !element.isCentered then
    let p := { p with inDialogue := false }
    if lastIs lastElement .ACTION then { p with padActions := p.padActions ++ [element] }
    else p
  else
    let p :=
      if element.getType == .ACTION && !p.padActions.isEmpty then
        if p.mergeActions && lastIsPlainAction lastElement then
          p.padActions.foldl (fun q padAction => q.appendToElement idx padAction.getTextRaw) p
        else
          p.padActions.foldl
            (fun q padAction => { q with script := q.script.addElement padAction }) p
      else p
    let p := { p with padActions := [] }
    if p.mergeActions && element.getType == .ACTION && !element.isCentered
        && lastIsPlainAction lastElement then
      p.appendToElement idx element.getTextRaw
    else
      { p with
        script := p.script.addElement element
        inDialogue := element.getType == .CHARACTER || element.getType == .PARENTHESIS
          || element.getType == .DIALOGUE }

/-- The test of `parsePending` on the current line: `lineTrim.empty() ||
lineTrim.find_first_not_of(" \t") == npos`. -/
def lineTrimBlank (p : FountainParser) : Bool :=
  p.lineTrim.isEmpty || (findFirstNotOf [' ', '\t'] p.lineTrim 0).isNone

/-- One iteration of the loop of `parsePending`. -/
def resolvePending (p : FountainParser) (pendingItem : PendingElement) : FountainParser :=
  if pendingItem.type == .TRANSITION then
    if p.lineTrimBlank then p.addElement pendingItem.element
    else p.addElement pendingItem.backup
  else if pendingItem.type == .CHARACTER then
    if !p.lineTrim.isEmpty && (findFirstNotOf [' ', '\t'] p.lineTrim 0).isSome then
      p.addElement pendingItem.element
    else p.addElement pendingItem.backup
  else p

/-- The function `parsePending`. -/
def parsePending (p : FountainParser) : FountainParser :=
  { p.pending.foldl resolvePending p with pending := [] }

/-- The function `parseBoneyard`. -/
def parseBoneyard (p : FountainParser) : FountainParser × Bool :=
  match p.boneyard with
  | none =>
    if startsWith p.lineTrim "/*".toList then
      ({ p with boneyard := some (.Boneyard p.lineTrim), lineBeforeBoneyard := p.line }, true)
    else (p, false)
  | some b =>
    let b := b.appendLine p.lineTrim
    if contains p.lineTrim "*/".toList then
      ({ p with script := p.script.addElement b, boneyard := none }, true)
    else ({ p with boneyard := some b }, true)

/-- The function `parseNotes`. -/
def parseNotes (p : FountainParser) : FountainParser × Bool :=
  match p.note with
  | none =>
    if startsWith p.lineTrim "[[".toList && !contains p.lineTrim "]]".toList then
      ({ p with note := some (.Notes (substr p.lineTrim 2)), lineBeforeNote := p.line }, true)
    else (p, false)
  | some n =>
    let n := n.appendLine p.lineTrim
    if contains p.lineTrim "]]".toList then
      ({ p with script := p.script.addElement n, note := none }, true)
    else ({ p with note := some n }, true)

/-- The function `parseTitlePage`. -/
def parseTitlePage (p : FountainParser) : FountainParser × Bool :=
  match regex_match p.line regexTitleEntry with
  | some m =>
    let key := m.group 1
    let value := m.group 2
    ({ p with script := p.script.addHeader (.TitleEntry key value),
              multiLineHeader := value.isEmpty }, true)
  | none =>
    if p.multiLineHeader && (regex_search p.line regexTitleMultilineEntry).isSome then
      if !p.script.headers.isEmpty then
        ({ p with script := { p.script with
             headers := appendLineAt p.script.headers (p.script.headers.length - 1) p.line } },
         true)
      else (p, true)
    else ({ p with inTitlePage := false }, false)

/-- The function `parseSection`. -/
def parseSection (p : FountainParser) : FountainParser × Bool :=
  if startsWith p.lineTrim "###".toList then
    (p.addElement (.Section (substr p.lineTrim 3) 3), true)
  else if startsWith p.lineTrim "##".toList then
    (p.addElement (.Section (substr p.lineTrim 2) 2), true)
  else if startsWith p.lineTrim "#".toList then
    (p.addElement (.Section (substr p.lineTrim 1) 1), true)
  else (p, false)

/-- The function `parseForcedAction`. -/
def parseForcedAction (p : FountainParser) : FountainParser × Bool :=
  if startsWith p.lineTrim "!".toList then
    (p.addElement (.Action (substr p.lineTrim 1) true false), true)
  else (p, false)

/-- The function `decodeHeading`. -/
def decodeHeading (line : Str) : Option (Str × Str) :=
  match regex_match line regexDecodeHeading with
  | some m => some (m.group 1, m.group 2)
  | none => none

/-- The function `parseForcedSceneHeading`. -/
def parseForcedSceneHeading (p : FountainParser) : FountainParser × Bool :=
  if (regex_search p.lineTrim regexForcedHeading).isSome then
    match decodeHeading (substr p.lineTrim 1) with
    | some heading => (p.addElement (.Heading heading.1 heading.2 true), true)
    | none => (p, false)
  else (p, false)

/-- The function `parsePageBreak`. -/
def parsePageBreak (p : FountainParser) : FountainParser × Bool :=
  if contains p.lineTrim "===".toList then (p.addElement .PageBreak, true)
  else (p, false)

/-- The function `parseForcedTransition`. -/
def parseForcedTransition (p : FountainParser) : FountainParser × Bool :=
  if startsWith p.lineTrim ">".toList && !endsWith p.lineTrim "<".toList then
    (p.addElement (.Transition (trim (substr p.lineTrim 1)) true), true)
  else (p, false)

/-- The function `parseLyrics`. -/
def parseLyrics (p : FountainParser) : FountainParser × Bool :=
  if startsWith p.lineTrim "~".toList then
    (p.addElement (.Lyric (trim (substr p.lineTrim 1))), true)
  else (p, false)

/-- The function `parseSynopsis`. The second `substr` starts at
`lineTrim.find_first_not_of(' ')`, which exists whenever the match succeeded. -/
def parseSynopsis (p : FountainParser) : FountainParser × Bool :=
  if (regex_match p.lineTrim synopsisRegex).isSome then
    match findFirstNotOf [' '] p.lineTrim 0 with
    | some i => (p.addElement (.Synopsis (substr (substr p.lineTrim 1) i)), true)
    | none => (p.addElement (.Synopsis []), true)
  else (p, false)

/-- The string `(CONT'D)` with the straight apostrophe. -/
def contdStraight : Str := "(CONT".toList ++ apostrophe :: "D)".toList

/-- The string `(CONT’D)` with the typographic apostrophe, three `char`s in the UTF-8 source. -/
def contdTypographic : Str :=
  "(CONT".toList ++ Char.ofNat 0xE2 :: Char.ofNat 0x80 :: Char.ofNat 0x99 :: "D)".toList

/-- The first three statements of `decodeCharacter` and of `parseCharacter`: both spellings of
`(CONT'D)` deleted, then the result trimmed. -/
def stripContd (line : Str) : Str :=
  trim (replaceAll (replaceAll line contdStraight []) contdTypographic [])

/-- The function `decodeCharacter`. -/
def decodeCharacter (line : Str) : Option CharacterInfo :=
  let noContLine := stripContd line
  match regex_match noContLine regexCharacterDecode with
  | some m =>
    some { name := m.group 1, extension := m.group 2, dual := noContLine.getLast? == some '^' }
  | none => none

/-- The function `parseDialogue`. -/
def parseDialogue (p : FountainParser) : FountainParser × Bool :=
  let lastElement := p.getLastElement
  let idx := p.script.elements.length - 1
  if !p.line.isEmpty && (lastIs lastElement .CHARACTER || lastIs lastElement .PARENTHESIS) then
    (p.addElement (.Dialogue p.lineTrim), true)
  else if lastIs lastElement .DIALOGUE then
    if p.lastLineEmpty && !p.lastLine.isEmpty then
      if p.mergeDialogue then
        ((p.appendToElement idx []).appendToElement idx p.lineTrim, true)
      else
        ((p.addElement (.Dialogue [])).addElement (.Dialogue p.lineTrim), true)
    else if !p.lastLineEmpty && !p.lineTrim.isEmpty then
      if p.mergeDialogue then (p.appendToElement idx p.lineTrim, true)
      else (p.addElement (.Dialogue p.lineTrim), true)
    else (p, false)
  else (p, false)

/-- The function `parseCharacter`. -/
def parseCharacter (p : FountainParser) : FountainParser × Bool :=
  let noContLineTrim := stripContd p.lineTrim
  if p.lastLineEmpty && (regex_match noContLineTrim regexCharacter).isSome then
    match decodeCharacter noContLineTrim with
    | some character =>
      ({ p with pending := p.pending ++ [
          { type := .CHARACTER,
            element := .Character noContLineTrim character.name character.extension
              character.dual,
            backup := .Action p.lineTrim false false }] }, true)
    | none => (p, false)
  else (p, false)

/-- The function `parseTransition`. -/
def parseTransition (p : FountainParser) : FountainParser × Bool :=
  if (regex_match p.lineTrim regexTransition).isSome && p.lastLineEmpty then
    ({ p with pending := p.pending ++ [
        { type := .TRANSITION,
          element := .Transition p.lineTrim false,
          backup := .Action p.lineTrim false false }] }, true)
  else (p, false)

/-- The function `parseParenthesis`. -/
def parseParenthesis (p : FountainParser) : FountainParser × Bool :=
  match regex_match p.line regexParenthesis with
  | some m =>
    let lastElement := p.getLastElement
    if p.inDialogue && (lastIs lastElement .CHARACTER || lastIs lastElement .DIALOGUE) then
      (p.addElement (.Parenthesis (m.group 1)), true)
    else (p, false)
  | none => (p, false)

/-- The function `parseCenteredText`. -/
def parseCenteredText (p : FountainParser) : FountainParser × Bool :=
  if startsWith p.lineTrim ">".toList && endsWith p.lineTrim "<".toList then
    let content := substrLen p.lineTrim 1 (p.lineTrim.length - 2)
    (p.addElement (.Action content false true), true)
  else (p, false)

/-- The function `parseSceneHeading`. -/
def parseSceneHeading (p : FountainParser) : FountainParser × Bool :=
  if (regex_search p.lineTrim regexHeading).isSome then
    match decodeHeading p.lineTrim with
    | some heading => (p.addElement (.Heading heading.1 heading.2 false), true)
    | none => (p, true)
  else (p, false)

/-- The function `parseForcedCharacter`. -/
def parseForcedCharacter (p : FountainParser) : FountainParser × Bool :=
  if startsWith p.lineTrim "@".toList then
    let trimmedLine := trim (substr p.lineTrim 1)
    match decodeCharacter trimmedLine with
    | some character =>
      (p.addElement (.Character trimmedLine character.name character.extension character.dual),
       true)
    | none => (p, false)
  else (p, false)

/-- The function `parseAction`. -/
def parseAction (p : FountainParser) : FountainParser :=
  p.addElement (.Action p.line false false)

/-- A chain `f1() || f2() || ...` of member functions: the first that returns `true` ends it. -/
def firstOf : List (FountainParser → FountainParser × Bool) → FountainParser →
    FountainParser × Bool
  | [], p => (p, false)
  | f :: fs, p => if (f p).2 then ((f p).1, true) else firstOf fs (f p).1

/-- The ordered classification rules of `addLine`. -/
def rules : List (FountainParser → FountainParser × Bool) :=
  [parseSection, parseForcedAction, parseForcedSceneHeading, parseForcedCharacter,
   parseForcedTransition, parsePageBreak, parseLyrics, parseSynopsis, parseCenteredText,
   parseSceneHeading, parseTransition, parseParenthesis, parseCharacter, parseDialogue]

/-- The part of `addLine` after the block scanners and the pending resolution: title page, then
the ordered rules, then the fallback `parseAction`. -/
def classify (p : FountainParser) : FountainParser :=
  let r := if p.inTitlePage then parseTitlePage p else (p, false)
  if r.2 then r.1
  else
    let r := firstOf rules r.1
    if r.2 then r.1 else parseAction r.1

/-- The first two statements of `addLine`: remember the previous line, load the new one. -/
def loadLine (p : FountainParser) (inputLine : Str) : FountainParser :=
  { p with lastLine := p.line, lastLineEmpty := isEmptyOrWhitespace p.line,
           line := inputLine, lineTrim := trim inputLine }

/-- The function `addLine`. -/
def addLine (p : FountainParser) (inputLine : Str) : FountainParser :=
  let p := p.loadLine inputLine
  let r := firstOf [parseBoneyard, parseNotes] p
  if r.2 then r.1
  else
    let p := r.1
    let p := if !p.pending.isEmpty then parsePending p else p
    classify p

/-- The function `finalizeParsing`. -/
def finalizeParsing (p : FountainParser) : FountainParser :=
  parsePending { p with line := [], lineTrim := [] }

/-- The function `addLines`. -/
def addLines (p : FountainParser) (lines : List Str) : FountainParser :=
  finalizeParsing (lines.foldl addLine p)

end FountainParser

/-! ## The parser with the failures of the library calls made explicit

The functions of `parser.cpp` once more, now with a result of type `Option`: `none` stands for
a call that does not return a value, that is, for the exception `std::out_of_range` of
`substr`, for undefined behaviour of `back`, for an unsigned difference that wraps, for a
`replaceAll` loop that has not ended, and for a call of the regex matcher of the C++ library
that does not return. The matcher of `std::regex` works by recursion on the subject string and
the process dies when its stack is exhausted, which happens on long subjects; whether a call
returns depends on the library and on the stack of the process, not on `parser.cpp`, so it is
the parameter `lib` of these functions: `lib re s` says that the matcher returns on the regex
`re` and the subject `s`. Functions of the source without such a call are taken from above. -/

/-- The regex `^\s+|\s+$` of `trim`. -/
def regexTrim : Re :=
  .alt (Re.cat [.bol, .rep isspace 1 true]) (Re.cat [.rep isspace 1 true, .eol])

namespace Checked

/-- The call `std::regex_match(s, re)`: `none` when the matcher does not return. -/
def regex_match (lib : Re → Str → Bool) (s : Str) (re : Re) : Option (Option MState) :=
  if lib re s then some (Fountain.regex_match s re) else none

/-- The call `std::regex_search(s, re)`: `none` when the matcher does not return. -/
def regex_search (lib : Re → Str → Bool) (s : Str) (re : Re) : Option (Option MState) :=
  if lib re s then some (Fountain.regex_search s re) else none

/-- The function `trim`, one call of `std::regex_replace`: `none` when the matcher does not
return. -/
def trim (lib : Re → Str → Bool) (str : Str) : Option Str :=
  if lib regexTrim str then some (Fountain.trim str) else none

/-- The call `str.substr(pos)`, which throws `std::out_of_range` when `pos > str.size()`. -/
def substr (str : Str) (pos : Nat) : Option Str :=
  if pos ≤ str.length then some (str.drop pos) else none

/-- The call `str.substr(pos, str.length() - k)`: the position has to be inside the string and
the unsigned difference must not wrap. -/
def substrLen (str : Str) (pos k : Nat) : Option Str :=
  if pos ≤ str.length ∧ k ≤ str.length then some ((str.drop pos).take (str.length - k)) else none

/-- The call `str.back()`, undefined on an empty string. -/
def back (str : Str) : Option Char := str.getLast?

/-- The call `headers.back()`, undefined on an empty vector. -/
def backIndex (headers : List FountainElement) : Option Nat :=
  if headers.isEmpty then none else some (headers.length - 1)

/-- The function `replaceAll`: `none` when the loop has not ended after `str.length + 1`
iterations. -/
def replaceAll (str fromStr toStr : Str) : Option Str :=
  replaceAllLoop fromStr toStr (str.length + 1) str 0

/-- The first two statements of `addLine` and the two after them: the previous line is
remembered, the new one is loaded and trimmed. -/
def loadLine (lib : Re → Str → Bool) (p : FountainParser) (inputLine : Str) :
    Option FountainParser :=
  match trim lib inputLine with
  | none => none
  | some t =>
    some { p with lastLine := p.line, lastLineEmpty := isEmptyOrWhitespace p.line,
                  line := inputLine, lineTrim := t }

/-- The first three statements of `decodeCharacter` and of `parseCharacter`. -/
def stripContd (lib : Re → Str → Bool) (line : Str) : Option Str :=
  match replaceAll line FountainParser.contdStraight [] with
  | none => none
  | some s1 =>
    match replaceAll s1 FountainParser.contdTypographic [] with
    | none => none
    | some s2 => trim lib s2

/-- The function `parseNotes`. -/
def parseNotes (p : FountainParser) : Option (FountainParser × Bool) :=
  match p.note with
  | none =>
    if startsWith p.lineTrim "[[".toList && !contains p.lineTrim "]]".toList then
      match substr p.lineTrim 2 with
      | some t => some ({ p with note := some (.Notes t), lineBeforeNote := p.line }, true)
      | none => none
    else some (p, false)
  | some _ => some (FountainParser.parseNotes p)

/-- The function `parseTitlePage`; the second regex is only consulted when `multiLineHeader`
is set. -/
def parseTitlePage (lib : Re → Str → Bool) (p : FountainParser) :
    Option (FountainParser × Bool) :=
  match regex_match lib p.line regexTitleEntry with
  | none => none
  | some (some m) =>
    some ({ p with script := p.script.addHeader (.TitleEntry (m.group 1) (m.group 2)),
                   multiLineHeader := (m.group 2).isEmpty }, true)
  | some none =>
    if p.multiLineHeader then
      match regex_search lib p.line regexTitleMultilineEntry with
      | none => none
      | some r =>
        if r.isSome then
          if !p.script.headers.isEmpty then
            match backIndex p.script.headers with
            | some i =>
              some ({ p with script := { p.script with
                        headers := appendLineAt p.script.headers i p.line } }, true)
            | none => none
          else some (p, true)
        else some ({ p with inTitlePage := false }, false)
    else some ({ p with inTitlePage := false }, false)

/-- The function `parseSection`. -/
def parseSection (p : FountainParser) : Option (FountainParser × Bool) :=
  if startsWith p.lineTrim "###".toList then
    (substr p.lineTrim 3).map fun t => (p.addElement (.Section t 3), true)
  else if startsWith p.lineTrim "##".toList then
    (substr p.lineTrim 2).map fun t => (p.addElement (.Section t 2), true)
  else if startsWith p.lineTrim "#".toList then
    (substr p.lineTrim 1).map fun t => (p.addElement (.Section t 1), true)
  else some (p, false)

/-- The function `parseForcedAction`. -/
def parseForcedAction (p : FountainParser) : Option (FountainParser × Bool) :=
  if startsWith p.lineTrim "!".toList then
    (substr p.lineTrim 1).map fun t => (p.addElement (.Action t true false), true)
  else some (p, false)

/-- The function `decodeHeading`; the outer `none` is a failure, the inner one is
`std::nullopt`. -/
def decodeHeading (lib : Re → Str → Bool) (line : Str) : Option (Option (Str × Str)) :=
  match regex_match lib line regexDecodeHeading with
  | none => none
  | some (some m) => some (some (m.group 1, m.group 2))
  | some none => some none

/-- The function `parseForcedSceneHeading`. -/
def parseForcedSceneHeading (lib : Re → Str → Bool) (p : FountainParser) :
    Option (FountainParser × Bool) :=
  match regex_search lib p.lineTrim regexForcedHeading with
  | none => none
  | some r =>
    if r.isSome then
      match substr p.lineTrim 1 with
      | none => none
      | some t =>
        match decodeHeading lib t with
        | none => none
        | some (some heading) => some (p.addElement (.Heading heading.1 heading.2 true), true)
        | some none => some (p, false)
    else some (p, false)

/-- The function `parseForcedTransition`. -/
def parseForcedTransition (lib : Re → Str → Bool) (p : FountainParser) :
    Option (FountainParser × Bool) :=
  if startsWith p.lineTrim ">".toList && !endsWith p.lineTrim "<".toList then
    match substr p.lineTrim 1 with
    | none => none
    | some t => (trim lib t).map fun u => (p.addElement (.Transition u true), true)
  else some (p, false)

/-- The function `parseLyrics`. -/
def parseLyrics (lib : Re → Str → Bool) (p : FountainParser) :
    Option (FountainParser × Bool) :=
  if startsWith p.lineTrim "~".toList then
    match substr p.lineTrim 1 with
    | none => none
    | some t => (trim lib t).map fun u => (p.addElement (.Lyric u), true)
  else some (p, false)

/-- The function `parseSynopsis`: the second `substr` starts at
`lineTrim.find_first_not_of(' ')`, which is `npos`, and so out of range, when there is no such
character. -/
def parseSynopsis (lib : Re → Str → Bool) (p : FountainParser) :
    Option (FountainParser × Bool) :=
  match regex_match lib p.lineTrim synopsisRegex with
  | none => none
  | some r =>
    if r.isSome then
      match substr p.lineTrim 1, findFirstNotOf [' '] p.lineTrim 0 with
      | some t, some i => (substr t i).map fun u => (p.addElement (.Synopsis u), true)
      | _, _ => none
    else some (p, false)

/-- The function `parseCenteredText`. -/
def parseCenteredText (p : FountainParser) : Option (FountainParser × Bool) :=
  if startsWith p.lineTrim ">".toList && endsWith p.lineTrim "<".toList then
    (substrLen p.lineTrim 1 2).map fun content =>
      (p.addElement (.Action content false true), true)
  else some (p, false)

/-- The function `parseSceneHeading`. -/
def parseSceneHeading (lib : Re → Str → Bool) (p : FountainParser) :
    Option (FountainParser × Bool) :=
  match regex_search lib p.lineTrim regexHeading with
  | none => none
  | some r =>
    if r.isSome then
      match decodeHeading lib p.lineTrim with
      | none => none
      | some (some heading) => some (p.addElement (.Heading heading.1 heading.2 false), true)
      | some none => some (p, true)
    else some (p, false)

/-- The function `parseTransition`; the regex is consulted before `lastLineEmpty`. -/
def parseTransition (lib : Re → Str → Bool) (p : FountainParser) :
    Option (FountainParser × Bool) :=
  match regex_match lib p.lineTrim regexTransition with
  | none => none
  | some r =>
    if r.isSome && p.lastLineEmpty then
      some ({ p with pending := p.pending ++ [
          { type := .TRANSITION,
            element := .Transition p.lineTrim false,
            backup := .Action p.lineTrim false false }] }, true)
    else some (p, false)

/-- The function `parseParenthesis`. -/
def parseParenthesis (lib : Re → Str → Bool) (p : FountainParser) :
    Option (FountainParser × Bool) :=
  match regex_match lib p.line regexParenthesis with
  | none => none
  | some (some m) =>
    if p.inDialogue && (FountainParser.lastIs p.getLastElement .CHARACTER
        || FountainParser.lastIs p.getLastElement .DIALOGUE) then
      some (p.addElement (.Parenthesis (m.group 1)), true)
    else some (p, false)
  | some none => some (p, false)

/-- The function `decodeCharacter`; the outer `none` is a failure, the inner one is
`std::nullopt`. -/
def decodeCharacter (lib : Re → Str → Bool) (line : Str) : Option (Option CharacterInfo) :=
  match stripContd lib line with
  | none => none
  | some noContLine =>
    match regex_match lib noContLine regexCharacterDecode with
    | none => none
    | some (some m) =>
      (back noContLine).map fun c =>
        some { name := m.group 1, extension := m.group 2, dual := c == '^' }
    | some none => some none

/-- The function `parseForcedCharacter`. -/
def parseForcedCharacter (lib : Re → Str → Bool) (p : FountainParser) :
    Option (FountainParser × Bool) :=
  if startsWith p.lineTrim "@".toList then
    match substr p.lineTrim 1 with
    | none => none
    | some t =>
      match trim lib t with
      | none => none
      | some trimmedLine =>
        (decodeCharacter lib trimmedLine).map fun r =>
          match r with
          | some character =>
            (p.addElement
              (.Character trimmedLine character.name character.extension character.dual), true)
          | none => (p, false)
  else some (p, false)

/-- The function `parseCharacter`; the regex is only consulted when `lastLineEmpty` is set. -/
def parseCharacter (lib : Re → Str → Bool) (p : FountainParser) :
    Option (FountainParser × Bool) :=
  match stripContd lib p.lineTrim with
  | none => none
  | some noContLineTrim =>
    if p.lastLineEmpty then
      match regex_match lib noContLineTrim regexCharacter with
      | none => none
      | some r =>
        if r.isSome then
          (decodeCharacter lib noContLineTrim).map fun r =>
            match r with
            | some character =>
              ({ p with pending := p.pending ++ [
                  { type := .CHARACTER,
                    element := .Character noContLineTrim character.name character.extension
                      character.dual,
                    backup := .Action p.lineTrim false false }] }, true)
            | none => (p, false)
        else some (p, false)
    else some (p, false)

/-- A chain `f1() || f2() || ...` of member functions that can fail. -/
def firstOf : List (FountainParser → Option (FountainParser × Bool)) → FountainParser →
    Option (FountainParser × Bool)
  | [], p => some (p, false)
  | f :: fs, p =>
    match f p with
    | none => none
    | some r => if r.2 then some (r.1, true) else firstOf fs r.1

/-- The ordered classification rules of `addLine`. -/
def rules (lib : Re → Str → Bool) : List (FountainParser → Option (FountainParser × Bool)) :=
  [parseSection, parseForcedAction, parseForcedSceneHeading lib, parseForcedCharacter lib,
   parseForcedTransition lib, fun p => some (FountainParser.parsePageBreak p), parseLyrics lib,
   parseSynopsis lib, parseCenteredText, parseSceneHeading lib, parseTransition lib,
   parseParenthesis lib, parseCharacter lib, fun p => some (FountainParser.parseDialogue p)]

/-- The function `addLine`. -/
def addLine (lib : Re → Str → Bool) (p : FountainParser) (inputLine : Str) :
    Option FountainParser :=
  match loadLine lib p inputLine with
  | none => none
  | some p =>
    match firstOf [fun q => some (FountainParser.parseBoneyard q), parseNotes] p with
    | none => none
    | some r =>
      if r.2 then some r.1
      else
        let p := r.1
        let p := if !p.pending.isEmpty then FountainParser.parsePending p else p
        match (if p.inTitlePage then parseTitlePage lib p else some (p, false)) with
        | none => none
        | some r =>
          if r.2 then some r.1
          else
            match firstOf (rules lib) r.1 with
            | none => none
            | some r => if r.2 then some r.1 else some (FountainParser.parseAction r.1)

/-- The loop of `addLines`. -/
def addLinesLoop (lib : Re → Str → Bool) : List Str → FountainParser → Option FountainParser
  | [], p => some p
  | l :: ls, p =>
    match addLine lib p l with
    | none => none
    | some q => addLinesLoop lib ls q

/-- The function `addLines`. -/
def addLines (lib : Re → Str → Bool) (p : FountainParser) (lines : List Str) :
    Option FountainParser :=
  (addLinesLoop lib lines p).map FountainParser.finalizeParsing

end Checked

/-! ## Auxiliary definitions used in the proofs -/

/-- Continuation of `regexDecodeHeading` after the scene number: the closing `#`, then the end
of the line. `h` is the whole line, `r` the input left after group 1, `cs` the input at the
start of group 2. -/
def dhK3 (h cs : Str) (r : Str) (r2 : Str) : Option MState :=
  match r2 with
  | [] => none
  | c :: cs1 =>
    if (c == '#') = true then
      if cs1.isEmpty = true then
        some { rest := cs1,
               caps := [(2, List.take (cs.length - List.length r2) cs),
                        (1, List.take (List.length h - List.length r) h)] }
      else none
    else none

/-- Continuation of `regexDecodeHeading` after the whitespace of the marker: the opening `#`
and the lazy group 2. -/
def dhK2 (h r : Str) (r1 : Str) : Option MState :=
  match r1 with
  | [] => none
  | c :: cs => if (c == '#') = true then repLazy isDot 0 cs (dhK3 h cs r) else none

/-- Continuation of `regexDecodeHeading` after group 1: the optional marker, then the end of
the line. -/
def dhK1 (h : Str) (r : Str) : Option MState :=
  (repGreedy isspace 0 r (dhK2 h r)).orElse fun _ =>
    if List.isEmpty r = true then
      some { rest := r, caps := [(1, List.take (List.length h - List.length r) h)] }
    else none

/-- Deletion of every occurrence of `pat`, scanning left to right; `skip` counts the characters
of the current occurrence that are still to be deleted. -/
def stripAll (pat : Str) : Str → Nat → Str
  | [], _ => []
  | _ :: cs, k + 1 => stripAll pat cs k
  | c :: cs, 0 =>
    if pat.isPrefixOf (c :: cs) then stripAll pat cs (pat.length - 1) else c :: stripAll pat cs 0

/-- The optional dual-dialogue marker `(?:\s*\^\s*)?` of the character regexes. -/
def reCaret : Re := .opt (Re.cat [.rep isspace 0 true, Re.chr '^', .rep isspace 0 true])

/-- The optional extension `(?:\((.*)\))?` of `regexCharacterDecode`. -/
def reExtension : Re := .opt (Re.cat [Re.chr '(', .group 2 (.rep isDot 0 true), Re.chr ')'])

/-- The part of `regexCharacterDecode` after the whitespace that follows the name. -/
def cdTail3 : Re := Re.cat [reExtension, reCaret, .eol]

/-- The part of `regexCharacterDecode` after the name. -/
def cdTail2 : Re := Re.cat [.rep isspace 0 true, reExtension, reCaret, .eol]

/-- The text between the parentheses of `contdStraight`. -/
def contdStraightBody : Str := "CONT".toList ++ [apostrophe, 'D']

/-- The text between the parentheses of `contdTypographic`. -/
def contdTypographicBody : Str :=
  "CONT".toList ++ [Char.ofNat 0xE2, Char.ofNat 0x80, Char.ofNat 0x99, 'D']

/-- The members of the parser that the document assembler never writes: everything but the
element list, the dialogue flag, the buffered blank actions and the pending list. -/
def FountainParser.frame (p : FountainParser) : FountainParser :=
  { p with script := { p.script with elements := [] }, inDialogue := false, padActions := [],
           pending := [] }

/-- The current line of `p` is claimed by one of the first `n` classification rules. -/
def FountainParser.matchedBefore (n : Nat) (p : FountainParser) : Bool :=
  (firstOf (rules.take n) p).2

/-- The line opens a boneyard or a notes block when no block is open: its trimmed form starts
with the boneyard marker, or with the notes marker and has no closing marker. -/
def opensBlock (line : Str) : Bool :=
  startsWith (trim line) "/*".toList
    || (startsWith (trim line) "[[".toList && !contains (trim line) "]]".toList)

/-- The elements that a classification rule hands to the document assembler are never notes,
boneyard or title-page elements. -/
def ruleElement (e : FountainElement) : Prop :=
  e.getType ≠ .NOTES ∧ e.getType ≠ .BONEYARD ∧ e.getType ≠ .TITLEENTRY

/-- Shape of the pending elements that the rules create: a character or a transition, with a
plain action as fallback. -/
def pendingOk (x : PendingElement) : Prop :=
  (x.type = .CHARACTER ∨ x.type = .TRANSITION) ∧ x.element.getType = x.type
    ∧ ∃ t, x.backup = .Action t false false

/-- What a classification rule can do to the parser: nothing, hand one element to the
document assembler, continue the last dialogue (by appending one or two lines to it, or by
handing two dialogue elements to the assembler), or add a pending element. -/
inductive Effect (p : FountainParser) : FountainParser → Prop
  | same : Effect p p
  | add (e : FountainElement) : ruleElement e → Effect p (p.addElement e)
  | add2 (t1 t2 : Str) : FountainParser.lastIs p.getLastElement .DIALOGUE = true →
      Effect p ((p.addElement (.Dialogue t1)).addElement (.Dialogue t2))
  | append (l : Str) : FountainParser.lastIs p.getLastElement .DIALOGUE = true →
      Effect p (p.appendToElement (p.script.elements.length - 1) l)
  | append2 (l1 l2 : Str) : FountainParser.lastIs p.getLastElement .DIALOGUE = true →
      Effect p ((p.appendToElement (p.script.elements.length - 1) l1).appendToElement
        (p.script.elements.length - 1) l2)
  | pend (x : PendingElement) : pendingOk x → Effect p { p with pending := p.pending ++ [x] }

/-- The kinds of the elements of a document, in order. -/
def kinds (es : List FountainElement) : List Element := es.map FountainElement.getType

/-- The number of notes elements of a document. -/
def countNotes (es : List FountainElement) : Nat := (kinds es).count .NOTES

/-- The buffers of the parser hold what the rules put there: pending elements of the shape
`pendingOk`, and actions in the buffer of blank action lines. -/
def buffersOk (p : FountainParser) : Prop :=
  (∀ x ∈ p.pending, pendingOk x) ∧ (∀ a ∈ p.padActions, a.getType = .ACTION)

/-- The parser in the middle of `addElement`, after the buffered blank action lines have been
flushed and before the buffer is cleared. -/
def FountainParser.flushed (p : FountainParser) (element : FountainElement) : FountainParser :=
  if element.getType == .ACTION && !p.padActions.isEmpty then
    if p.mergeActions && FountainParser.lastIsPlainAction p.getLastElement then
      p.padActions.foldl
        (fun q padAction =>
          q.appendToElement (p.script.elements.length - 1) padAction.getTextRaw) p
    else
      p.padActions.foldl
        (fun q padAction => { q with script := q.script.addElement padAction }) p
  else p

/-- The parser `p` with the four line buffers `line`, `lineTrim`, `lastLine`, `lastLineEmpty`
and the pending list taken from `q`: the members that the document assembler neither reads nor
writes, apart from the block buffers. -/
def FountainParser.withLines (p q : FountainParser) : FountainParser :=
  { p with line := q.line, lineTrim := q.lineTrim, lastLine := q.lastLine,
           lastLineEmpty := q.lastLineEmpty, pending := q.pending }

/-- A non-centered Action element. -/
def plainAction (e : FountainElement) : Bool := e.getType == .ACTION && !e.isCentered

/-- No two consecutive elements of the document are both non-centered Actions. -/
def noAdjacentPlainActions : List FountainElement → Bool
  | x :: y :: rest => !(plainAction x && plainAction y) && noAdjacentPlainActions (y :: rest)
  | _ => true

/-- The element `y` may follow the last element `last` of a document: they are not both
non-centered Actions, unless `last` is a blank one. -/
def pairOk (last : Option FountainElement) (y : FountainElement) : Bool :=
  match last with
  | some x => !(plainAction x && plainAction y && !x.isEmpty)
  | none => true

/-- No non-centered Action that is not blank is directly followed by a non-centered Action. -/
def mergedOk : List FountainElement → Bool
  | x :: y :: rest => pairOk (some x) y && mergedOk (y :: rest)
  | _ => true

/-- The invariant of the parser in merge-actions mode: the document satisfies `mergedOk`, the
buffered blank lines are blank non-centered Actions, and the block buffers hold a boneyard and
a notes element. -/
def MergeInv (p : FountainParser) : Prop :=
  p.mergeActions = true ∧ mergedOk p.script.elements = true
    ∧ (∀ a ∈ p.padActions, plainAction a = true ∧ a.isEmpty = true)
    ∧ (∀ b, p.boneyard = some b → b.getType = .BONEYARD)
    ∧ (∀ n, p.note = some n → n.getType = .NOTES)

/-- The last element of a document can still take a line: the document assembler appends an
action line to a non-centered Action, and the dialogue rule appends to a Dialogue. -/
def canExtend (last : Option FountainElement) : Bool :=
  match last with
  | some x => plainAction x || x.getType == .DIALOGUE
  | none => false

/-- The document `es` after the lines `ls` have been appended, one by one, to its last element
by `appendLine`; every other element is as it was. -/
def extendLast (es : List FountainElement) (ls : List Str) : List FountainElement :=
  match es.getLast? with
  | some x => es.dropLast ++ [ls.foldl FountainElement.appendLine x]
  | none => []

/-- The document `D2` continues the document `D1`: it is `D1`, with zero or more lines appended
to its last element, followed by zero or more further elements; and lines are appended only to
a last element that is a non-centered Action or a Dialogue. So every element of `D1` keeps its
position, all but the last are unchanged, and whatever is new comes after them. -/
def Grows (D1 D2 : List FountainElement) : Prop :=
  ∃ (ls : List Str) (more : List FountainElement),
    D2 = extendLast D1 ls ++ more ∧ (ls ≠ [] → canExtend D1.getLast? = true)

/-! # Theorems -/

open FountainParser

/-! ## Repetition in the backtracking matcher -/

theorem repLazy_skip (p : Char → Bool) (K : Str → Option MState) (a b : Str)
    (hp : ∀ c ∈ a, p c = true)
    (hK : ∀ a1 a2, a = a1 ++ a2 → a2 ≠ [] → K (a2 ++ b) = none) :
    repLazy p 0 (a ++ b) K = repLazy p 0 b K := by
  induction a with
  | nil => rfl
  | cons c cs ih =>
    have h1 : K (c :: cs ++ b) = none := hK [] (c :: cs) rfl (by simp)
    have h2 : p c = true := hp c (by simp)
    have h3 := ih (fun d hd => hp d (by simp [hd]))
      (fun a1 a2 e ne => hK (c :: a1) a2 (by simp [e]) ne)
    simp only [List.cons_append] at h1 ⊢
    simp [repLazy, h1, h2, h3]

theorem repLazy_here (p : Char → Bool) (K : Str → Option MState) (b : Str) (r : MState)
    (h : K b = some r) : repLazy p 0 b K = some r := by
  cases b with
  | nil => simpa [repLazy] using h
  | cons c cs => simp [repLazy, h]

theorem repGreedy_none (p : Char → Bool) (K : Str → Option MState) (s : Str)
    (hK : ∀ s1 s2, s = s1 ++ s2 → (∀ c ∈ s1, p c = true) → K s2 = none) :
    repGreedy p 0 s K = none := by
  induction s with
  | nil => simpa [repGreedy] using hK [] [] rfl (by simp)
  | cons c cs ih =>
    have h0 : K (c :: cs) = none := hK [] (c :: cs) rfl (by simp)
    by_cases hc : p c = true
    · have h3 := ih (fun s1 s2 e hs => hK (c :: s1) s2 (by simp [e]) (by
        intro d hd
        rcases List.mem_cons.1 hd with rfl | hd
        · exact hc
        · exact hs d hd))
      simp [repGreedy, hc, h3, h0]
    · simp [repGreedy, hc, h0]

theorem repGreedy_stop (p : Char → Bool) (K : Str → Option MState) (s : Str)
    (h : ∀ c ∈ s.head?, p c = false) : repGreedy p 0 s K = K s := by
  cases s with
  | nil => rfl
  | cons c cs =>
    have : p c = false := h c (by simp)
    simp [repGreedy, this]

theorem repGreedy_append_some (p : Char → Bool) (K : Str → Option MState) (a s : Str) (r : MState)
    (hp : ∀ c ∈ a, p c = true) (h : repGreedy p 0 s K = some r) :
    repGreedy p 0 (a ++ s) K = some r := by
  induction a with
  | nil => simpa using h
  | cons c cs ih =>
    have h2 : p c = true := hp c (by simp)
    have h3 := ih (fun d hd => hp d (by simp [hd]))
    simp only [List.cons_append]
    simp [repGreedy, h2, h3]

theorem repGreedy_append_none (p : Char → Bool) (K : Str → Option MState) (a s : Str)
    (hp : ∀ c ∈ a, p c = true) (h : repGreedy p 0 s K = none)
    (hK : ∀ a1 a2, a = a1 ++ a2 → a2 ≠ [] → K (a2 ++ s) = none) :
    repGreedy p 0 (a ++ s) K = none := by
  induction a with
  | nil => simpa using h
  | cons c cs ih =>
    have h1 : K (c :: cs ++ s) = none := hK [] (c :: cs) rfl (by simp)
    have h2 : p c = true := hp c (by simp)
    have h3 := ih (fun d hd => hp d (by simp [hd]))
      (fun a1 a2 e ne => hK (c :: a1) a2 (by simp [e]) ne)
    simp only [List.cons_append] at h1 ⊢
    simp [repGreedy, h2, h3, h1]

/-! ## Heading decode -/

theorem decodeHeading_eq (h : Str) :
    decodeHeading h =
      match repLazy isDot 0 h (dhK1 h) with
      | some m => some (m.group 1, m.group 2)
      | none => none := rfl

theorem dhK2_none (h r s : Str) (hs : ∀ c ∈ s.head?, c ≠ '#') : dhK2 h r s = none := by
  cases s with
  | nil => rfl
  | cons c cs =>
    have : c ≠ '#' := hs c (by simp)
    simp [dhK2, this]

theorem decodeHeading_plain (h : Str) (hh : ∀ c ∈ h, c ≠ '#') (hd : ∀ c ∈ h, isDot c = true) :
    decodeHeading h = some (h, []) := by
  rw [decodeHeading_eq]
  have hno : ∀ r s1 s2, s1 ++ s2 = h → dhK2 h r s2 = none := by
    intro r s1 s2 e
    apply dhK2_none
    intro c hc
    apply hh
    rw [← e]
    exact List.mem_append_right _ (List.mem_of_mem_head? hc)
  have h1 : repLazy isDot 0 (h ++ []) (dhK1 h) = repLazy isDot 0 [] (dhK1 h) := by
    apply repLazy_skip _ _ _ _ hd
    intro a1 a2 e ne
    have : repGreedy isspace 0 (a2 ++ []) (dhK2 h (a2 ++ [])) = none := by
      apply repGreedy_none
      intro s1 s2 e2 _
      apply hno _ (a1 ++ s1) s2
      rw [e, List.append_assoc, ← e2]; simp
    simp only [dhK1, this]
    cases a2 with
    | nil => exact absurd rfl ne
    | cons c cs => simp
  rw [List.append_nil] at h1
  rw [h1]
  simp [repLazy, dhK1, repGreedy, dhK2, MState.group, List.lookup]


theorem dhK3_none (h cs r s : Str) (hs : ∀ c ∈ s.head?, c ≠ '#') : dhK3 h cs r s = none := by
  cases s with
  | nil => rfl
  | cons c cs =>
    have : c ≠ '#' := hs c (by simp)
    simp [dhK3, this]

/-- A run of whitespace at the start of `a2 ++ b` ends inside `a2` when `a2` ends with a
character that is not whitespace. -/
theorem head_of_split (p : Char → Bool) (a2 b s1 s2 : Str) (e : a2 ++ b = s1 ++ s2)
    (hs1 : ∀ c ∈ s1, p c = true) (ne : a2 ≠ []) (hl : ∀ c ∈ a2.getLast?, p c = false) :
    ∃ c, c ∈ s2.head? ∧ c ∈ a2 := by
  rcases List.append_eq_append_iff.1 e with ⟨a', e1, e2⟩ | ⟨c', e1, e2⟩
  · -- s1 = a2 ++ a'
    exfalso
    obtain ⟨x, hx⟩ : ∃ x, a2.getLast? = some x := by
      cases h : a2.getLast? with
      | none => exact absurd (List.getLast?_eq_none_iff.1 h) ne
      | some x => exact ⟨x, rfl⟩
    have h1 := hl x (by simp [hx])
    have h2 : x ∈ s1 := by
      rw [e1]; exact List.mem_append_left _ (List.mem_of_getLast?_eq_some hx)
    rw [hs1 x h2] at h1
    exact absurd h1 (by simp)
  · -- a2 = s1 ++ c'
    cases c' with
    | nil =>
      exfalso
      simp at e1
      obtain ⟨x, hx⟩ : ∃ x, a2.getLast? = some x := by
        cases h : a2.getLast? with
        | none => exact absurd (List.getLast?_eq_none_iff.1 h) ne
        | some x => exact ⟨x, rfl⟩
      have h1 := hl x (by simp [hx])
      have h2 : x ∈ s1 := by
        rw [← e1]; exact List.mem_of_getLast?_eq_some hx
      rw [hs1 x h2] at h1
      exact absurd h1 (by simp)
    | cons x xs =>
      refine ⟨x, ?_, ?_⟩
      · rw [e2]; simp
      · rw [e1]; simp

theorem decodeHeading_numbered (h n : Str) (hh : ∀ c ∈ h, c ≠ '#') (hd : ∀ c ∈ h, isDot c = true)
    (hl : ∀ c ∈ h.getLast?, isspace c = false)
    (hn : ∀ c ∈ n, c ≠ '#') (hnd : ∀ c ∈ n, isDot c = true) :
    decodeHeading (h ++ ' ' :: '#' :: (n ++ ['#'])) = some (h, n) := by
  rw [decodeHeading_eq]
  generalize hs : h ++ ' ' :: '#' :: (n ++ ['#']) = s
  have hb : repLazy isDot 0 (h ++ ' ' :: '#' :: (n ++ ['#'])) (dhK1 s)
      = repLazy isDot 0 (' ' :: '#' :: (n ++ ['#'])) (dhK1 s) := by
    apply repLazy_skip _ _ _ _ hd
    intro a1 a2 e ne
    have hl2 : ∀ c ∈ a2.getLast?, isspace c = false := by
      intro c hc
      apply hl c
      rw [e, List.getLast?_append_of_ne_nil _ ne]
      exact hc
    have : repGreedy isspace 0 (a2 ++ ' ' :: '#' :: (n ++ ['#']))
        (dhK2 s (a2 ++ ' ' :: '#' :: (n ++ ['#']))) = none := by
      apply repGreedy_none
      intro s1 s2 e2 hs1
      obtain ⟨c, hc1, hc2⟩ := head_of_split isspace a2 _ s1 s2 e2 hs1 ne hl2
      apply dhK2_none
      intro d hd'
      have : d = c := by
        rw [Option.mem_def] at hc1 hd'
        rw [hc1] at hd'
        exact (Option.some.inj hd').symm
      rw [this]
      exact hh c (by rw [e]; exact List.mem_append_right _ hc2)
    simp only [dhK1, this]
    cases a2 with
    | nil => exact absurd rfl ne
    | cons c cs => simp
  rw [hs] at hb
  have hn3 : repLazy isDot 0 (n ++ ['#']) (dhK3 s (n ++ ['#']) (' ' :: '#' :: (n ++ ['#'])))
      = some { rest := [], caps := [(2, n), (1, h)] } := by
    rw [repLazy_skip _ _ _ _ hnd]
    · apply repLazy_here
      simp [dhK3, ← hs]
    · intro a1 a2 e ne
      apply dhK3_none
      intro c hc
      cases a2 with
      | nil => exact absurd rfl ne
      | cons x xs =>
        simp at hc
        rw [← hc]
        exact hn x (by rw [e]; simp)
  rw [hb, repLazy_here _ _ _ { rest := [], caps := [(2, n), (1, h)] }]
  · simp [MState.group, List.lookup]
  · simp [dhK1, repGreedy, isspace, dhK2, hn3]

/-- C3 (amended): for every heading text `h` that contains no `#` and no line terminator
(line feed, carriage return) and has no trailing whitespace, and every scene number `n` that
contains no `#` and no line terminator, `decodeHeading (h ++ " #" ++ n ++ "#")` returns `(h, n)`
and `decodeHeading h` returns `(h, "")`; and a fresh parser, in both merge modes, commits the
line `INT. HOUSE - DAY #12#` as one non-forced scene heading with text `INT. HOUSE - DAY` and
scene number `12`. -/
theorem decodeHeading_sceneNumber (h n : Str)
    (hh : ∀ c ∈ h, c ≠ '#' ∧ c ≠ '\n' ∧ c ≠ '\r')
    (hl : ∀ c ∈ h.getLast?, isspace c = false)
    (hn : ∀ c ∈ n, c ≠ '#' ∧ c ≠ '\n' ∧ c ≠ '\r') :
    decodeHeading (h ++ " #".toList ++ n ++ "#".toList) = some (h, n)
    ∧ decodeHeading h = some (h, [])
    ∧ ∀ mergeActions mergeDialogue : Bool,
        (addLine (fresh mergeActions mergeDialogue) "INT. HOUSE - DAY #12#".toList).script.elements
          = [.Heading "INT. HOUSE - DAY".toList "12".toList false] := by
  have hd : ∀ c ∈ h, isDot c = true := fun c hc => by
    have := hh c hc
    simp [isDot, this.2.1, this.2.2]
  have hnd : ∀ c ∈ n, isDot c = true := fun c hc => by
    have := hn c hc
    simp [isDot, this.2.1, this.2.2]
  refine ⟨?_, decodeHeading_plain h (fun c hc => (hh c hc).1) hd, by decide⟩
  have := decodeHeading_numbered h n (fun c hc => (hh c hc).1) hd hl (fun c hc => (hn c hc).1) hnd
  simpa using this

/-- C3, witness: the heading `INT. HOUSE - DAY` with scene number `12`. -/
theorem decodeHeading_sceneNumber_witness :
    decodeHeading ("INT. HOUSE - DAY".toList ++ " #".toList ++ "12".toList ++ "#".toList)
      = some ("INT. HOUSE - DAY".toList, "12".toList)
    ∧ decodeHeading "INT. HOUSE - DAY".toList = some ("INT. HOUSE - DAY".toList, []) :=
  have h := decodeHeading_sceneNumber "INT. HOUSE - DAY".toList "12".toList
    (by decide) (by decide) (by decide)
  ⟨h.1, h.2.1⟩

/-- C3, counterexample: the heading text `A<CR>B` contains no `#` and has no trailing
whitespace, yet `decodeHeading` does not return it: the wildcard of the regex does not match a
carriage return, so the regex fails and the function returns no value, with or without a
scene-number marker. -/
theorem decodeHeading_counterexample :
    (∀ c ∈ ['A', '\r', 'B'], c ≠ '#')
    ∧ (∀ c ∈ ['A', '\r', 'B'].getLast?, isspace c = false)
    ∧ decodeHeading ['A', '\r', 'B'] = none
    ∧ decodeHeading (['A', '\r', 'B'] ++ " #".toList ++ "12".toList ++ "#".toList) = none := by
  decide

/-! ## Deleting occurrences, trimming -/

theorem stripAll_skip (pat a v : Str) : stripAll pat (a ++ v) a.length = stripAll pat v 0 := by
  induction a with
  | nil => rfl
  | cons c cs ih => simpa [stripAll] using ih

theorem stripAll_prefix (pat v : Str) (hp : pat ≠ []) :
    stripAll pat (pat ++ v) 0 = stripAll pat v 0 := by
  cases pat with
  | nil => exact absurd rfl hp
  | cons c cs =>
    have h : (c :: cs).isPrefixOf (c :: (cs ++ v)) = true := by
      rw [List.isPrefixOf_iff_prefix]; exact ⟨v, rfl⟩
    have h2 := stripAll_skip (c :: cs) cs v
    change stripAll (c :: cs) (c :: (cs ++ v)) 0 = _
    rw [stripAll, if_pos h]
    simpa using h2

theorem findAux_none (pat : Str) : ∀ (s : Str) (i : Nat), pat ≠ [] →
    findAux pat s i = none → stripAll pat s 0 = s
  | [], _, _, _ => rfl
  | c :: cs, i, hp, h => by
    unfold findAux at h
    split at h
    · exact absurd h (by simp)
    · rename_i hc
      simp only [stripAll, hc]
      simp [findAux_none pat cs (i + 1) hp h]

theorem findAux_some (pat : Str) : ∀ (s : Str) (i p : Nat), pat ≠ [] →
    findAux pat s i = some p →
    ∃ u v, s = u ++ pat ++ v ∧ p = i + u.length ∧ stripAll pat s 0 = u ++ stripAll pat v 0
  | [], i, p, hp, h => by
    unfold findAux at h
    cases pat with
    | nil => exact absurd rfl hp
    | cons c cs => simp at h
  | c :: cs, i, p, hp, h => by
    unfold findAux at h
    split at h
    · rename_i hc
      obtain ⟨v, hv⟩ := List.isPrefixOf_iff_prefix.1 hc
      refine ⟨[], v, by simpa using hv.symm, by simpa using (Option.some.inj h).symm, ?_⟩
      rw [← hv]
      simpa using stripAll_prefix pat v hp
    · rename_i hc
      obtain ⟨u, v, e, ep, es⟩ := findAux_some pat cs (i + 1) p hp h
      refine ⟨c :: u, v, by simp [e], by simp [ep]; omega, ?_⟩
      simp only [stripAll, hc]
      simp [es]

theorem replaceAllLoop_eq (pat : Str) (hp : pat ≠ []) : ∀ (fuel : Nat) (pre s : Str),
    s.length < fuel →
    replaceAllLoop pat [] fuel (pre ++ s) pre.length = some (pre ++ stripAll pat s 0)
  | 0, _, _, h => absurd h (by omega)
  | fuel + 1, pre, s, h => by
    unfold replaceAllLoop
    have hf : find (pre ++ s) pat pre.length = findAux pat s pre.length := by
      simp [find]
    rw [hf]
    cases hfa : findAux pat s pre.length with
    | none => simp [findAux_none pat s _ hp hfa]
    | some p =>
      obtain ⟨u, v, e, ep, es⟩ := findAux_some pat s _ p hp hfa
      have hlen : 0 < pat.length := List.length_pos.2 hp
      have h1 : List.take p (pre ++ s) ++ [] ++ List.drop (p + pat.length) (pre ++ s)
          = (pre ++ u) ++ v := by
        subst e ep
        have e1 : pre ++ (u ++ pat ++ v) = (pre ++ u) ++ (pat ++ v) := by simp
        have e2 : pre ++ (u ++ pat ++ v) = (pre ++ u ++ pat) ++ v := by simp
        have t1 : List.take (pre.length + u.length) (pre ++ (u ++ pat ++ v)) = pre ++ u := by
          rw [e1]; exact List.take_left' (by simp)
        have t2 : List.drop (pre.length + u.length + pat.length) (pre ++ (u ++ pat ++ v)) = v := by
          rw [e2]; exact List.drop_left' (by simp; omega)
        rw [t1, t2]; simp
      have h2 : p + ([] : Str).length = (pre ++ u).length := by simp [ep]
      simp only [h1, h2]
      rw [replaceAllLoop_eq pat hp fuel (pre ++ u) v (by
        subst e; simp at h; omega)]
      simp [es]

theorem replaceAll_eq (pat s : Str) (hp : pat ≠ []) : replaceAll s pat [] = stripAll pat s 0 := by
  have := replaceAllLoop_eq pat hp (s.length + 1) [] s (by omega)
  simp only [List.nil_append, List.length_nil] at this
  simp [replaceAll, this]

theorem isPrefixOf_sep (d : Char) (Y : Str) : ∀ (pat X : Str), d ∉ pat →
    pat.isPrefixOf (X ++ d :: Y) = pat.isPrefixOf X
  | [], X, _ => by simp
  | c :: cs, [], h => by
    have : c ≠ d := fun e => h (by simp [e])
    simp [List.isPrefixOf, this]
  | c :: cs, x :: xs, h => by
    have := isPrefixOf_sep d Y cs xs (fun hd => h (by simp [hd]))
    simp [List.isPrefixOf, this]

theorem isPrefixOf_length (pat : Str) (X : Str) (h : pat.isPrefixOf X = true) :
    pat.length ≤ X.length := by
  obtain ⟨v, hv⟩ := List.isPrefixOf_iff_prefix.1 h
  rw [← hv]; simp

theorem stripAll_sep (pat : Str) (d : Char) (Y : Str) (hp : pat ≠ []) (hd : d ∉ pat) :
    ∀ (X : Str) (k : Nat), k ≤ X.length →
      stripAll pat (X ++ d :: Y) k = stripAll pat X k ++ d :: stripAll pat Y 0
  | [], k, hk => by
    have hk0 : k = 0 := by simpa using hk
    subst hk0
    have : pat.isPrefixOf (d :: Y) = false := by
      cases pat with
      | nil => exact absurd rfl hp
      | cons c cs =>
        have : c ≠ d := fun e => hd (by simp [e])
        simp [List.isPrefixOf, this]
    simp [stripAll, this]
  | c :: cs, k + 1, hk => by
    have := stripAll_sep pat d Y hp hd cs k (by simpa using hk)
    simpa [stripAll] using this
  | c :: cs, 0, _ => by
    have hpre := isPrefixOf_sep d Y pat (c :: cs) hd
    simp only [List.cons_append] at hpre ⊢
    by_cases h : pat.isPrefixOf (c :: cs) = true
    · have hl := isPrefixOf_length pat (c :: cs) h
      have := stripAll_sep pat d Y hp hd cs (pat.length - 1) (by simp at hl; omega)
      simp only [stripAll, hpre, h, if_true]
      exact this
    · have := stripAll_sep pat d Y hp hd cs 0 (by omega)
      simp only [stripAll, hpre, h]
      simp [this]

theorem stripAll_head_not_mem (c : Char) (pt : Str) (b : Str) : ∀ (a : Str), c ∉ a →
    stripAll (c :: pt) (a ++ b) 0 = a ++ stripAll (c :: pt) b 0
  | [], _ => rfl
  | x :: xs, h => by
    have hx : c ≠ x := fun e => h (by simp [e])
    have := stripAll_head_not_mem c pt b xs (fun hm => h (by simp [hm]))
    simp [stripAll, List.isPrefixOf, hx, this]

theorem stripAll_not_mem (c : Char) (pt : Str) (a : Str) (h : c ∉ a) :
    stripAll (c :: pt) a 0 = a := by
  have := stripAll_head_not_mem c pt [] a h
  simpa [stripAll] using this

theorem trimLeft_append (Z W : Str) :
    trimLeft (Z ++ W) = if Z.all isspace then trimLeft W else trimLeft Z ++ W := by
  induction Z with
  | nil => simp [trimLeft]
  | cons c cs ih =>
    by_cases hc : isspace c = true
    · simp only [trimLeft] at ih
      simp [trimLeft, List.dropWhile, hc, ih]
    · simp [trimLeft, List.dropWhile, hc]

theorem trimRight_append_space (A : Str) (d : Char) (hd : isspace d = true) :
    trimRight (A ++ [d]) = trimRight A := by
  simp [trimRight, List.dropWhile, hd]

theorem trimRight_nil : trimRight [] = [] := rfl

theorem trim_append_space (Z : Str) (d : Char) (hd : isspace d = true) :
    trim (Z ++ [d]) = trim Z := by
  unfold trim
  rw [trimLeft_append]
  by_cases h : Z.all isspace = true
  · have h2 : trimLeft Z = [] := by
      simp only [trimLeft, List.dropWhile_eq_nil_iff]
      simpa using h
    rw [h2]
    simp [h, trimLeft, List.dropWhile, hd]
  · simp only [h]
    exact trimRight_append_space _ d hd

theorem trim_id (s : Str) (h1 : ∀ c ∈ s.head?, isspace c = false)
    (h2 : ∀ c ∈ s.getLast?, isspace c = false) : trim s = s := by
  have e1 : trimLeft s = s := by
    cases s with
    | nil => rfl
    | cons c cs =>
      have := h1 c (by simp)
      simp [trimLeft, List.dropWhile, this]
  unfold trim
  rw [e1]
  unfold trimRight
  have e2 : s.reverse.dropWhile isspace = s.reverse := by
    cases hr : s.reverse with
    | nil => rfl
    | cons c cs =>
      have : s.getLast? = some c := by
        rw [List.getLast?_eq_head?_reverse, hr]; rfl
      have := h2 c (by simp [this])
      simp [List.dropWhile, this]
  rw [e2, List.reverse_reverse]

theorem trim_blank (s : Str) (h : isEmptyOrWhitespace s = true) : trim s = [] := by
  have h2 : trimLeft s = [] := by
    simp only [trimLeft, List.dropWhile_eq_nil_iff]
    simpa [isEmptyOrWhitespace] using h
  simp [trim, h2, trimRight]

theorem regex_match_characterDecode (s : Str) :
    regex_match s regexCharacterDecode
      = repLazy (fun c => c != '(' && c != '^') 1 s
          (fun r => cdTail2.run s ⟨r, [(1, s.take (s.length - r.length))]⟩ matchEnd) := by
  unfold regex_match regexCharacterDecode
  simp only [Re.cat, Re.run, beq_self_eq_true, if_true, cdTail2, reExtension, reCaret]
  rfl

/-- A run at the start of `a2 ++ b` of characters with `p` ends inside `a2` when `a2` ends with a
character without `p`. -/
theorem split_inside (p : Char → Bool) (a2 b s1 s2 : Str) (e : a2 ++ b = s1 ++ s2)
    (hs1 : ∀ c ∈ s1, p c = true) (ne : a2 ≠ []) (hl : ∀ c ∈ a2.getLast?, p c = false) :
    ∃ a3, a3 ≠ [] ∧ a2 = s1 ++ a3 ∧ s2 = a3 ++ b := by
  obtain ⟨x, hx⟩ : ∃ x, a2.getLast? = some x := by
    cases h : a2.getLast? with
    | none => exact absurd (List.getLast?_eq_none_iff.1 h) ne
    | some x => exact ⟨x, rfl⟩
  have hpx : p x = false := hl x (by simp [hx])
  have hxs1 : x ∉ s1 := fun hm => by rw [hs1 x hm] at hpx; exact absurd hpx (by simp)
  rcases List.append_eq_append_iff.1 e with ⟨a', e1, _⟩ | ⟨c', e1, e2⟩
  · exact absurd (by rw [e1]; exact List.mem_append_left _ (List.mem_of_getLast?_eq_some hx)) hxs1
  · cases c' with
    | nil =>
      exfalso
      simp at e1
      exact hxs1 (by rw [← e1]; exact List.mem_of_getLast?_eq_some hx)
    | cons y ys => exact ⟨y :: ys, by simp, e1, e2⟩

theorem cdTail3_none (s r1 : Str) (caps : List (Nat × Str)) (hne : r1 ≠ [])
    (h1 : ∀ c ∈ r1.head?, c ≠ '(')
    (h2 : ∀ s1 s2, r1 = s1 ++ s2 → (∀ c ∈ s1, isspace c = true) → ∀ c ∈ s2.head?, c ≠ '^') :
    cdTail3.run s ⟨r1, caps⟩ matchEnd = none := by
  cases r1 with
  | nil => exact absurd rfl hne
  | cons c cs =>
    have hc : c ≠ '(' := h1 c (by simp)
    have hg : repGreedy isspace 0 (c :: cs) (fun r =>
        (Re.chr '^').run s ⟨r, caps⟩ (fun st1 =>
          (Re.rep isspace 0 true).run s st1 (fun st2 => Re.eol.run s st2 matchEnd))) = none := by
      apply repGreedy_none
      intro s1 s2 e hs1
      cases s2 with
      | nil => simp [Re.run, Re.chr]
      | cons d ds =>
        have : d ≠ '^' := h2 s1 (d :: ds) e hs1 d (by simp)
        simp [Re.run, Re.chr, this]
    simp only [cdTail3, reExtension, reCaret, Re.cat, Re.run, Re.chr, ↓reduceIte] at hg ⊢
    rw [hg]
    simp [hc]

theorem cdTail2_none (s a2 b : Str) (caps : List (Nat × Str)) (hne : a2 ≠ [])
    (h1 : ∀ c ∈ a2, c ≠ '(' ∧ c ≠ '^') (hl : ∀ c ∈ a2.getLast?, isspace c = false) :
    cdTail2.run s ⟨a2 ++ b, caps⟩ matchEnd = none := by
  have : cdTail2.run s ⟨a2 ++ b, caps⟩ matchEnd
      = repGreedy isspace 0 (a2 ++ b) (fun r => cdTail3.run s ⟨r, caps⟩ matchEnd) := by
    simp only [cdTail2, cdTail3, Re.cat, Re.run, ↓reduceIte]
  rw [this]
  apply repGreedy_none
  intro s1 s2 e hs1
  obtain ⟨a3, ne3, e3, e4⟩ := split_inside isspace a2 b s1 s2 e hs1 hne hl
  have hl3 : ∀ c ∈ a3.getLast?, isspace c = false := by
    intro c hc
    apply hl c
    rw [e3, List.getLast?_append_of_ne_nil _ ne3]
    exact hc
  have hm3 : ∀ c ∈ a3, c ∈ a2 := fun c hc => by rw [e3]; exact List.mem_append_right _ hc
  subst e4
  apply cdTail3_none
  · simp [ne3]
  · intro c hc
    cases a3 with
    | nil => exact absurd rfl ne3
    | cons y ys =>
      simp at hc
      subst hc
      exact (h1 _ (hm3 _ (by simp))).1
  · intro t1 t2 et ht1 c hc
    obtain ⟨a4, ne4, e5, e6⟩ := split_inside isspace a3 b t1 t2 et ht1 ne3 hl3
    subst e6
    cases a4 with
    | nil => exact absurd rfl ne4
    | cons y ys =>
      simp at hc
      subst hc
      exact (h1 _ (hm3 _ (by rw [e5]; simp))).2

theorem characterDecode_form (N b : Str) (res : MState) (hne : N ≠ [])
    (h1 : ∀ c ∈ N, c ≠ '(' ∧ c ≠ '^') (hl : ∀ c ∈ N.getLast?, isspace c = false)
    (hb : cdTail2.run (N ++ b) ⟨b, [(1, N)]⟩ matchEnd = some res) :
    regex_match (N ++ b) regexCharacterDecode = some res := by
  rw [regex_match_characterDecode]
  cases N with
  | nil => exact absurd rfl hne
  | cons c cs =>
    have hc := h1 c (by simp)
    have hp : ∀ d ∈ cs, (fun c => c != '(' && c != '^') d = true := by
      intro d hd
      have := h1 d (by simp [hd])
      simp [this.1, this.2]
    simp only [List.cons_append, repLazy]
    have hpc : (c != '(' && c != '^') = true := by simp [hc.1, hc.2]
    rw [if_pos hpc]
    change repLazy _ 0 (cs ++ b) _ = _
    rw [repLazy_skip _ _ cs b hp]
    · apply repLazy_here
      have : List.take ((c :: (cs ++ b)).length - b.length) (c :: (cs ++ b)) = c :: cs := by
        have : (c :: (cs ++ b)) = (c :: cs) ++ b := rfl
        rw [this]
        apply List.take_left'
        simp; omega
      rw [this]
      exact hb
    · intro a1 a2 e ne
      apply cdTail2_none _ _ _ _ ne
      · intro d hd
        exact h1 d (by rw [e]; simp [hd])
      · intro d hd
        apply hl d
        rw [e, ← List.cons_append, List.getLast?_append_of_ne_nil _ ne]
        exact hd

theorem isPrefixOf_close (c : Char) : ∀ (body E : Str), c ∉ E →
    (body ++ [c]).isPrefixOf (E ++ [c]) = true → E = body
  | [], [], _, _ => rfl
  | [], e :: es, h, hp => by
    simp [List.isPrefixOf] at hp
    exact absurd (by simp [hp]) h
  | b :: bs, [], _, hp => by
    cases bs <;> simp [List.isPrefixOf] at hp
  | b :: bs, e :: es, h, hp => by
    simp [List.isPrefixOf] at hp
    have := isPrefixOf_close c bs es (fun hm => h (by simp [hm])) (by simpa [List.isPrefixOf_iff_prefix] using hp.2)
    rw [hp.1, this]

theorem contdStraight_eq : contdStraight = '(' :: (contdStraightBody ++ [')']) := by decide

theorem contdTypographic_eq : contdTypographic = '(' :: (contdTypographicBody ++ [')']) := by
  decide

theorem stripAll_extension (body N E : Str) (hN : '(' ∉ N) (hE : ∀ c ∈ E, c ≠ '(' ∧ c ≠ ')')
    (hne : E ≠ body) :
    stripAll ('(' :: (body ++ [')'])) (N ++ ' ' :: '(' :: (E ++ [')'])) 0
      = N ++ ' ' :: '(' :: (E ++ [')']) := by
  have h1 := stripAll_head_not_mem '(' (body ++ [')']) ('(' :: (E ++ [')'])) (N ++ [' '])
    (by simp [hN])
  have hpre : (body ++ [')']).isPrefixOf (E ++ [')']) = false := by
    cases h : (body ++ [')']).isPrefixOf (E ++ [')']) with
    | false => rfl
    | true => exact absurd (isPrefixOf_close ')' body E (fun hm => (hE _ hm).2 rfl) h) hne
  have h2 : stripAll ('(' :: (body ++ [')'])) (E ++ [')']) 0 = E ++ [')'] := by
    apply stripAll_not_mem
    simp only [List.mem_append, List.mem_singleton, not_or]
    exact ⟨fun hm => (hE _ hm).1 rfl, by decide⟩
  have h3 : stripAll ('(' :: (body ++ [')'])) ('(' :: (E ++ [')'])) 0 = '(' :: (E ++ [')']) := by
    simp only [stripAll, List.isPrefixOf, beq_self_eq_true, Bool.true_and, hpre]
    simp [h2]
  rw [h3] at h1
  simpa using h1

theorem stripContd_eq (line : Str) :
    stripContd line = trim (stripAll contdTypographic (stripAll contdStraight line 0) 0) := by
  unfold stripContd
  rw [replaceAll_eq _ _ (by decide), replaceAll_eq _ _ (by decide)]

theorem stripContd_append_straight (X : Str) :
    stripContd (X ++ ' ' :: contdStraight) = stripContd X := by
  rw [stripContd_eq, stripContd_eq]
  rw [stripAll_sep contdStraight ' ' contdStraight (by decide) (by decide) X 0 (by omega)]
  have e1 : stripAll contdStraight contdStraight 0 = [] := by decide
  rw [e1, stripAll_sep contdTypographic ' ' [] (by decide) (by decide) _ 0 (by omega)]
  exact trim_append_space _ ' ' (by decide)

theorem stripContd_append_typographic (X : Str) :
    stripContd (X ++ ' ' :: contdTypographic) = stripContd X := by
  rw [stripContd_eq, stripContd_eq]
  rw [stripAll_sep contdStraight ' ' contdTypographic (by decide) (by decide) X 0 (by omega)]
  have e1 : stripAll contdStraight contdTypographic 0 = contdTypographic := by decide
  rw [e1, stripAll_sep contdTypographic ' ' contdTypographic (by decide) (by decide) _ 0
    (by omega)]
  have e2 : stripAll contdTypographic contdTypographic 0 = [] := by decide
  rw [e2]
  exact trim_append_space _ ' ' (by decide)

theorem stripContd_id (s : Str) (h : '(' ∉ s) (h1 : ∀ c ∈ s.head?, isspace c = false)
    (h2 : ∀ c ∈ s.getLast?, isspace c = false) : stripContd s = s := by
  rw [stripContd_eq, contdStraight_eq, contdTypographic_eq, stripAll_not_mem _ _ _ h,
    stripAll_not_mem _ _ _ h, trim_id _ h1 h2]

theorem head?_append_left (N b : Str) (hne : N ≠ []) : (N ++ b).head? = N.head? := by
  cases N with
  | nil => exact absurd rfl hne
  | cons c cs => rfl

theorem decodeCharacter_name (N : Str) (hne : N ≠ []) (h1 : ∀ c ∈ N, c ≠ '(' ∧ c ≠ '^')
    (hh : ∀ c ∈ N.head?, isspace c = false) (hl : ∀ c ∈ N.getLast?, isspace c = false) :
    decodeCharacter N = some ⟨N, [], false⟩ := by
  have hs : stripContd N = N := stripContd_id N (fun hm => (h1 _ hm).1 rfl) hh hl
  have hr := characterDecode_form N [] ⟨[], [(1, N)]⟩ hne h1 hl (by
    simp [cdTail2, reExtension, reCaret, Re.cat, Re.run, Re.chr, repGreedy, matchEnd])
  rw [List.append_nil] at hr
  have hd : (N.getLast? == some '^') = false := by
    cases h : N.getLast? with
    | none => rfl
    | some x =>
      have := (h1 x (List.mem_of_getLast?_eq_some h)).2
      simp [this]
  simp only [decodeCharacter, hs, hr, hd]
  simp [MState.group, List.lookup]

theorem decodeCharacter_dual (N : Str) (hne : N ≠ []) (h1 : ∀ c ∈ N, c ≠ '(' ∧ c ≠ '^')
    (hh : ∀ c ∈ N.head?, isspace c = false) (hl : ∀ c ∈ N.getLast?, isspace c = false) :
    decodeCharacter (N ++ [' ', '^']) = some ⟨N, [], true⟩ := by
  have hs : stripContd (N ++ [' ', '^']) = N ++ [' ', '^'] := by
    apply stripContd_id
    · simp only [List.mem_append, not_or]
      exact ⟨fun hm => (h1 _ hm).1 rfl, by decide⟩
    · rw [head?_append_left _ _ hne]; exact hh
    · rw [List.getLast?_append_of_ne_nil _ (by simp)]; decide
  have hr := characterDecode_form N [' ', '^'] ⟨[], [(1, N)]⟩ hne h1 hl (by
    simp [cdTail2, reExtension, reCaret, Re.cat, Re.run, Re.chr, repGreedy, matchEnd, isspace])
  have hd : ((N ++ [' ', '^']).getLast? == some '^') = true := by
    rw [List.getLast?_append_of_ne_nil _ (by simp)]; decide
  simp only [decodeCharacter, hs, hr, hd]
  simp [MState.group, List.lookup]

theorem decodeCharacter_extension (N E : Str) (hne : N ≠ []) (h1 : ∀ c ∈ N, c ≠ '(' ∧ c ≠ '^')
    (hh : ∀ c ∈ N.head?, isspace c = false) (hl : ∀ c ∈ N.getLast?, isspace c = false)
    (hE : ∀ c ∈ E, c ≠ '(' ∧ c ≠ ')' ∧ c ≠ '\n' ∧ c ≠ '\r')
    (hs1 : E ≠ contdStraightBody) (hs2 : E ≠ contdTypographicBody) :
    decodeCharacter (N ++ ' ' :: '(' :: (E ++ [')'])) = some ⟨N, E, false⟩ := by
  have hs : stripContd (N ++ ' ' :: '(' :: (E ++ [')'])) = N ++ ' ' :: '(' :: (E ++ [')']) := by
    rw [stripContd_eq, contdStraight_eq, contdTypographic_eq,
      stripAll_extension _ N E (fun hm => (h1 _ hm).1 rfl) (fun c hc => ⟨(hE c hc).1, (hE c hc).2.1⟩)
        hs1,
      stripAll_extension _ N E (fun hm => (h1 _ hm).1 rfl) (fun c hc => ⟨(hE c hc).1, (hE c hc).2.1⟩)
        hs2]
    apply trim_id
    · rw [head?_append_left _ _ hne]; exact hh
    · have : N ++ ' ' :: '(' :: (E ++ [')']) = (N ++ ' ' :: '(' :: E) ++ [')'] := by simp
      rw [this, List.getLast?_append_of_ne_nil _ (by simp)]; decide
  have hdot : ∀ c ∈ E, isDot c = true := fun c hc => by
    have := hE c hc
    simp [isDot, this.2.2.1, this.2.2.2]
  have hr := characterDecode_form N (' ' :: '(' :: (E ++ [')'])) ⟨[], [(2, E), (1, N)]⟩ hne h1 hl
    (by
      simp only [cdTail2, reExtension, reCaret, Re.cat, Re.run, Re.chr, ↓reduceIte]
      simp only [repGreedy, isspace]
      simp only [show (' ' == ' ') = true by decide, show ('(' == ' ') = false by decide,
        show ('(' == '\t') = false by decide, show ('(' == '\n') = false by decide,
        show ('(' == Char.ofNat 11) = false by decide, show ('(' == Char.ofNat 12) = false by decide,
        show ('(' == '\r') = false by decide, show ('(' == '(') = true by decide,
        Bool.or_false, Bool.or_true, Bool.true_or, ↓reduceIte, Bool.false_eq_true]
      rw [repGreedy_append_some isDot _ E [')'] ⟨[], [(2, E), (1, N)]⟩ hdot]
      · rfl
      · simp [repGreedy, isDot, matchEnd, isspace])
  have hd : ((N ++ ' ' :: '(' :: (E ++ [')'])).getLast? == some '^') = false := by
    have : N ++ ' ' :: '(' :: (E ++ [')']) = (N ++ ' ' :: '(' :: E) ++ [')'] := by simp
    rw [this, List.getLast?_append_of_ne_nil _ (by simp)]; decide
  simp only [decodeCharacter, hs, hr, hd]
  simp [MState.group, List.lookup]

/-- C5 (amended): for every non-empty name `N` that contains neither `(` nor `^` and has no
leading or trailing whitespace, `decodeCharacter N` is `(N, "", false)`; `decodeCharacter (N ++ " ^")`
is `(N, "", true)`; `decodeCharacter (N ++ " (" ++ E ++ ")")` is `(N, E, false)` for every extension
`E` without parentheses and without line terminators that is not `CONT'D` itself (either
apostrophe); for every line `X`, appending ` (CONT'D)` (either apostrophe) to `X` does not
change the result; and in every successful decode the dual flag is true exactly when the line,
after stripping `(CONT'D)` and trimming, ends with `^`. -/
theorem decodeCharacter_forms (N : Str) (hne : N ≠ []) (h1 : ∀ c ∈ N, c ≠ '(' ∧ c ≠ '^')
    (hh : ∀ c ∈ N.head?, isspace c = false) (hl : ∀ c ∈ N.getLast?, isspace c = false) :
    decodeCharacter N = some ⟨N, [], false⟩
    ∧ decodeCharacter (N ++ " ^".toList) = some ⟨N, [], true⟩
    ∧ (∀ E : Str, (∀ c ∈ E, c ≠ '(' ∧ c ≠ ')' ∧ c ≠ '\n' ∧ c ≠ '\r') →
        E ≠ contdStraightBody → E ≠ contdTypographicBody →
        decodeCharacter (N ++ " (".toList ++ E ++ ")".toList) = some ⟨N, E, false⟩)
    ∧ (∀ X : Str, decodeCharacter (X ++ ' ' :: contdStraight) = decodeCharacter X
        ∧ decodeCharacter (X ++ ' ' :: contdTypographic) = decodeCharacter X)
    ∧ (∀ (line : Str) (info : CharacterInfo), decodeCharacter line = some info →
        info.dual = ((stripContd line).getLast? == some '^')) := by
  refine ⟨decodeCharacter_name N hne h1 hh hl, decodeCharacter_dual N hne h1 hh hl, ?_, ?_, ?_⟩
  · intro E hE hs1 hs2
    have := decodeCharacter_extension N E hne h1 hh hl hE hs1 hs2
    simpa using this
  · intro X
    constructor
    · simp only [decodeCharacter, stripContd_append_straight]
    · simp only [decodeCharacter, stripContd_append_typographic]
  · intro line info h
    simp only [decodeCharacter] at h
    cases hm : regex_match (stripContd line) regexCharacterDecode with
    | none => rw [hm] at h; exact absurd h (by simp)
    | some m => rw [hm] at h; rw [← Option.some.inj h]

/-- C5, witness: the name `JOHN`; in particular `JOHN ^` decodes to the name `JOHN` with the
dual flag set, and `JOHN (V.O.)` to the extension `V.O.`. -/
theorem decodeCharacter_forms_witness :
    decodeCharacter "JOHN".toList = some ⟨"JOHN".toList, [], false⟩
    ∧ decodeCharacter "JOHN ^".toList = some ⟨"JOHN".toList, [], true⟩
    ∧ decodeCharacter "JOHN (V.O.)".toList = some ⟨"JOHN".toList, "V.O.".toList, false⟩ :=
  have h := decodeCharacter_forms "JOHN".toList (by decide) (by decide) (by decide) (by decide)
  ⟨h.1, h.2.1, h.2.2.1 "V.O.".toList (by decide) (by decide) (by decide)⟩

/-- C5, counterexample: the extensions `CONT'D` and `V<CR>O` contain no parentheses, yet
`JOHN (CONT'D)` decodes to an empty extension, because the whole parenthetical is deleted
before the regex runs, and `JOHN (V<CR>O)` does not decode at all, because the wildcard of the
extension group does not match a carriage return. -/
theorem decodeCharacter_counterexample :
    (∀ c ∈ contdStraightBody, c ≠ '(' ∧ c ≠ ')')
    ∧ decodeCharacter ("JOHN (".toList ++ contdStraightBody ++ ")".toList)
        = some ⟨"JOHN".toList, [], false⟩
    ∧ (∀ c ∈ ['V', '\r', 'O'], c ≠ '(' ∧ c ≠ ')')
    ∧ decodeCharacter ("JOHN (".toList ++ ['V', '\r', 'O'] ++ ")".toList) = none := by
  decide

/-! ## More on the matcher -/

theorem repLazy_none (p : Char → Bool) (K : Str → Option MState) :
    ∀ (s : Str) (n : Nat), (∀ s1 s2, s = s1 ++ s2 → K s2 = none) → repLazy p n s K = none
  | [], 0, h => by simpa [repLazy] using h [] [] rfl
  | [], _ + 1, _ => rfl
  | c :: cs, 0, h => by
    have h0 : K (c :: cs) = none := h [] (c :: cs) rfl
    have := repLazy_none p K cs 0 (fun s1 s2 e => h (c :: s1) s2 (by simp [e]))
    simp [repLazy, h0, this]
  | c :: cs, n + 1, h => by
    have := repLazy_none p K cs n (fun s1 s2 e => h (c :: s1) s2 (by simp [e]))
    simp [repLazy, this]

theorem repGreedy_none_min (p : Char → Bool) (K : Str → Option MState) :
    ∀ (s : Str) (n : Nat), (∀ s1 s2, s = s1 ++ s2 → (∀ c ∈ s1, p c = true) → K s2 = none) →
      repGreedy p n s K = none
  | s, 0, h => repGreedy_none p K s h
  | [], _ + 1, _ => rfl
  | c :: cs, n + 1, h => by
    by_cases hc : p c = true
    · have := repGreedy_none_min p K cs n (fun s1 s2 e hs => h (c :: s1) s2 (by simp [e]) (by
        intro d hd
        rcases List.mem_cons.1 hd with rfl | hd
        · exact hc
        · exact hs d hd))
      simp [repGreedy, hc, this]
    · simp [repGreedy, hc]

theorem repGreedy_some_inv (p : Char → Bool) (K : Str → Option MState) (r : MState) :
    ∀ (s : Str) (n : Nat), repGreedy p n s K = some r →
      ∃ s1 s2, s = s1 ++ s2 ∧ (∀ c ∈ s1, p c = true) ∧ n ≤ s1.length ∧ K s2 = some r
  | [], 0, h => ⟨[], [], rfl, by simp, by simp, by simpa [repGreedy] using h⟩
  | [], _ + 1, h => by simp [repGreedy] at h
  | c :: cs, 0, h => by
    by_cases hc : p c = true
    · simp only [repGreedy, hc, if_true] at h
      cases hg : repGreedy p 0 cs K with
      | some r' =>
        rw [hg] at h
        simp at h
        subst h
        obtain ⟨s1, s2, e, hs, _, hk⟩ := repGreedy_some_inv p K r' cs 0 hg
        exact ⟨c :: s1, s2, by simp [e], by
          intro d hd
          rcases List.mem_cons.1 hd with rfl | hd
          · exact hc
          · exact hs d hd, by simp, hk⟩
      | none =>
        rw [hg] at h
        simp at h
        exact ⟨[], c :: cs, rfl, by simp, by simp, h⟩
    · simp only [repGreedy, hc] at h
      exact ⟨[], c :: cs, rfl, by simp, by simp, by simpa using h⟩
  | c :: cs, n + 1, h => by
    by_cases hc : p c = true
    · simp only [repGreedy, hc, if_true] at h
      obtain ⟨s1, s2, e, hs, hn, hk⟩ := repGreedy_some_inv p K r cs n h
      exact ⟨c :: s1, s2, by simp [e], by
        intro d hd
        rcases List.mem_cons.1 hd with rfl | hd
        · exact hc
        · exact hs d hd, by simp; omega, hk⟩
    · simp [repGreedy, hc] at h

theorem repLazy_some_inv (p : Char → Bool) (K : Str → Option MState) (r : MState) :
    ∀ (s : Str) (n : Nat), repLazy p n s K = some r →
      ∃ s1 s2, s = s1 ++ s2 ∧ (∀ c ∈ s1, p c = true) ∧ n ≤ s1.length ∧ K s2 = some r
  | [], 0, h => ⟨[], [], rfl, by simp, by simp, by simpa [repLazy] using h⟩
  | [], _ + 1, h => by simp [repLazy] at h
  | c :: cs, 0, h => by
    simp only [repLazy] at h
    cases hk : K (c :: cs) with
    | some r' =>
      rw [hk] at h
      simp at h
      subst h
      exact ⟨[], c :: cs, rfl, by simp, by simp, hk⟩
    | none =>
      rw [hk] at h
      simp at h
      obtain ⟨hc, h⟩ := h
      obtain ⟨s1, s2, e, hs, _, hk2⟩ := repLazy_some_inv p K r cs 0 h
      exact ⟨c :: s1, s2, by simp [e], by
        intro d hd
        rcases List.mem_cons.1 hd with rfl | hd
        · exact hc
        · exact hs d hd, by simp, hk2⟩
  | c :: cs, n + 1, h => by
    by_cases hc : p c = true
    · simp only [repLazy, hc, if_true] at h
      obtain ⟨s1, s2, e, hs, hn, hk⟩ := repLazy_some_inv p K r cs n h
      exact ⟨c :: s1, s2, by simp [e], by
        intro d hd
        rcases List.mem_cons.1 hd with rfl | hd
        · exact hc
        · exact hs d hd, by simp; omega, hk⟩
    · simp [repLazy, hc] at h

/-- `regexTitleEntry` needs a colon. -/
theorem regexTitleEntry_none (s : Str) (h : ':' ∉ s) : regex_match s regexTitleEntry = none := by
  unfold regex_match regexTitleEntry
  simp only [Re.cat, Re.run, Re.chr, beq_self_eq_true, ↓reduceIte, Bool.false_eq_true]
  apply repGreedy_none
  intro s1 s2 e _
  apply repLazy_none
  intro s3 s4 e2
  apply repGreedy_none
  intro s5 s6 e3 _
  cases s6 with
  | nil => rfl
  | cons c cs =>
    have : c ≠ ':' := by
      rintro rfl
      apply h
      rw [e, e2, e3]
      simp
    simp [this]

/-- `regexParenthesis` needs an opening parenthesis right after the leading whitespace. -/
theorem regexParenthesis_none (s : Str)
    (h : ∀ s1 s2, s = s1 ++ s2 → (∀ c ∈ s1, isspace c = true) → ∀ c ∈ s2.head?, c ≠ '(') :
    regex_match s regexParenthesis = none := by
  unfold regex_match regexParenthesis
  simp only [Re.cat, Re.run, Re.chr, beq_self_eq_true, ↓reduceIte, Bool.false_eq_true]
  apply repGreedy_none
  intro s1 s2 e hs
  cases s2 with
  | nil => rfl
  | cons c cs =>
    have : c ≠ '(' := h s1 (c :: cs) e hs c (by simp)
    simp [this]

theorem blank_no_colon (s : Str) (h : isEmptyOrWhitespace s = true) : ':' ∉ s := by
  intro hm
  have := List.all_eq_true.1 h ':' hm
  exact absurd this (by decide)

theorem regexTitleEntry_blank (s : Str) (h : isEmptyOrWhitespace s = true) :
    regex_match s regexTitleEntry = none := regexTitleEntry_none s (blank_no_colon s h)

theorem regexParenthesis_blank (s : Str) (h : isEmptyOrWhitespace s = true) :
    regex_match s regexParenthesis = none := by
  apply regexParenthesis_none
  intro s1 s2 e _ c hc
  rintro rfl
  have hm : '(' ∈ s := by rw [e]; exact List.mem_append_right _ (List.mem_of_mem_head? hc)
  have := List.all_eq_true.1 h '(' hm
  exact absurd this (by decide)

/-! ## The parser: frame, rule chains, blank lines -/

theorem appendToElement_frame (p : FountainParser) (i : Nat) (l : Str) :
    (p.appendToElement i l).frame = p.frame := rfl

theorem foldl_appendToElement_frame (i : Nat) (pads : List FountainElement) :
    ∀ p : FountainParser,
      (pads.foldl (fun q padAction => q.appendToElement i padAction.getTextRaw) p).frame
        = p.frame := by
  induction pads with
  | nil => intro p; rfl
  | cons a as ih => intro p; simp only [List.foldl_cons]; rw [ih]; rfl

theorem foldl_addPad_frame (pads : List FountainElement) :
    ∀ p : FountainParser,
      (pads.foldl (fun q padAction => { q with script := q.script.addElement padAction }) p).frame
        = p.frame := by
  induction pads with
  | nil => intro p; rfl
  | cons a as ih => intro p; simp only [List.foldl_cons]; rw [ih]; rfl

theorem addElement_frame (p : FountainParser) (e : FountainElement) :
    (p.addElement e).frame = p.frame := by
  unfold addElement
  simp only
  repeat' split
  all_goals first
    | rfl
    | exact foldl_appendToElement_frame _ _ _
    | exact foldl_addPad_frame _ _

/-! ### chains of rules -/

theorem firstOf_append (fs gs : List (FountainParser → FountainParser × Bool))
    (p : FountainParser) :
    firstOf (fs ++ gs) p
      = if (firstOf fs p).2 then firstOf fs p else firstOf gs (firstOf fs p).1 := by
  induction fs generalizing p with
  | nil => simp [firstOf]
  | cons f fs ih =>
    simp only [List.cons_append, firstOf]
    by_cases h : (f p).2 = true
    · simp [h]
    · simp only [h]
      exact ih _

theorem firstOf_unchanged (fs : List (FountainParser → FountainParser × Bool))
    (hfs : ∀ f ∈ fs, ∀ p, (f p).2 = false → (f p).1 = p) (p : FountainParser)
    (h : (firstOf fs p).2 = false) : firstOf fs p = (p, false) := by
  induction fs generalizing p with
  | nil => rfl
  | cons f fs ih =>
    simp only [firstOf] at h ⊢
    by_cases hf : (f p).2 = true
    · simp [hf] at h
    · simp only [hf] at h ⊢
      have e := hfs f (by simp) p (by simpa using hf)
      rw [e] at h ⊢
      exact ih (fun g hg => hfs g (by simp [hg])) p h

theorem parseSection_true_or (p : FountainParser) : (parseSection p).2 = true ∨ (parseSection p).1 = p := by
  unfold parseSection
  try dsimp only
  repeat' split
  all_goals first | exact Or.inr rfl | exact Or.inl rfl

theorem parseForcedAction_true_or (p : FountainParser) : (parseForcedAction p).2 = true ∨ (parseForcedAction p).1 = p := by
  unfold parseForcedAction
  try dsimp only
  repeat' split
  all_goals first | exact Or.inr rfl | exact Or.inl rfl

theorem parseForcedSceneHeading_true_or (p : FountainParser) : (parseForcedSceneHeading p).2 = true ∨ (parseForcedSceneHeading p).1 = p := by
  unfold parseForcedSceneHeading
  try dsimp only
  repeat' split
  all_goals first | exact Or.inr rfl | exact Or.inl rfl

theorem parseForcedCharacter_true_or (p : FountainParser) : (parseForcedCharacter p).2 = true ∨ (parseForcedCharacter p).1 = p := by
  unfold parseForcedCharacter
  try dsimp only
  repeat' split
  all_goals first | exact Or.inr rfl | exact Or.inl rfl

theorem parseForcedTransition_true_or (p : FountainParser) : (parseForcedTransition p).2 = true ∨ (parseForcedTransition p).1 = p := by
  unfold parseForcedTransition
  try dsimp only
  repeat' split
  all_goals first | exact Or.inr rfl | exact Or.inl rfl

theorem parsePageBreak_true_or (p : FountainParser) : (parsePageBreak p).2 = true ∨ (parsePageBreak p).1 = p := by
  unfold parsePageBreak
  try dsimp only
  repeat' split
  all_goals first | exact Or.inr rfl | exact Or.inl rfl

theorem parseLyrics_true_or (p : FountainParser) : (parseLyrics p).2 = true ∨ (parseLyrics p).1 = p := by
  unfold parseLyrics
  try dsimp only
  repeat' split
  all_goals first | exact Or.inr rfl | exact Or.inl rfl

theorem parseSynopsis_true_or (p : FountainParser) : (parseSynopsis p).2 = true ∨ (parseSynopsis p).1 = p := by
  unfold parseSynopsis
  try dsimp only
  repeat' split
  all_goals first | exact Or.inr rfl | exact Or.inl rfl

theorem parseCenteredText_true_or (p : FountainParser) : (parseCenteredText p).2 = true ∨ (parseCenteredText p).1 = p := by
  unfold parseCenteredText
  try dsimp only
  repeat' split
  all_goals first | exact Or.inr rfl | exact Or.inl rfl

theorem parseSceneHeading_true_or (p : FountainParser) : (parseSceneHeading p).2 = true ∨ (parseSceneHeading p).1 = p := by
  unfold parseSceneHeading
  try dsimp only
  repeat' split
  all_goals first | exact Or.inr rfl | exact Or.inl rfl

theorem parseTransition_true_or (p : FountainParser) : (parseTransition p).2 = true ∨ (parseTransition p).1 = p := by
  unfold parseTransition
  try dsimp only
  repeat' split
  all_goals first | exact Or.inr rfl | exact Or.inl rfl

theorem parseParenthesis_true_or (p : FountainParser) : (parseParenthesis p).2 = true ∨ (parseParenthesis p).1 = p := by
  unfold parseParenthesis
  try dsimp only
  repeat' split
  all_goals first | exact Or.inr rfl | exact Or.inl rfl

theorem parseCharacter_true_or (p : FountainParser) : (parseCharacter p).2 = true ∨ (parseCharacter p).1 = p := by
  unfold parseCharacter
  try dsimp only
  repeat' split
  all_goals first | exact Or.inr rfl | exact Or.inl rfl

theorem parseDialogue_true_or (p : FountainParser) : (parseDialogue p).2 = true ∨ (parseDialogue p).1 = p := by
  unfold parseDialogue
  try dsimp only
  repeat' split
  all_goals first | exact Or.inr rfl | exact Or.inl rfl

theorem parseBoneyard_true_or (p : FountainParser) : (parseBoneyard p).2 = true ∨ (parseBoneyard p).1 = p := by
  unfold parseBoneyard
  try dsimp only
  repeat' split
  all_goals first | exact Or.inr rfl | exact Or.inl rfl

theorem parseNotes_true_or (p : FountainParser) : (parseNotes p).2 = true ∨ (parseNotes p).1 = p := by
  unfold parseNotes
  try dsimp only
  repeat' split
  all_goals first | exact Or.inr rfl | exact Or.inl rfl

theorem unchanged_of_true_or {f : FountainParser → FountainParser × Bool}
    (hf : ∀ p, (f p).2 = true ∨ (f p).1 = p) (p : FountainParser) (h : (f p).2 = false) :
    (f p).1 = p := by
  rcases hf p with h1 | h1
  · rw [h] at h1; exact absurd h1 (by simp)
  · exact h1

/-- A classification rule that returns `false` leaves the parser as it was. -/
theorem rules_unchanged : ∀ f ∈ rules, ∀ p, (f p).2 = false → (f p).1 = p := by
  intro f hf
  simp only [rules, List.mem_cons, List.mem_singleton, List.not_mem_nil, or_false] at hf
  rcases hf with rfl | rfl | rfl | rfl | rfl | rfl | rfl | rfl | rfl | rfl | rfl | rfl | rfl | rfl
  · exact unchanged_of_true_or parseSection_true_or
  · exact unchanged_of_true_or parseForcedAction_true_or
  · exact unchanged_of_true_or parseForcedSceneHeading_true_or
  · exact unchanged_of_true_or parseForcedCharacter_true_or
  · exact unchanged_of_true_or parseForcedTransition_true_or
  · exact unchanged_of_true_or parsePageBreak_true_or
  · exact unchanged_of_true_or parseLyrics_true_or
  · exact unchanged_of_true_or parseSynopsis_true_or
  · exact unchanged_of_true_or parseCenteredText_true_or
  · exact unchanged_of_true_or parseSceneHeading_true_or
  · exact unchanged_of_true_or parseTransition_true_or
  · exact unchanged_of_true_or parseParenthesis_true_or
  · exact unchanged_of_true_or parseCharacter_true_or
  · exact unchanged_of_true_or parseDialogue_true_or

/-! ### the document assembler -/

theorem addElement_blank (p : FountainParser) (e : FountainElement)
    (h : (e.getType == .ACTION && e.isEmpty && !e.isCentered) = true) :
    p.addElement e
      = if lastIs p.getLastElement .ACTION then
          { p with inDialogue := false, padActions := p.padActions ++ [e] }
        else { p with inDialogue := false } := by
  unfold addElement
  simp only [h, if_true]

theorem addElement_commit (p : FountainParser) (e : FountainElement)
    (h1 : (e.getType == .ACTION && e.isEmpty && !e.isCentered) = false)
    (h2 : p.padActions = [])
    (h3 : (p.mergeActions && e.getType == .ACTION && !e.isCentered
            && lastIsPlainAction p.getLastElement) = false) :
    p.addElement e
      = { p with
          script := p.script.addElement e
          padActions := []
          inDialogue := e.getType == .CHARACTER || e.getType == .PARENTHESIS
            || e.getType == .DIALOGUE } := by
  unfold addElement
  simp [h1, h2, h3]

theorem addElement_merge (p : FountainParser) (e : FountainElement)
    (h1 : (e.getType == .ACTION && e.isEmpty && !e.isCentered) = false)
    (h2 : p.padActions = [])
    (h3 : (p.mergeActions && e.getType == .ACTION && !e.isCentered
            && lastIsPlainAction p.getLastElement) = true) :
    p.addElement e
      = { p.appendToElement (p.script.elements.length - 1) e.getTextRaw with padActions := [] } := by
  unfold addElement
  simp [h1, h2, h3, appendToElement]

/-! ### rules on a blank line -/

theorem parseSection_blank (p : FountainParser) (h : p.lineTrim = []) :
    parseSection p = (p, false) := by
  simp only [parseSection, h, show startsWith [] "###".toList = false by decide,
    show startsWith [] "##".toList = false by decide,
    show startsWith [] "#".toList = false by decide, Bool.false_eq_true, ↓reduceIte]

theorem parseForcedAction_blank (p : FountainParser) (h : p.lineTrim = []) :
    parseForcedAction p = (p, false) := by
  simp only [parseForcedAction, h, show startsWith [] "!".toList = false by decide,
    Bool.false_eq_true, ↓reduceIte]

theorem parseForcedSceneHeading_blank (p : FountainParser) (h : p.lineTrim = []) :
    parseForcedSceneHeading p = (p, false) := by
  simp only [parseForcedSceneHeading, h,
    show (regex_search [] regexForcedHeading).isSome = false by decide,
    Bool.false_eq_true, ↓reduceIte]

theorem parseForcedCharacter_blank (p : FountainParser) (h : p.lineTrim = []) :
    parseForcedCharacter p = (p, false) := by
  simp only [parseForcedCharacter, h, show startsWith [] "@".toList = false by decide,
    Bool.false_eq_true, ↓reduceIte]

theorem parseForcedTransition_blank (p : FountainParser) (h : p.lineTrim = []) :
    parseForcedTransition p = (p, false) := by
  simp only [parseForcedTransition, h, show startsWith [] ">".toList = false by decide,
    Bool.false_and, Bool.false_eq_true, ↓reduceIte]

theorem parsePageBreak_blank (p : FountainParser) (h : p.lineTrim = []) :
    parsePageBreak p = (p, false) := by
  simp only [parsePageBreak, h, show contains [] "===".toList = false by decide,
    Bool.false_eq_true, ↓reduceIte]

theorem parseLyrics_blank (p : FountainParser) (h : p.lineTrim = []) :
    parseLyrics p = (p, false) := by
  simp only [parseLyrics, h, show startsWith [] "~".toList = false by decide,
    Bool.false_eq_true, ↓reduceIte]

theorem parseSynopsis_blank (p : FountainParser) (h : p.lineTrim = []) :
    parseSynopsis p = (p, false) := by
  simp only [parseSynopsis, h, show (regex_match [] synopsisRegex).isSome = false by decide,
    Bool.false_eq_true, ↓reduceIte]

theorem parseCenteredText_blank (p : FountainParser) (h : p.lineTrim = []) :
    parseCenteredText p = (p, false) := by
  simp only [parseCenteredText, h, show startsWith [] ">".toList = false by decide,
    Bool.false_and, Bool.false_eq_true, ↓reduceIte]

theorem parseSceneHeading_blank (p : FountainParser) (h : p.lineTrim = []) :
    parseSceneHeading p = (p, false) := by
  simp only [parseSceneHeading, h, show (regex_search [] regexHeading).isSome = false by decide,
    Bool.false_eq_true, ↓reduceIte]

theorem parseTransition_blank (p : FountainParser) (h : p.lineTrim = []) :
    parseTransition p = (p, false) := by
  simp only [parseTransition, h, show (regex_match [] regexTransition).isSome = false by decide,
    Bool.false_and, Bool.false_eq_true, ↓reduceIte]

theorem parseParenthesis_blank (p : FountainParser) (h : isEmptyOrWhitespace p.line = true) :
    parseParenthesis p = (p, false) := by
  simp only [parseParenthesis, regexParenthesis_blank _ h]

theorem parseCharacter_blank (p : FountainParser) (h : p.lineTrim = []) :
    parseCharacter p = (p, false) := by
  simp only [parseCharacter, h, show stripContd [] = [] by decide,
    show (regex_match [] regexCharacter).isSome = false by decide,
    Bool.and_false, Bool.false_eq_true, ↓reduceIte]

/-- None of the thirteen rules before the dialogue rule claims a blank line. -/
theorem rules_blank (p : FountainParser) (h : p.lineTrim = [])
    (hl : isEmptyOrWhitespace p.line = true) : firstOf (rules.take 13) p = (p, false) := by
  simp only [rules, List.take, firstOf, parseSection_blank p h, parseForcedAction_blank p h,
    parseForcedSceneHeading_blank p h, parseForcedCharacter_blank p h,
    parseForcedTransition_blank p h, parsePageBreak_blank p h, parseLyrics_blank p h,
    parseSynopsis_blank p h, parseCenteredText_blank p h, parseSceneHeading_blank p h,
    parseTransition_blank p h, parseParenthesis_blank p hl, parseCharacter_blank p h,
    Bool.false_eq_true, ↓reduceIte]

/-! ## Character-cue lookahead -/

@[simp] theorem loadLine_line (p : FountainParser) (l : Str) : (p.loadLine l).line = l := rfl
@[simp] theorem loadLine_lineTrim (p : FountainParser) (l : Str) :
    (p.loadLine l).lineTrim = trim l := rfl
@[simp] theorem loadLine_lastLine (p : FountainParser) (l : Str) :
    (p.loadLine l).lastLine = p.line := rfl
@[simp] theorem loadLine_lastLineEmpty (p : FountainParser) (l : Str) :
    (p.loadLine l).lastLineEmpty = isEmptyOrWhitespace p.line := rfl

/-- With no block open and a line that opens none, `addLine` resolves what is pending and
classifies the line. -/
theorem addLine_eq_classify (p : FountainParser) (l : Str) (hb : p.boneyard = none)
    (hn : p.note = none) (ho : opensBlock l = false) :
    addLine p l
      = classify (if !p.pending.isEmpty then parsePending (p.loadLine l) else p.loadLine l) := by
  simp only [opensBlock, Bool.or_eq_false_iff] at ho
  have h1 : parseBoneyard (p.loadLine l) = (p.loadLine l, false) := by
    simp only [parseBoneyard, loadLine, hb, ho.1, Bool.false_eq_true, ↓reduceIte]
  have h2 : parseNotes (p.loadLine l) = (p.loadLine l, false) := by
    simp only [parseNotes, loadLine, hn, ho.2, Bool.false_eq_true, ↓reduceIte]
  simp only [addLine, firstOf, h1, h2, Bool.false_eq_true, ↓reduceIte]
  rfl

theorem opensBlock_blank (l : Str) (h : isEmptyOrWhitespace l = true) : opensBlock l = false := by
  simp only [opensBlock, trim_blank l h]
  decide

/-- Outside the title page a line that no rule claims is handed to `parseAction`. -/
theorem classify_fallback (p : FountainParser) (ht : p.inTitlePage = false)
    (h : (firstOf rules p).2 = false) : classify p = parseAction p := by
  have := firstOf_unchanged rules rules_unchanged p h
  simp only [classify, ht, Bool.false_eq_true, ↓reduceIte, this]

theorem rules_split (n : Nat) (p : FountainParser) (h : p.matchedBefore n = false) :
    firstOf rules p = firstOf (rules.drop n) p := by
  have e : rules = rules.take n ++ rules.drop n := (List.take_append_drop n rules).symm
  have h1 := firstOf_unchanged (rules.take n)
    (fun f hf => rules_unchanged f (List.mem_of_mem_take hf)) p h
  conv_lhs => rw [e]
  rw [firstOf_append, h1]
  simp

theorem matchedBefore_blank (p : FountainParser) (h : p.lineTrim = [])
    (hl : isEmptyOrWhitespace p.line = true) : p.matchedBefore 13 = false := by
  simp only [matchedBefore, rules_blank p h hl]

/-- A blank line outside the title page that the dialogue rule does not claim ends up in
`parseAction`. -/
theorem classify_blank (p : FountainParser) (h : p.lineTrim = [])
    (hl : isEmptyOrWhitespace p.line = true) (ht : p.inTitlePage = false)
    (hd : parseDialogue p = (p, false)) : classify p = parseAction p := by
  apply classify_fallback p ht
  rw [rules_split 13 p (matchedBefore_blank p h hl)]
  simp only [rules, List.drop, firstOf, hd, Bool.false_eq_true, ↓reduceIte]

theorem addLine_fresh_blank (mA mD : Bool) (b : Str) (hb : isEmptyOrWhitespace b = true) :
    addLine (fresh mA mD) b = { fresh mA mD with inTitlePage := false, line := b } := by
  rw [addLine_eq_classify _ _ rfl rfl (opensBlock_blank b hb)]
  have e0 : (if (!(fresh mA mD).pending.isEmpty) = true then
      parsePending ((fresh mA mD).loadLine b) else (fresh mA mD).loadLine b)
      = { fresh mA mD with line := b } := by
    simp only [fresh, loadLine, trim_blank b hb, List.isEmpty, Bool.not_true, Bool.false_eq_true,
      ↓reduceIte, isEmptyOrWhitespace, List.all_nil]
  rw [e0]
  have e1 : classify { fresh mA mD with line := b }
      = classify { fresh mA mD with inTitlePage := false, line := b } := by
    simp only [classify, fresh, parseTitlePage, regexTitleEntry_blank b hb, Bool.false_and,
      Bool.false_eq_true, ↓reduceIte]
  rw [e1, classify_blank _ rfl hb rfl (by
    simp [parseDialogue, fresh, getLastElement, lastIs])]
  simp [parseAction, addElement_blank, FountainElement.getType, FountainElement.isEmpty,
    FountainElement.getTextRaw, FountainElement.isCentered, hb, fresh, getLastElement, lastIs]


theorem trimRight_head (c : Char) (cs : Str) (hc : isspace c = false) :
    ∃ t, trimRight (c :: cs) = c :: t := by
  unfold trimRight
  have := trimLeft_append cs.reverse [c]
  simp only [trimLeft] at this
  rw [List.reverse_cons, this]
  split
  · exact ⟨[], by simp [List.dropWhile, hc]⟩
  · exact ⟨(List.dropWhile isspace cs.reverse).reverse, by simp⟩

/-- The trimmed form of a line that is not blank starts with a character that is not
whitespace. -/
theorem trim_nonblank (s : Str) (h : isEmptyOrWhitespace s = false) :
    ∃ c cs, trim s = c :: cs ∧ isspace c = false := by
  unfold trim
  have h1 : ∃ c cs, trimLeft s = c :: cs ∧ isspace c = false := by
    induction s with
    | nil => simp [isEmptyOrWhitespace] at h
    | cons d ds ih =>
      by_cases hd : isspace d = true
      · have : isEmptyOrWhitespace ds = false := by
          simp only [isEmptyOrWhitespace, List.all_cons, hd, Bool.true_and] at h ⊢
          exact h
        obtain ⟨c, cs, e, hc⟩ := ih this
        exact ⟨c, cs, by simpa [trimLeft, List.dropWhile, hd] using e, hc⟩
      · exact ⟨d, ds, by simp [trimLeft, List.dropWhile, hd], by simpa using hd⟩
  obtain ⟨c, cs, e, hc⟩ := h1
  rw [e]
  obtain ⟨t, ht⟩ := trimRight_head c cs hc
  exact ⟨c, t, ht, hc⟩

theorem trim_ne_nil_not_blank (s : Str) (h : trim s ≠ []) :
    isEmptyOrWhitespace (trim s) = false := by
  cases hb : isEmptyOrWhitespace s with
  | true => exact absurd (trim_blank s hb) h
  | false =>
    obtain ⟨c, cs, e, hc⟩ := trim_nonblank s hb
    simp [e, isEmptyOrWhitespace, hc]

theorem nonblank_ne_nil (s : Str) (h : isEmptyOrWhitespace s = false) : s ≠ [] := by
  rintro rfl
  simp [isEmptyOrWhitespace] at h

/-- The test of `parsePending` for a character cue succeeds on a line that is not blank. -/
theorem pendingTest_nonblank (s : Str) (h : isEmptyOrWhitespace s = false) :
    (!(trim s).isEmpty && (findFirstNotOf [' ', '\t'] (trim s) 0).isSome) = true := by
  obtain ⟨c, cs, e, hc⟩ := trim_nonblank s h
  have h1 : c ≠ ' ' := by rintro rfl; exact absurd hc (by decide)
  have h2 : c ≠ '\t' := by rintro rfl; exact absurd hc (by decide)
  simp [e, findFirstNotOf, h1, h2]

theorem cue_trim_ne_nil (L : Str)
    (h : (regex_match (stripContd (trim L)) regexCharacter).isSome = true) : trim L ≠ [] := by
  intro e
  rw [e] at h
  exact absurd h (by decide)


/-- State of a fresh parser after a blank line and a character cue `L`. -/
theorem addLine_cue (mA mD : Bool) (b L : Str) (info : CharacterInfo)
    (hb : isEmptyOrWhitespace b = true) (hL : opensBlock L = false)
    (hearlier : ((addLine (fresh mA mD) b).loadLine L).matchedBefore 12 = false)
    (hcue : (regex_match (stripContd (trim L)) regexCharacter).isSome = true)
    (hdec : decodeCharacter (stripContd (trim L)) = some info) :
    addLine (addLine (fresh mA mD) b) L
      = { fresh mA mD with
          inTitlePage := false, lastLine := b, lastLineEmpty := true, line := L, lineTrim := trim L,
          pending := [⟨.CHARACTER,
            .Character (stripContd (trim L)) info.name info.extension info.dual,
            .Action (trim L) false false⟩] } := by
  rw [addLine_fresh_blank mA mD b hb] at hearlier ⊢
  rw [addLine_eq_classify _ _ rfl rfl hL]
  have e0 : (if (!({ fresh mA mD with inTitlePage := false, line := b } :
        FountainParser).pending.isEmpty) = true then
      parsePending (({ fresh mA mD with inTitlePage := false, line := b } :
        FountainParser).loadLine L)
      else ({ fresh mA mD with inTitlePage := false, line := b } : FountainParser).loadLine L)
      = ({ fresh mA mD with inTitlePage := false, line := b } : FountainParser).loadLine L := by
    simp [fresh]
  rw [e0]
  have hr := rules_split 12 _ hearlier
  simp only [classify, loadLine, fresh, Bool.false_eq_true, ↓reduceIte] at hr ⊢
  rw [hr]
  simp only [rules, List.drop, firstOf, parseCharacter, hb, hcue, hdec, Bool.and_self, ↓reduceIte,
    List.nil_append]


/-- Resolution of a single pending character cue by a line that is not blank. -/
theorem resolve_character_nonblank (p : FountainParser) (x : PendingElement) (N : Str)
    (hp : p.pending = [x]) (hx : x.type = .CHARACTER) (hN : isEmptyOrWhitespace N = false) :
    (if !p.pending.isEmpty then parsePending (p.loadLine N) else p.loadLine N)
      = { (p.loadLine N).addElement x.element with pending := [] } := by
  have h1 : (p.loadLine N).pending = [x] := hp
  have hne : (!p.pending.isEmpty) = true := by rw [hp]; rfl
  rw [if_pos hne]
  simp only [↓reduceIte, parsePending, h1, List.foldl,
    resolvePending, hx, show (Element.CHARACTER == Element.TRANSITION) = false by decide,
    show (Element.CHARACTER == Element.CHARACTER) = true by decide, Bool.false_eq_true,
    loadLine_lineTrim, pendingTest_nonblank N hN]

/-- Resolution of a single pending character cue by a blank line. -/
theorem resolve_character_blank (p : FountainParser) (x : PendingElement) (N : Str)
    (hp : p.pending = [x]) (hx : x.type = .CHARACTER) (hN : isEmptyOrWhitespace N = true) :
    (if !p.pending.isEmpty then parsePending (p.loadLine N) else p.loadLine N)
      = { (p.loadLine N).addElement x.backup with pending := [] } := by
  have h1 : (p.loadLine N).pending = [x] := hp
  have hne : (!p.pending.isEmpty) = true := by rw [hp]; rfl
  rw [if_pos hne]
  simp only [↓reduceIte, parsePending, h1, List.foldl,
    resolvePending, hx, show (Element.CHARACTER == Element.TRANSITION) = false by decide,
    show (Element.CHARACTER == Element.CHARACTER) = true by decide, Bool.false_eq_true,
    loadLine_lineTrim, trim_blank N hN,
    show (!([] : Str).isEmpty && (findFirstNotOf [' ', '\t'] [] 0).isSome) = false by decide]

/-- Resolution of a single pending transition by a line that is not blank. -/
theorem resolve_transition_nonblank (p : FountainParser) (x : PendingElement) (N : Str)
    (hp : p.pending = [x]) (hx : x.type = .TRANSITION) (hN : isEmptyOrWhitespace N = false) :
    (if !p.pending.isEmpty then parsePending (p.loadLine N) else p.loadLine N)
      = { (p.loadLine N).addElement x.backup with pending := [] } := by
  have h1 : (p.loadLine N).pending = [x] := hp
  have h2 : (p.loadLine N).lineTrimBlank = false := by
    have := pendingTest_nonblank N hN
    simp only [lineTrimBlank, loadLine_lineTrim]
    cases h3 : (trim N).isEmpty <;> cases h4 : findFirstNotOf [' ', '\t'] (trim N) 0 <;>
      simp_all
  have hne : (!p.pending.isEmpty) = true := by rw [hp]; rfl
  rw [if_pos hne]
  simp only [↓reduceIte, parsePending, h1, List.foldl,
    resolvePending, hx, show (Element.TRANSITION == Element.TRANSITION) = true by decide, h2,
    Bool.false_eq_true]

/-- Resolution of a single pending transition by a blank line. -/
theorem resolve_transition_blank (p : FountainParser) (x : PendingElement) (N : Str)
    (hp : p.pending = [x]) (hx : x.type = .TRANSITION) (hN : isEmptyOrWhitespace N = true) :
    (if !p.pending.isEmpty then parsePending (p.loadLine N) else p.loadLine N)
      = { (p.loadLine N).addElement x.element with pending := [] } := by
  have h1 : (p.loadLine N).pending = [x] := hp
  have h2 : (p.loadLine N).lineTrimBlank = true := by
    simp only [lineTrimBlank, loadLine_lineTrim, trim_blank N hN]
    rfl
  have hne : (!p.pending.isEmpty) = true := by rw [hp]; rfl
  rw [if_pos hne]
  simp only [↓reduceIte, parsePending, h1, List.foldl,
    resolvePending, hx, show (Element.TRANSITION == Element.TRANSITION) = true by decide, h2]


theorem parseDialogue_after_character (q : FountainParser) (e : FountainElement)
    (hl : q.getLastElement = some e) (he : e.getType = .CHARACTER) (hne : q.line ≠ []) :
    parseDialogue q = (q.addElement (.Dialogue q.lineTrim), true) := by
  have h1 : q.line.isEmpty = false := by
    cases h : q.line with
    | nil => exact absurd h hne
    | cons c cs => rfl
  simp only [parseDialogue, hl, lastIs, he, h1, Bool.not_false, Bool.true_and,
    show (Element.CHARACTER == Element.CHARACTER) = true by decide, Bool.true_or, ↓reduceIte]

theorem parseDialogue_after_action (q : FountainParser) (e : FountainElement)
    (hl : q.getLastElement = some e) (he : e.getType = .ACTION) :
    parseDialogue q = (q, false) := by
  simp only [parseDialogue, hl, lastIs, he,
    show (Element.ACTION == Element.CHARACTER) = false by decide,
    show (Element.ACTION == Element.PARENTHESIS) = false by decide,
    show (Element.ACTION == Element.DIALOGUE) = false by decide, Bool.or_self, Bool.and_false,
    Bool.false_eq_true, ↓reduceIte]

/-- C1 (amended): a fresh parser is fed a blank line `b`, then a character-cue line `L` (it
opens no block, none of the twelve rules before the character rule claims it, the character
regex matches it and it decodes to `info`), then a line `N`. After `L` nothing is committed and
the cue is pending. If `N` is not blank and opens no boneyard or notes block, `addLine N` first
commits the Character element with the decoded name and then classifies `N`; when `N` reaches
the dialogue rule the document is the Character followed by a Dialogue with text `trim N`. If
`N` is blank, the document is the plain Action with text `trim L`, no Character, and nothing
stays pending. -/
theorem character_lookahead (mA mD : Bool) (b L : Str) (info : CharacterInfo)
    (hb : isEmptyOrWhitespace b = true) (hL : opensBlock L = false)
    (hearlier : ((addLine (fresh mA mD) b).loadLine L).matchedBefore 12 = false)
    (hcue : (regex_match (stripContd (trim L)) regexCharacter).isSome = true)
    (hdec : decodeCharacter (stripContd (trim L)) = some info) :
    let s2 := addLine (addLine (fresh mA mD) b) L
    let cue := FountainElement.Character (stripContd (trim L)) info.name info.extension info.dual
    (s2.script.elements = [] ∧ s2.pending = [⟨.CHARACTER, cue, .Action (trim L) false false⟩])
    ∧ (∀ N : Str, isEmptyOrWhitespace N = false → opensBlock N = false →
        let q : FountainParser := { (s2.loadLine N).addElement cue with pending := [] }
        addLine s2 N = classify q ∧ q.script.elements = [cue]
        ∧ (q.matchedBefore 13 = false →
            (addLine s2 N).script.elements = [cue, .Dialogue (trim N)]))
    ∧ (∀ N : Str, isEmptyOrWhitespace N = true →
        (addLine s2 N).script.elements = [.Action (trim L) false false]
        ∧ (addLine s2 N).pending = []) := by
  intro s2 cue
  have hs2 : s2 = _ := addLine_cue mA mD b L info hb hL hearlier hcue hdec
  clear_value s2
  have hLne := cue_trim_ne_nil L hcue
  have fb : s2.boneyard = none := by rw [hs2]; rfl
  have fn : s2.note = none := by rw [hs2]; rfl
  have fp : s2.pending = [⟨.CHARACTER, cue, .Action (trim L) false false⟩] := by rw [hs2]
  refine ⟨⟨by rw [hs2]; rfl, fp⟩, ?_, ?_⟩
  · intro N hN hNo q
    have hq : q = { s2.loadLine N with
        script := ⟨[cue], []⟩, padActions := [], pending := [], inDialogue := true } := by
      simp only [q]
      rw [addElement_commit _ _ (by simp [FountainElement.getType]) (by rw [hs2]; rfl)
          (by simp [FountainElement.getType])]
      subst hs2
      rfl
    clear_value q
    have hstep : addLine s2 N = classify q := by
      rw [addLine_eq_classify _ _ fb fn hNo, resolve_character_nonblank _ _ N fp rfl hN,
        addElement_commit _ _ (by simp [FountainElement.getType]) (by rw [hs2]; rfl)
          (by simp [FountainElement.getType]), hq]
      subst hs2
      rfl
    refine ⟨hstep, by rw [hq], ?_⟩
    intro hm
    rw [hstep]
    have hr := rules_split 13 _ hm
    have ht : q.inTitlePage = false := by rw [hq, hs2]; rfl
    simp only [classify, ht, Bool.false_eq_true, ↓reduceIte]
    rw [hr]
    simp only [rules, List.drop, firstOf]
    rw [parseDialogue_after_character q cue (by rw [hq]; rfl) rfl (by
      rw [hq]; exact nonblank_ne_nil N hN)]
    simp only [↓reduceIte]
    rw [addElement_commit _ _ (by simp [FountainElement.getType]) (by rw [hq])
      (by simp [FountainElement.getType])]
    rw [hq]
    rfl
  · intro N hN
    have hNt := trim_blank N hN
    obtain ⟨q, hq⟩ : ∃ q : FountainParser, q = { s2.loadLine N with
        script := ⟨[.Action (trim L) false false], []⟩, padActions := [], pending := [],
        inDialogue := false } := ⟨_, rfl⟩
    have hstep : addLine s2 N = classify q := by
      rw [addLine_eq_classify _ _ fb fn (opensBlock_blank N hN),
        resolve_character_blank _ _ N fp rfl hN,
        addElement_commit _ _ (by
          simp [FountainElement.getType, FountainElement.isEmpty, FountainElement.getTextRaw,
            trim_ne_nil_not_blank L hLne]) (by rw [hs2]; rfl)
          (by rw [hs2]; simp [getLastElement, lastIsPlainAction, loadLine, fresh]), hq]
      subst hs2
      rfl
    rw [hstep, classify_blank q (by rw [hq]; exact hNt) (by rw [hq]; exact hN)
      (by rw [hq, hs2]; rfl)
      (parseDialogue_after_action q (.Action (trim L) false false) (by rw [hq]; rfl) rfl)]
    rw [parseAction, addElement_blank _ _ (by
      simp only [FountainElement.getType, FountainElement.isEmpty, FountainElement.getTextRaw,
        FountainElement.isCentered]
      rw [hq]
      simp [hN])]
    rw [hq]
    constructor <;> split <;> rfl

/-- C1, witness: a blank line, `JOHN`, then `Hello there` gives the Character `JOHN` and the
Dialogue `Hello there`; a blank line, `JOHN`, then an empty line gives the Action `JOHN`. -/
theorem character_lookahead_witness :
    (addLine (addLine (addLine (fresh true true) []) "JOHN".toList)
        "Hello there".toList).script.elements
      = [.Character (stripContd (trim "JOHN".toList)) "JOHN".toList [] false,
         .Dialogue (trim "Hello there".toList)]
    ∧ (addLine (addLine (addLine (fresh true true) []) "JOHN".toList) []).script.elements
      = [.Action (trim "JOHN".toList) false false] :=
  have h := character_lookahead true true [] "JOHN".toList ⟨"JOHN".toList, [], false⟩
    (by decide) (by decide) (by decide) (by decide) (by decide)
  ⟨(h.2.1 "Hello there".toList (by decide) (by decide)).2.2 (by decide),
   (h.2.2 [] (by decide)).1⟩

/-- C1, counterexample: after a blank line and the cue `JOHN`, the line `/* x` is not blank, yet
`addLine` commits no Character for it: the line opens a boneyard block before the pending cue
is looked at, the document stays empty and the cue stays pending. -/
theorem character_lookahead_counterexample :
    isEmptyOrWhitespace "/* x".toList = false
    ∧ (addLine (addLine (addLine (fresh true true) []) "JOHN".toList)
        "/* x".toList).script.elements = []
    ∧ (addLine (addLine (addLine (fresh true true) []) "JOHN".toList)
        "/* x".toList).pending.length = 1 := by
  decide

/-! ## Transition lookahead -/

theorem foldl_appendToElement_pending (i : Nat) (pads : List FountainElement) :
    ∀ p : FountainParser,
      (pads.foldl (fun q padAction => q.appendToElement i padAction.getTextRaw) p).pending
        = p.pending := by
  induction pads with
  | nil => intro p; rfl
  | cons a as ih => intro p; simp only [List.foldl_cons]; rw [ih]; rfl

theorem foldl_addPad_pending (pads : List FountainElement) :
    ∀ p : FountainParser,
      (pads.foldl (fun q padAction =>
        { q with script := q.script.addElement padAction }) p).pending = p.pending := by
  induction pads with
  | nil => intro p; rfl
  | cons a as ih => intro p; simp only [List.foldl_cons]; rw [ih]

/-- The document assembler does not touch the pending list. -/
theorem addElement_pending (p : FountainParser) (e : FountainElement) :
    (p.addElement e).pending = p.pending := by
  unfold addElement
  simp only
  repeat' split
  all_goals first
    | rfl
    | exact foldl_appendToElement_pending _ _ _
    | exact foldl_addPad_pending _ _

theorem frame_line {p q : FountainParser} (h : q.frame = p.frame) : q.line = p.line := by
  show q.frame.line = p.frame.line
  rw [h]

theorem frame_lineTrim {p q : FountainParser} (h : q.frame = p.frame) : q.lineTrim = p.lineTrim := by
  show q.frame.lineTrim = p.frame.lineTrim
  rw [h]

theorem frame_boneyard {p q : FountainParser} (h : q.frame = p.frame) :
    q.boneyard = p.boneyard := by
  show q.frame.boneyard = p.frame.boneyard
  rw [h]

theorem frame_note {p q : FountainParser} (h : q.frame = p.frame) : q.note = p.note := by
  show q.frame.note = p.frame.note
  rw [h]

theorem frame_inTitlePage {p q : FountainParser} (h : q.frame = p.frame) :
    q.inTitlePage = p.inTitlePage := by
  show q.frame.inTitlePage = p.frame.inTitlePage
  rw [h]

theorem frame_mergeActions {p q : FountainParser} (h : q.frame = p.frame) :
    q.mergeActions = p.mergeActions := by
  show q.frame.mergeActions = p.frame.mergeActions
  rw [h]

theorem frame_headers {p q : FountainParser} (h : q.frame = p.frame) :
    q.script.headers = p.script.headers := by
  show q.frame.script.headers = p.frame.script.headers
  rw [h]

theorem resolvePending_frame (p : FountainParser) (x : PendingElement) :
    (resolvePending p x).frame = p.frame := by
  unfold resolvePending
  repeat' split
  all_goals first
    | rfl
    | exact addElement_frame _ _

theorem foldl_resolvePending_frame (xs : List PendingElement) :
    ∀ p : FountainParser, (xs.foldl resolvePending p).frame = p.frame := by
  induction xs with
  | nil => intro p; rfl
  | cons a as ih => intro p; simp only [List.foldl_cons]; rw [ih]; exact resolvePending_frame _ _

theorem parsePending_frame (p : FountainParser) : (parsePending p).frame = p.frame :=
  foldl_resolvePending_frame p.pending p

theorem parseDialogue_frame (p : FountainParser) : (parseDialogue p).1.frame = p.frame := by
  unfold parseDialogue
  simp only
  repeat' split
  all_goals first
    | rfl
    | exact addElement_frame _ _
    | exact (addElement_frame _ _).trans (addElement_frame _ _)

theorem parseDialogue_pending (p : FountainParser) : (parseDialogue p).1.pending = p.pending := by
  unfold parseDialogue
  simp only
  repeat' split
  all_goals first
    | rfl
    | exact addElement_pending _ _
    | exact (addElement_pending _ _).trans (addElement_pending _ _)

theorem parseTitlePage_keeps (p : FountainParser) :
    (parseTitlePage p).1.pending = p.pending ∧ (parseTitlePage p).1.line = p.line
    ∧ (parseTitlePage p).1.lineTrim = p.lineTrim ∧ (parseTitlePage p).1.boneyard = p.boneyard
    ∧ (parseTitlePage p).1.note = p.note := by
  unfold parseTitlePage
  repeat' split
  all_goals exact ⟨rfl, rfl, rfl, rfl, rfl⟩

/-- Classification of a blank line creates no pending element. -/
theorem classify_blank_pending (p : FountainParser) (h : p.lineTrim = [])
    (hl : isEmptyOrWhitespace p.line = true) :
    (classify p).pending = p.pending ∧ (classify p).line = p.line := by
  unfold classify
  simp only
  generalize hr : (if p.inTitlePage = true then parseTitlePage p else (p, false)) = r
  have hk : r.1.pending = p.pending ∧ r.1.line = p.line ∧ r.1.lineTrim = p.lineTrim := by
    rw [← hr]
    split
    · exact ⟨(parseTitlePage_keeps p).1, (parseTitlePage_keeps p).2.1,
        (parseTitlePage_keeps p).2.2.1⟩
    · exact ⟨rfl, rfl, rfl⟩
  split
  · exact ⟨hk.1, hk.2.1⟩
  · have hm := matchedBefore_blank r.1 (hk.2.2.trans h) (by rw [hk.2.1]; exact hl)
    rw [rules_split 13 r.1 hm]
    simp only [rules, List.drop, firstOf]
    split
    · exact ⟨(parseDialogue_pending _).trans hk.1, (frame_line (parseDialogue_frame _)).trans hk.2.1⟩
    · simp only [parseAction]
      exact ⟨(addElement_pending _ _).trans ((parseDialogue_pending _).trans hk.1),
        (frame_line (addElement_frame _ _)).trans
          ((frame_line (parseDialogue_frame _)).trans hk.2.1)⟩

/-- After a blank line that leaves no block open, nothing is pending. -/
theorem addLine_blank_pending (p : FountainParser) (b : Str) (hb : isEmptyOrWhitespace b = true)
    (h1 : (addLine p b).boneyard = none) (h2 : (addLine p b).note = none) :
    (addLine p b).pending = [] ∧ (addLine p b).line = b := by
  have hbt := trim_blank b hb
  cases hbone : p.boneyard with
  | some x =>
    exfalso
    have : (addLine p b).boneyard = some (x.appendLine []) := by
      simp only [addLine, firstOf, parseBoneyard, loadLine, hbone, hbt,
        show contains [] "*/".toList = false by decide, Bool.false_eq_true, ↓reduceIte]
    rw [this] at h1
    exact absurd h1 (by simp)
  | none =>
    cases hnote : p.note with
    | some x =>
      exfalso
      have : (addLine p b).note = some (x.appendLine []) := by
        simp only [addLine, firstOf, parseBoneyard, parseNotes, loadLine, hbone, hnote, hbt,
          show startsWith [] "/*".toList = false by decide,
          show contains [] "]]".toList = false by decide, Bool.false_eq_true, ↓reduceIte]
      rw [this] at h2
      exact absurd h2 (by simp)
    | none =>
      rw [addLine_eq_classify p b hbone hnote (opensBlock_blank b hb)]
      generalize hq : (if (!p.pending.isEmpty) = true then parsePending (p.loadLine b)
        else p.loadLine b) = q
      have hk : q.pending = [] ∧ q.line = b ∧ q.lineTrim = [] := by
        rw [← hq]
        split
        · rename_i hc
          exact ⟨rfl, frame_line (parsePending_frame _),
            (frame_lineTrim (parsePending_frame _)).trans hbt⟩
        · rename_i hc
          refine ⟨?_, rfl, hbt⟩
          cases hp : p.pending with
          | nil => exact hp
          | cons a as => rw [hp] at hc; simp at hc
      have := classify_blank_pending q hk.2.2 (by rw [hk.2.1]; exact hb)
      exact ⟨this.1.trans hk.1, this.2.trans hk.2.1⟩

theorem lit_TO : Re.lit "TO:" = .seq (Re.chr 'T') (.seq (Re.chr 'O') (Re.chr ':')) := rfl

/-- A line matched by `regexTransition` is whitespace, then at least one capital letter or
whitespace character, then `TO:`, then whitespace. -/
theorem regexTransition_inv (t : Str) (h : (regex_match t regexTransition).isSome = true) :
    ∃ w1 u w2 : Str, t = w1 ++ u ++ ('T' :: 'O' :: ':' :: w2)
      ∧ (∀ c ∈ w1, isspace c = true) ∧ (∀ c ∈ u, (isUpperAZ c || isspace c) = true) ∧ u ≠ []
      ∧ (∀ c ∈ w2, isspace c = true) := by
  obtain ⟨m, hm⟩ := Option.isSome_iff_exists.1 h
  unfold regex_match regexTransition at hm
  simp only [Re.cat, Re.run, lit_TO, Re.chr, beq_self_eq_true, ↓reduceIte] at hm
  obtain ⟨w1, r1, e1, hw1, -, hm⟩ := repGreedy_some_inv _ _ _ _ _ hm
  obtain ⟨u, r2, e2, hu, hun, hm⟩ := repGreedy_some_inv _ _ _ _ _ hm
  rcases r2 with _ | ⟨c1, _ | ⟨c2, _ | ⟨c3, r3⟩⟩⟩
  · simp at hm
  · simp at hm
  · simp at hm
  · by_cases h1 : c1 = 'T'
    · by_cases h2 : c2 = 'O'
      · by_cases h3 : c3 = ':'
        · simp only [h1, h2, h3, beq_self_eq_true, ↓reduceIte] at hm
          obtain ⟨w2, r4, e4, hw2, -, hm⟩ := repGreedy_some_inv _ _ _ _ _ hm
          have hr4 : r4 = [] := by
            cases r4 with
            | nil => rfl
            | cons x xs => simp at hm
          refine ⟨w1, u, w2, ?_, hw1, hu, ?_, hw2⟩
          · rw [e1, e2, h1, h2, h3, e4, hr4]
            simp
          · intro hu0
            rw [hu0] at hun
            simp at hun
        · simp [h3] at hm
      · simp [h2] at hm
    · simp [h1] at hm

/-- The first character of a line matched by `regexTransition` is a capital letter or
whitespace, and the line has no equals sign. -/
theorem regexTransition_shape (t : Str) (h : (regex_match t regexTransition).isSome = true) :
    ∃ c cs, t = c :: cs ∧ (isUpperAZ c || isspace c) = true
      ∧ ∀ d ∈ t, (isUpperAZ d || isspace d) = true ∨ d = 'T' ∨ d = 'O' ∨ d = ':' := by
  obtain ⟨w1, u, w2, e, hw1, hu, hne, hw2⟩ := regexTransition_inv t h
  have hall : ∀ d ∈ t, (isUpperAZ d || isspace d) = true ∨ d = 'T' ∨ d = 'O' ∨ d = ':' := by
    intro d hd
    rw [e] at hd
    simp only [List.mem_append, List.mem_cons] at hd
    rcases hd with (hd | hd) | hd | hd | hd | hd
    · left; simp [hw1 d hd]
    · left; exact hu d hd
    · right; left; exact hd
    · right; right; left; exact hd
    · right; right; right; exact hd
    · left; simp [hw2 d hd]
  cases w1 with
  | nil =>
    cases u with
    | nil => exact absurd rfl hne
    | cons c cs => exact ⟨c, cs ++ ('T' :: 'O' :: ':' :: w2), by simp [e], hu c (by simp), hall⟩
  | cons c cs =>
    exact ⟨c, cs ++ u ++ ('T' :: 'O' :: ':' :: w2), by simp [e], by simp [hw1 c (by simp)], hall⟩

theorem searchFrom_bol (full : Str) (X : Re) :
    ∀ s : Str, s.length < full.length → searchFrom full (.seq .bol X) s = none
  | [], h => by
    have : (([] : Str).length == full.length) = false := by
      simp only [List.length_nil] at h ⊢
      cases hf : full.length with
      | zero => rw [hf] at h; exact absurd h (by omega)
      | succ n => rfl
    simp only [searchFrom, Re.run, this, Bool.false_eq_true, ↓reduceIte]
  | c :: cs, h => by
    have h1 : ((c :: cs).length == full.length) = false := by
      rw [beq_eq_false_iff_ne]; omega
    have h2 := searchFrom_bol full X cs (by simp at h; omega)
    simp only [searchFrom, Re.run, h1, h2, Bool.false_eq_true, ↓reduceIte]
    rfl

/-- A search for a regex that starts with the assertion `^` only tries the start of the
string. -/
theorem regex_search_bol (s : Str) (X : Re) :
    regex_search s (.seq .bol X) = X.run s ⟨s, []⟩ some := by
  cases s with
  | nil => simp [regex_search, searchFrom, Re.run]
  | cons c cs =>
    have h2 := searchFrom_bol (c :: cs) X cs (by simp)
    simp only [regex_search, searchFrom, Re.run, h2, beq_self_eq_true, ↓reduceIte]
    cases X.run (c :: cs) ⟨c :: cs, []⟩ some <;> rfl

theorem findAux_not_mem (c : Char) (pt : Str) : ∀ (s : Str) (i : Nat), c ∉ s →
    findAux (c :: pt) s i = none
  | [], _, _ => by simp [findAux, List.isPrefixOf]
  | x :: xs, i, h => by
    have hx : c ≠ x := fun e => h (by simp [e])
    have := findAux_not_mem c pt xs (i + 1) (fun hm => h (by simp [hm]))
    simp [findAux, List.isPrefixOf, hx, this]

theorem contains_not_mem (c : Char) (pt s : Str) (h : c ∉ s) : contains s (c :: pt) = false := by
  simp [contains, find, findAux_not_mem c pt s 0 h]

/-! ### rules that test the first character -/

theorem startsWith_cons_ne (c d : Char) (cs ds : Str) (h : c ≠ d) :
    startsWith (c :: cs) (d :: ds) = false := by
  have : d ≠ c := fun e => h e.symm
  simp [startsWith, List.isPrefixOf, this]

theorem parseSection_none (p : FountainParser) (c : Char) (cs : Str) (h : p.lineTrim = c :: cs)
    (hc : c ≠ '#') : parseSection p = (p, false) := by
  simp only [parseSection, h, show "###".toList = '#' :: ['#', '#'] from rfl,
    show "##".toList = '#' :: ['#'] from rfl, show "#".toList = '#' :: [] from rfl,
    startsWith_cons_ne c '#' cs _ hc, Bool.false_eq_true, ↓reduceIte]

theorem parseForcedAction_none (p : FountainParser) (c : Char) (cs : Str)
    (h : p.lineTrim = c :: cs) (hc : c ≠ '!') : parseForcedAction p = (p, false) := by
  simp only [parseForcedAction, h, show "!".toList = '!' :: [] from rfl,
    startsWith_cons_ne c '!' cs _ hc, Bool.false_eq_true, ↓reduceIte]

theorem parseForcedSceneHeading_none (p : FountainParser) (c : Char) (cs : Str)
    (h : p.lineTrim = c :: cs) (hc : c ≠ '.') : parseForcedSceneHeading p = (p, false) := by
  have e : regexForcedHeading = .seq .bol (.seq (Re.chr '.') (.cls isAlnum)) := rfl
  have : regex_search (c :: cs) regexForcedHeading = none := by
    rw [e, regex_search_bol]
    simp [Re.run, Re.chr, hc]
  simp only [parseForcedSceneHeading, h, this, Option.isSome_none, Bool.false_eq_true, ↓reduceIte]

theorem parseForcedCharacter_none (p : FountainParser) (c : Char) (cs : Str)
    (h : p.lineTrim = c :: cs) (hc : c ≠ '@') : parseForcedCharacter p = (p, false) := by
  simp only [parseForcedCharacter, h, show "@".toList = '@' :: [] from rfl,
    startsWith_cons_ne c '@' cs _ hc, Bool.false_eq_true, ↓reduceIte]

theorem parseForcedTransition_none (p : FountainParser) (c : Char) (cs : Str)
    (h : p.lineTrim = c :: cs) (hc : c ≠ '>') : parseForcedTransition p = (p, false) := by
  simp only [parseForcedTransition, h, show ">".toList = '>' :: [] from rfl,
    startsWith_cons_ne c '>' cs _ hc, Bool.false_and, Bool.false_eq_true, ↓reduceIte]

theorem parsePageBreak_none (p : FountainParser)
    (h : contains p.lineTrim "===".toList = false) : parsePageBreak p = (p, false) := by
  simp only [parsePageBreak, h, Bool.false_eq_true, ↓reduceIte]

theorem parseLyrics_none (p : FountainParser) (c : Char) (cs : Str) (h : p.lineTrim = c :: cs)
    (hc : c ≠ '~') : parseLyrics p = (p, false) := by
  simp only [parseLyrics, h, show "~".toList = '~' :: [] from rfl,
    startsWith_cons_ne c '~' cs _ hc, Bool.false_eq_true, ↓reduceIte]

theorem parseSynopsis_none (p : FountainParser) (c : Char) (cs : Str) (h : p.lineTrim = c :: cs)
    (hc : c ≠ '=') : parseSynopsis p = (p, false) := by
  have : regex_match (c :: cs) synopsisRegex = none := by
    simp [regex_match, synopsisRegex, Re.cat, Re.run, Re.chr, hc]
  simp only [parseSynopsis, h, this, Option.isSome_none, Bool.false_eq_true, ↓reduceIte]

theorem parseCenteredText_none (p : FountainParser) (c : Char) (cs : Str)
    (h : p.lineTrim = c :: cs) (hc : c ≠ '>') : parseCenteredText p = (p, false) := by
  simp only [parseCenteredText, h, show ">".toList = '>' :: [] from rfl,
    startsWith_cons_ne c '>' cs _ hc, Bool.false_and, Bool.false_eq_true, ↓reduceIte]

/-- None of the nine rules before the scene-heading rule claims a line whose trimmed form
starts with a character that is none of their markers and has no page-break marker. -/
theorem rules_letter (p : FountainParser) (c : Char) (cs : Str) (h : p.lineTrim = c :: cs)
    (hc : c ≠ '#' ∧ c ≠ '!' ∧ c ≠ '.' ∧ c ≠ '@' ∧ c ≠ '>' ∧ c ≠ '~' ∧ c ≠ '=')
    (hpb : contains p.lineTrim "===".toList = false) :
    firstOf (rules.take 9) p = (p, false) := by
  simp only [rules, List.take, firstOf, parseSection_none p c cs h hc.1,
    parseForcedAction_none p c cs h hc.2.1, parseForcedSceneHeading_none p c cs h hc.2.2.1,
    parseForcedCharacter_none p c cs h hc.2.2.2.1,
    parseForcedTransition_none p c cs h hc.2.2.2.2.1, parsePageBreak_none p hpb,
    parseLyrics_none p c cs h hc.2.2.2.2.2.1, parseSynopsis_none p c cs h hc.2.2.2.2.2.2,
    parseCenteredText_none p c cs h hc.2.2.2.2.1, Bool.false_eq_true, ↓reduceIte]


theorem addElement_nonAction (p : FountainParser) (e : FountainElement)
    (h : e.getType ≠ .ACTION) :
    p.addElement e
      = { p with
          script := p.script.addElement e
          padActions := []
          inDialogue := e.getType == .CHARACTER || e.getType == .PARENTHESIS
            || e.getType == .DIALOGUE } := by
  have h1 : (e.getType == Element.ACTION) = false := by simpa using h
  unfold addElement
  simp [h1]

theorem parseDialogue_after_other (q : FountainParser) (e : FountainElement)
    (hl : q.getLastElement = some e) (h1 : e.getType ≠ .CHARACTER)
    (h2 : e.getType ≠ .PARENTHESIS) (h3 : e.getType ≠ .DIALOGUE) :
    parseDialogue q = (q, false) := by
  have e1 : (e.getType == Element.CHARACTER) = false := by simpa using h1
  have e2 : (e.getType == Element.PARENTHESIS) = false := by simpa using h2
  have e3 : (e.getType == Element.DIALOGUE) = false := by simpa using h3
  simp only [parseDialogue, hl, lastIs, e1, e2, e3, Bool.or_self, Bool.and_false,
    Bool.false_eq_true, ↓reduceIte]

theorem transition_opensBlock (T : Str) (c : Char) (cs : Str) (h : trim T = c :: cs)
    (h1 : c ≠ '/') (h2 : c ≠ '[') : opensBlock T = false := by
  simp only [opensBlock, h, show "/*".toList = '/' :: ['*'] from rfl,
    show "[[".toList = '[' :: ['['] from rfl, startsWith_cons_ne c '/' cs _ h1,
    startsWith_cons_ne c '[' cs _ h2, Bool.false_and, Bool.or_self]

theorem letter_ne (c d : Char) (h : (isUpperAZ c || isspace c) = true)
    (hd : (isUpperAZ d || isspace d) = false) : c ≠ d := by
  rintro rfl
  rw [h] at hd
  exact absurd hd (by simp)

/-- State after a transition candidate `T` that follows a blank line. -/
theorem addLine_transition (s : FountainParser) (T : Str)
    (ht : s.inTitlePage = false) (hbo : s.boneyard = none) (hno : s.note = none)
    (hp : s.pending = []) (hl : isEmptyOrWhitespace s.line = true)
    (htrans : (regex_match (trim T) regexTransition).isSome = true)
    (hhead : (regex_search (trim T) regexHeading).isSome = false) :
    addLine s T
      = { s.loadLine T with
          pending := [⟨.TRANSITION, .Transition (trim T) false, .Action (trim T) false false⟩] }
      := by
  obtain ⟨c, cs, e, hc, hall⟩ := regexTransition_shape (trim T) htrans
  have hne : ∀ d, (isUpperAZ d || isspace d) = false → c ≠ d := fun d hd => letter_ne c d hc hd
  have heq : '=' ∉ trim T := by
    intro hm
    rcases hall '=' hm with h | h | h | h
    · exact absurd h (by decide)
    · exact absurd h (by decide)
    · exact absurd h (by decide)
    · exact absurd h (by decide)
  rw [addLine_eq_classify s T hbo hno
    (transition_opensBlock T c cs e (hne '/' (by decide)) (hne '[' (by decide)))]
  have e0 : (if (!s.pending.isEmpty) = true then parsePending (s.loadLine T) else s.loadLine T)
      = s.loadLine T := by
    rw [hp]; rfl
  rw [e0]
  have h9 := rules_letter (s.loadLine T) c cs e
    ⟨hne '#' (by decide), hne '!' (by decide), hne '.' (by decide), hne '@' (by decide),
      hne '>' (by decide), hne '~' (by decide), hne '=' (by decide)⟩
    (contains_not_mem '=' ['=', '='] (trim T) heq)
  have hm9 : (s.loadLine T).matchedBefore 9 = false := by
    simp only [matchedBefore, h9]
  have hr := rules_split 9 _ hm9
  have hti : (s.loadLine T).inTitlePage = false := ht
  simp only [classify, hti, Bool.false_eq_true, ↓reduceIte]
  rw [hr]
  simp only [rules, List.drop, firstOf, parseSceneHeading, loadLine_lineTrim, hhead,
    Bool.false_eq_true, ↓reduceIte, parseTransition, htrans, loadLine_lastLineEmpty, hl,
    Bool.and_self]
  rw [show (s.loadLine T).pending = [] from hp]
  simp only [hti, List.nil_append]


/-- C2 (amended): the parser has left title-page mode, has no open block, and its previous
line `b` was blank. A line `T` whose trimmed form the transition regex matches (capital letters
and whitespace, then `TO:`) and that the scene-heading rule does not claim commits nothing by
itself and becomes the single pending element. When the next line `N` is blank, a Transition
with text `trim T` is committed. When `N` is not blank and opens no boneyard or notes block,
the fallback Action with text `trim T` is handed to the document assembler instead, after which
`N` is classified; with no blank action lines buffered and no merge into a preceding plain
Action, the assembler commits it as a new Action element. -/
theorem transition_lookahead (s0 : FountainParser) (b T : Str)
    (hb : isEmptyOrWhitespace b = true)
    (ht : (addLine s0 b).inTitlePage = false) (hbo : (addLine s0 b).boneyard = none)
    (hno : (addLine s0 b).note = none)
    (htrans : (regex_match (trim T) regexTransition).isSome = true)
    (hhead : (regex_search (trim T) regexHeading).isSome = false) :
    let s := addLine s0 b
    let s2 := addLine s T
    (s2 = { s.loadLine T with
        pending := [⟨.TRANSITION, .Transition (trim T) false, .Action (trim T) false false⟩] })
    ∧ (∀ N : Str, isEmptyOrWhitespace N = true →
        (addLine s2 N).script.elements = s.script.elements ++ [.Transition (trim T) false]
        ∧ (addLine s2 N).pending = [])
    ∧ (∀ N : Str, isEmptyOrWhitespace N = false → opensBlock N = false →
        let q : FountainParser :=
          { (s2.loadLine N).addElement (.Action (trim T) false false) with pending := [] }
        addLine s2 N = classify q
        ∧ (s.padActions = [] → (s.mergeActions && lastIsPlainAction s.getLastElement) = false →
            q.script.elements = s.script.elements ++ [.Action (trim T) false false])) := by
  intro s s2
  have hpl : s.pending = [] ∧ s.line = b := addLine_blank_pending s0 b hb hbo hno
  obtain ⟨hp, hline⟩ := hpl
  have hs2 : s2 = _ := addLine_transition s T ht hbo hno hp (by rw [hline]; exact hb) htrans hhead
  replace ht : s.inTitlePage = false := ht
  replace hbo : s.boneyard = none := hbo
  replace hno : s.note = none := hno
  clear_value s2
  clear_value s
  obtain ⟨c, cs, e, hc, -⟩ := regexTransition_shape (trim T) htrans
  have hTne : trim T ≠ [] := by rw [e]; simp
  have fb : s2.boneyard = none := by rw [hs2]; exact hbo
  have fn : s2.note = none := by rw [hs2]; exact hno
  have fp : s2.pending
      = [⟨.TRANSITION, .Transition (trim T) false, .Action (trim T) false false⟩] := by rw [hs2]
  refine ⟨hs2, ?_, ?_⟩
  · intro N hN
    have hNt := trim_blank N hN
    obtain ⟨q, hq⟩ : ∃ q : FountainParser, q = { s2.loadLine N with
        script := s.script.addElement (.Transition (trim T) false), padActions := [],
        pending := [], inDialogue := false } := ⟨_, rfl⟩
    have hstep : addLine s2 N = classify q := by
      rw [addLine_eq_classify _ _ fb fn (opensBlock_blank N hN),
        resolve_transition_blank _ _ N fp rfl hN,
        addElement_nonAction _ _ (by simp [FountainElement.getType]), hq]
      subst hs2
      rfl
    have hlast : q.getLastElement = some (.Transition (trim T) false) := by
      rw [hq]
      simp [getLastElement, FountainScript.addElement]
    rw [hstep, classify_blank q (by rw [hq]; exact hNt) (by rw [hq]; exact hN)
      (by rw [hq, hs2]; exact ht)
      (parseDialogue_after_other q _ hlast (by simp [FountainElement.getType])
        (by simp [FountainElement.getType]) (by simp [FountainElement.getType]))]
    rw [parseAction, addElement_blank _ _ (by
      simp only [FountainElement.getType, FountainElement.isEmpty, FountainElement.getTextRaw,
        FountainElement.isCentered]
      rw [hq]
      simp [hN])]
    rw [hlast]
    simp only [lastIs, FountainElement.getType,
      show (Element.TRANSITION == Element.ACTION) = false by decide, Bool.false_eq_true,
      ↓reduceIte]
    rw [hq]
    exact ⟨rfl, rfl⟩
  · intro N hN hNo q
    have hstep : addLine s2 N = classify q := by
      rw [addLine_eq_classify _ _ fb fn hNo, resolve_transition_nonblank _ _ N fp rfl hN]
    refine ⟨hstep, ?_⟩
    intro hpads hmerge
    simp only [q]
    rw [addElement_commit _ _ (by
        simp [FountainElement.getType, FountainElement.isEmpty, FountainElement.getTextRaw,
          trim_ne_nil_not_blank T hTne]) (by rw [hs2]; exact hpads)
      (by
        rw [hs2]
        simp only [FountainElement.getType, FountainElement.isCentered]
        have : (s.mergeActions && lastIsPlainAction s.getLastElement) = false := hmerge
        revert this
        simp only [getLastElement, loadLine]
        cases s.mergeActions <;> simp)]
    rw [hs2]
    rfl

/-- C2, witness: after an empty first line, `FADE TO:` followed by an empty line commits the
Transition `FADE TO:`; followed by `INT. HOUSE` it commits the Action `FADE TO:`. -/
theorem transition_lookahead_witness :
    (addLine (addLine (addLine (fresh true true) []) "FADE TO:".toList) []).script.elements
      = (addLine (fresh true true) []).script.elements
          ++ [.Transition (trim "FADE TO:".toList) false]
    ∧ ({ ((addLine (addLine (fresh true true) []) "FADE TO:".toList).loadLine
            "INT. HOUSE".toList).addElement (.Action (trim "FADE TO:".toList) false false) with
          pending := [] } : FountainParser).script.elements
      = (addLine (fresh true true) []).script.elements
          ++ [.Action (trim "FADE TO:".toList) false false] :=
  have h := transition_lookahead (fresh true true) [] "FADE TO:".toList
    (by decide) (by decide) (by decide) (by decide) (by decide) (by decide)
  ⟨(h.2.1 [] (by decide)).1,
   (h.2.2 "INT. HOUSE".toList (by decide) (by decide)).2 (by decide) (by decide)⟩

/-- C2, counterexample: after an empty first line the parser is outside the title page with no
open block. The line `INT TO:` is capital letters and a space ending in `TO:` and matches the
transition regex, yet it commits a scene heading by itself and leaves nothing pending, because
the scene-heading rule comes first. And after `FADE TO:` the line `/* x`, which is not blank,
commits neither an Action nor a Transition, because it opens a boneyard block first. -/
theorem transition_lookahead_counterexample :
    (regex_match (trim "INT TO:".toList) regexTransition).isSome = true
    ∧ (addLine (addLine (fresh true true) []) "INT TO:".toList).script.elements
        = [.Heading "INT TO:".toList [] false]
    ∧ (addLine (addLine (fresh true true) []) "INT TO:".toList).pending = []
    ∧ (addLine (addLine (addLine (fresh true true) []) "FADE TO:".toList)
        "/* x".toList).script.elements = [] := by
  decide

/-! ## Merging of action lines -/

theorem appendLineAt_last (es : List FountainElement) (e : FountainElement) (l : Str) :
    appendLineAt (es ++ [e]) es.length l = es ++ [e.appendLine l] := by
  induction es with
  | nil => rfl
  | cons a as ih => simp [appendLineAt, ih]

theorem lastIsPlainAction_of_not_action (o : Option FountainElement)
    (h : lastIs o .ACTION = false) : lastIsPlainAction o = false := by
  cases o with
  | none => rfl
  | some e =>
    simp only [lastIs] at h
    simp [lastIsPlainAction, h]

/-- State after a line that falls through to `parseAction`, with nothing pending. -/
theorem addLine_fallback (p : FountainParser) (a : Str)
    (ht : p.inTitlePage = false) (hbo : p.boneyard = none) (hno : p.note = none)
    (hp : p.pending = []) (ho : opensBlock a = false)
    (hr : (firstOf rules (p.loadLine a)).2 = false) :
    addLine p a = (p.loadLine a).addElement (.Action a false false) := by
  rw [addLine_eq_classify p a hbo hno ho]
  have e0 : (if (!p.pending.isEmpty) = true then parsePending (p.loadLine a) else p.loadLine a)
      = p.loadLine a := by
    rw [hp]; rfl
  rw [e0, classify_fallback (p.loadLine a) ht hr]
  rfl

/-- C4 (amended): the parser is outside the title page and outside blocks, nothing is pending
from the previous line, no blank action lines are buffered, and the last committed element is
not an Action. Two consecutive lines `a` and `b` that are not blank, open no block and are
claimed by no rule (so both reach the fallback `parseAction`) commit, with merge-actions
enabled, as exactly one new Action whose text is `a`, a line feed, `b` (the raw lines), and
with merge-actions disabled as exactly two new Actions with texts `a` and `b`, in that order. -/
theorem merge_actions_switch (p : FountainParser) (a b : Str)
    (ht : p.inTitlePage = false) (hbo : p.boneyard = none) (hno : p.note = none)
    (hp : p.pending = []) (hpads : p.padActions = [])
    (hlast : lastIs p.getLastElement .ACTION = false)
    (ha : isEmptyOrWhitespace a = false) (hb : isEmptyOrWhitespace b = false)
    (hao : opensBlock a = false) (hbop : opensBlock b = false)
    (har : (firstOf rules (p.loadLine a)).2 = false)
    (hbr : (firstOf rules ((addLine p a).loadLine b)).2 = false) :
    (p.mergeActions = true →
      (addLine (addLine p a) b).script.elements
        = p.script.elements ++ [.Action (a ++ '\n' :: b) false false])
    ∧ (p.mergeActions = false →
      (addLine (addLine p a) b).script.elements
        = p.script.elements ++ [.Action a false false, .Action b false false]) := by
  have h1 : addLine p a
      = { p.loadLine a with
          script := p.script.addElement (.Action a false false), padActions := [],
          inDialogue := false } := by
    rw [addLine_fallback p a ht hbo hno hp hao har,
      addElement_commit (p.loadLine a) _ (by
        simp [FountainElement.getType, FountainElement.isEmpty, FountainElement.getTextRaw, ha])
        hpads (by
          have := lastIsPlainAction_of_not_action _ hlast
          simp only [getLastElement] at this
          simp [getLastElement, loadLine, this])]
    rfl
  generalize hq : addLine p a = q at h1 hbr
  have h2 : addLine q b = (q.loadLine b).addElement (.Action b false false) :=
    addLine_fallback q b (by rw [h1]; exact ht) (by rw [h1]; exact hbo) (by rw [h1]; exact hno)
      (by rw [h1]; exact hp) hbop hbr
  have hne : ((FountainElement.Action b false false).getType == .ACTION
      && (FountainElement.Action b false false).isEmpty
      && !(FountainElement.Action b false false).isCentered) = false := by
    simp [FountainElement.getType, FountainElement.isEmpty, FountainElement.getTextRaw, hb]
  have hql : (q.loadLine b).getLastElement = some (.Action a false false) := by
    rw [h1]
    simp [getLastElement, loadLine, FountainScript.addElement]
  constructor
  · intro hm
    rw [h2, addElement_merge (q.loadLine b) _ hne (by rw [h1]; rfl) (by
      rw [hql]
      have : (q.loadLine b).mergeActions = true := by rw [h1]; exact hm
      simp [this, FountainElement.getType, FountainElement.isCentered, lastIsPlainAction])]
    rw [h1]
    simp only [appendToElement, loadLine, FountainScript.addElement, List.length_append,
      List.length_singleton, Nat.add_sub_cancel, appendLineAt_last]
    rfl
  · intro hm
    rw [h2, addElement_commit (q.loadLine b) _ hne (by rw [h1]; rfl) (by
      have : (q.loadLine b).mergeActions = false := by rw [h1]; exact hm
      simp [this])]
    rw [h1]
    simp [loadLine, FountainScript.addElement]

/-- C4, witness: after an empty first line, the lines `one` and `two` commit as the single
Action `one<LF>two` with merge-actions enabled and as two Actions with it disabled. -/
theorem merge_actions_switch_witness :
    (addLine (addLine (addLine (fresh true true) []) "one".toList) "two".toList).script.elements
      = (addLine (fresh true true) []).script.elements
          ++ [.Action ("one".toList ++ '\n' :: "two".toList) false false]
    ∧ (addLine (addLine (addLine (fresh false true) []) "one".toList)
        "two".toList).script.elements
      = (addLine (fresh false true) []).script.elements
          ++ [.Action "one".toList false false, .Action "two".toList false false] :=
  ⟨(merge_actions_switch (addLine (fresh true true) []) "one".toList "two".toList
      (by decide) (by decide) (by decide) (by decide) (by decide) (by decide) (by decide)
      (by decide) (by decide) (by decide) (by decide) (by decide)).1 (by decide),
   (merge_actions_switch (addLine (fresh false true) []) "one".toList "two".toList
      (by decide) (by decide) (by decide) (by decide) (by decide) (by decide) (by decide)
      (by decide) (by decide) (by decide) (by decide) (by decide)).2 (by decide)⟩

/-- C4, counterexample: after an empty line and the transition candidate `CUT TO:` the parser
is outside the title page and outside blocks and has committed nothing, so its last element is
not an Action. The lines `one` and `two` are not blank and both fall through to `parseAction`,
yet with merge-actions enabled the document is the single Action `CUT TO:<LF>one<LF>two`: the
pending fallback Action is committed first and both lines are merged into it. -/
theorem merge_actions_switch_counterexample :
    (addLine (addLine (fresh true true) []) "CUT TO:".toList).inTitlePage = false
    ∧ (addLine (addLine (fresh true true) []) "CUT TO:".toList).boneyard = none
    ∧ (addLine (addLine (fresh true true) []) "CUT TO:".toList).note = none
    ∧ lastIs (addLine (addLine (fresh true true) []) "CUT TO:".toList).getLastElement .ACTION
        = false
    ∧ (firstOf rules (parsePending ((addLine (addLine (fresh true true) [])
        "CUT TO:".toList).loadLine "one".toList))).2 = false
    ∧ (firstOf rules ((addLine (addLine (addLine (fresh true true) []) "CUT TO:".toList)
        "one".toList).loadLine "two".toList)).2 = false
    ∧ (addLine (addLine (addLine (addLine (fresh true true) []) "CUT TO:".toList)
        "one".toList) "two".toList).script.elements
      = [.Action ("CUT TO:".toList ++ '\n' :: "one".toList ++ '\n' :: "two".toList)
          false false] := by
  decide

/-! ## Boneyard across two lines -/

theorem findAux_isSome_iff (pat : Str) : ∀ (s : Str) (i : Nat),
    (findAux pat s i).isSome = true ↔ pat <:+: s
  | [], i => by
    simp only [findAux]
    split
    · rename_i h
      simp only [Option.isSome_some, true_iff]
      exact (List.isPrefixOf_iff_prefix.1 h).isInfix
    · rename_i h
      simp only [Option.isSome_none, Bool.false_eq_true, false_iff]
      intro hi
      apply h
      rw [List.isPrefixOf_iff_prefix]
      have := List.eq_nil_of_infix_nil hi
      rw [this]
  | c :: cs, i => by
    simp only [findAux]
    split
    · rename_i h
      simp only [Option.isSome_some, true_iff]
      exact (List.isPrefixOf_iff_prefix.1 h).isInfix
    · rename_i h
      rw [findAux_isSome_iff pat cs (i + 1), List.infix_cons_iff]
      constructor
      · intro hi; exact Or.inr hi
      · rintro (hp | hi)
        · exact absurd (List.isPrefixOf_iff_prefix.2 hp) h
        · exact hi

theorem contains_infix_iff (s pat : Str) : contains s pat = true ↔ pat <:+: s := by
  simp only [contains, find, Nat.zero_le, ↓reduceIte, List.drop_zero]
  exact findAux_isSome_iff pat s 0

theorem infix_dropWhile (p : Char → Bool) (pat : Str) (hp : ∀ c ∈ pat.head?, p c = false) :
    ∀ s : Str, pat <:+: s → pat <:+: s.dropWhile p
  | [], h => by simpa using h
  | c :: cs, h => by
    by_cases hc : p c = true
    · simp only [List.dropWhile, hc]
      rcases List.infix_cons_iff.1 h with hpre | hi
      · cases pat with
        | nil => exact List.nil_infix
        | cons d ds =>
          exfalso
          obtain ⟨t, ht⟩ := hpre
          simp only [List.cons_append, List.cons.injEq] at ht
          have := hp d (by simp)
          rw [ht.1, hc] at this
          exact absurd this (by simp)
      · exact infix_dropWhile p pat hp cs hi
    · simp only [List.dropWhile, hc]
      exact h

/-- Trimming keeps every occurrence of a pattern that neither starts nor ends with
whitespace. -/
theorem contains_trim (s pat : Str) (h : contains s pat = true)
    (h1 : ∀ c ∈ pat.head?, isspace c = false) (h2 : ∀ c ∈ pat.getLast?, isspace c = false) :
    contains (trim s) pat = true := by
  rw [contains_infix_iff] at h ⊢
  unfold trim trimRight trimLeft
  rw [← List.reverse_infix, List.reverse_reverse]
  apply infix_dropWhile
  · intro c hc
    apply h2
    rw [List.getLast?_eq_head?_reverse]
    exact hc
  · rw [List.reverse_infix]
    exact infix_dropWhile isspace pat h1 s h

/-- C7: for a fresh parser, in both merge modes, and every pair of lines `l1`, `l2` where
`trim l1` starts with the boneyard opening marker and `l2` contains the closing marker, parsing
`[l1, l2]` yields a document with exactly one element and no header: a Boneyard whose text is
`trim l1`, a line feed, `trim l2`. -/
theorem boneyard_two_lines (mA mD : Bool) (l1 l2 : Str)
    (h1 : startsWith (trim l1) "/*".toList = true) (h2 : contains l2 "*/".toList = true) :
    (addLines (fresh mA mD) [l1, l2]).script
      = ⟨[.Boneyard (trim l1 ++ '\n' :: trim l2)], []⟩ := by
  have h3 : contains (trim l2) "*/".toList = true :=
    contains_trim l2 _ h2 (by decide) (by decide)
  simp only [addLines, List.foldl, addLine, loadLine, firstOf, parseBoneyard, fresh, h1, h3,
    ↓reduceIte, finalizeParsing, parsePending, FountainScript.addElement,
    FountainElement.appendLine, FountainElement.getTextRaw, FountainElement.setText,
    List.nil_append]

/-- C7, witness: the lines `/* hello` and `world */`. -/
theorem boneyard_two_lines_witness :
    (addLines (fresh true true) ["/* hello".toList, "world */".toList]).script
      = ⟨[.Boneyard (trim "/* hello".toList ++ '\n' :: trim "world */".toList)], []⟩ :=
  boneyard_two_lines true true "/* hello".toList "world */".toList (by decide) (by decide)


/-! ## The synopsis rule -/

/-- The call `std::regex_match` with `synopsisRegex` succeeds on the one-character line `=`
only. -/
theorem synopsisRegex_iff (t : Str) :
    (regex_match t synopsisRegex).isSome = true ↔ t = ['='] := by
  unfold regex_match synopsisRegex
  simp only [Re.cat, Re.run, Re.chr, beq_self_eq_true, ↓reduceIte]
  rcases t with _ | ⟨c, _ | ⟨d, ds⟩⟩
  · simp
  · by_cases hc : c = '='
    · subst hc
      simp [matchEnd]
    · simp [hc]
  · by_cases hc : c = '='
    · subst hc
      by_cases hd : d = '='
      · simp [hd]
      · simp [hd, matchEnd]
    · simp [hc]

/-- C9: evaluation at the failing input. `parseSynopsis` claims a line only when its trimmed
form is exactly `=`, so `= The hero arrives` is not committed as a Synopsis: outside the title
page it falls through to the fallback and becomes an Action with the whole raw line, and the one
line that is claimed, `=`, gives a Synopsis with empty text. -/
theorem synopsis_rule_defect :
    (∀ t : Str, (regex_match t synopsisRegex).isSome = true ↔ t = ['='])
    ∧ (addLines (fresh true true) [[], "= The hero arrives".toList]).script.elements
        = [.Action "= The hero arrives".toList false false]
    ∧ (addLines (fresh true true) [[], "=".toList]).script.elements = [.Synopsis []] := by
  exact ⟨synopsisRegex_iff, by decide, by decide⟩

/-! ## Dialogue continuation after a blank line -/

theorem eq_dropLast_append_of_getLast? (es : List FountainElement) (e : FountainElement)
    (h : es.getLast? = some e) : es = es.dropLast ++ [e] := by
  have := List.dropLast_append_getLast? e h
  exact this.symm

/-- After a previous line `b` that is whitespace-only and not empty, a line that reaches the
dialogue rule continues the Dialogue that is last in the document. -/
theorem dialogue_after_spaces (s0 : FountainParser) (b l t : Str)
    (hb : isEmptyOrWhitespace b = true) (hbne : b ≠ [])
    (ht : (addLine s0 b).inTitlePage = false) (hbo : (addLine s0 b).boneyard = none)
    (hno : (addLine s0 b).note = none)
    (hlast : (addLine s0 b).getLastElement = some (.Dialogue t))
    (hlo : opensBlock l = false)
    (hreach : ((addLine s0 b).loadLine l).matchedBefore 13 = false) :
    let s := addLine s0 b
    (s.mergeDialogue = true →
      (addLine s l).script.elements
        = s.script.elements.dropLast ++ [.Dialogue ((t ++ '\n' :: []) ++ '\n' :: trim l)])
    ∧ (s.mergeDialogue = false →
      (addLine s l).script.elements
        = s.script.elements ++ [.Dialogue [], .Dialogue (trim l)]) := by
  intro s
  have hpl : s.pending = [] ∧ s.line = b := addLine_blank_pending s0 b hb hbo hno
  obtain ⟨hp, hline⟩ := hpl
  replace ht : s.inTitlePage = false := ht
  replace hbo : s.boneyard = none := hbo
  replace hno : s.note = none := hno
  replace hlast : s.getLastElement = some (.Dialogue t) := hlast
  replace hreach : (s.loadLine l).matchedBefore 13 = false := hreach
  clear_value s
  have hstep : addLine s l = (parseDialogue (s.loadLine l)).1 := by
    rw [addLine_eq_classify s l hbo hno hlo]
    have e0 : (if (!s.pending.isEmpty) = true then parsePending (s.loadLine l)
        else s.loadLine l) = s.loadLine l := by
      rw [hp]; rfl
    rw [e0]
    have hti : (s.loadLine l).inTitlePage = false := ht
    simp only [classify, hti, Bool.false_eq_true, ↓reduceIte]
    rw [rules_split 13 _ hreach]
    have hd : (parseDialogue (s.loadLine l)).2 = true := by
      have hl2 : (s.loadLine l).getLastElement = some (.Dialogue t) := hlast
      have hbe : b.isEmpty = false := by
        cases b with
        | nil => exact absurd rfl hbne
        | cons c cs => rfl
      simp only [parseDialogue, hl2, lastIs, FountainElement.getType,
        show (Element.DIALOGUE == Element.CHARACTER) = false by decide,
        show (Element.DIALOGUE == Element.PARENTHESIS) = false by decide,
        show (Element.DIALOGUE == Element.DIALOGUE) = true by decide, Bool.or_self,
        Bool.and_false, Bool.false_eq_true, ↓reduceIte, loadLine_lastLineEmpty, loadLine_lastLine,
        hline, hb, hbe, Bool.not_false, Bool.and_self]
      split <;> rfl
    simp only [rules, List.drop, firstOf, hd, ↓reduceIte]
  have hl2 : (s.loadLine l).getLastElement = some (.Dialogue t) := hlast
  have hbe : b.isEmpty = false := by
    cases b with
    | nil => exact absurd rfl hbne
    | cons c cs => rfl
  have hes := eq_dropLast_append_of_getLast? s.script.elements _ hlast
  constructor
  · intro hm
    have hm2 : (s.loadLine l).mergeDialogue = true := hm
    rw [hstep]
    simp only [parseDialogue, hl2, lastIs, FountainElement.getType,
      show (Element.DIALOGUE == Element.CHARACTER) = false by decide,
      show (Element.DIALOGUE == Element.PARENTHESIS) = false by decide,
      show (Element.DIALOGUE == Element.DIALOGUE) = true by decide, Bool.or_self,
      Bool.and_false, Bool.false_eq_true, ↓reduceIte, loadLine_lastLineEmpty, loadLine_lastLine,
      hline, hb, hbe, Bool.not_false, Bool.and_self, hm2, appendToElement, loadLine_lineTrim]
    show appendLineAt (appendLineAt s.script.elements (s.script.elements.length - 1) [])
      (s.script.elements.length - 1) (trim l) = _
    generalize s.script.elements.dropLast = pre at hes
    rw [hes]
    simp only [List.length_append, List.length_singleton, Nat.add_sub_cancel, appendLineAt_last,
      List.dropLast_concat]
    rfl
  · intro hm
    have hm2 : (s.loadLine l).mergeDialogue = false := hm
    rw [hstep]
    simp only [parseDialogue, hl2, lastIs, FountainElement.getType,
      show (Element.DIALOGUE == Element.CHARACTER) = false by decide,
      show (Element.DIALOGUE == Element.PARENTHESIS) = false by decide,
      show (Element.DIALOGUE == Element.DIALOGUE) = true by decide, Bool.or_self,
      Bool.and_false, Bool.false_eq_true, ↓reduceIte, loadLine_lastLineEmpty, loadLine_lastLine,
      hline, hb, hbe, Bool.not_false, Bool.and_self, hm2, loadLine_lineTrim]
    rw [addElement_nonAction _ _ (by simp [FountainElement.getType]),
      addElement_nonAction _ _ (by simp [FountainElement.getType])]
    simp [FountainScript.addElement, loadLine]

/-- C10, counterexample: the input of the claim, a blank line, `JOHN`, `Hello.`, an empty
line, `more words`. Before `more words` the last committed element is the Dialogue `Hello.`,
the previous line is empty and was not the first line, and no rule before the dialogue rule
claims the line; yet in both merge-dialogue modes `more words` is committed as an Action,
because the continuation test requires the previous line to be not empty. -/
theorem dialogue_continuation_counterexample :
    (addLine (addLine (addLine (addLine (fresh true true) []) "JOHN".toList)
        "Hello.".toList) []).getLastElement = some (.Dialogue "Hello.".toList)
    ∧ ((addLine (addLine (addLine (addLine (fresh true true) []) "JOHN".toList)
        "Hello.".toList) []).loadLine "more words".toList).matchedBefore 13 = false
    ∧ (addLines (fresh true true)
        [[], "JOHN".toList, "Hello.".toList, [], "more words".toList]).script.elements
      = [.Character "JOHN".toList "JOHN".toList [] false, .Dialogue "Hello.".toList,
         .Action "more words".toList false false]
    ∧ (addLines (fresh true false)
        [[], "JOHN".toList, "Hello.".toList, [], "more words".toList]).script.elements
      = [.Character "JOHN".toList "JOHN".toList [] false, .Dialogue "Hello.".toList,
         .Action "more words".toList false false] := by
  decide

/-! ## Effects of the classification rules -/

theorem parseSection_effect (p : FountainParser) : Effect p (parseSection p).1 := by
  unfold parseSection
  try dsimp only
  repeat' split
  all_goals first
    | exact Effect.same
    | (dsimp only; refine Effect.add _ ?_; simp [ruleElement, FountainElement.getType])

theorem parseForcedAction_effect (p : FountainParser) : Effect p (parseForcedAction p).1 := by
  unfold parseForcedAction
  try dsimp only
  repeat' split
  all_goals first
    | exact Effect.same
    | (dsimp only; refine Effect.add _ ?_; simp [ruleElement, FountainElement.getType])

theorem parseForcedSceneHeading_effect (p : FountainParser) : Effect p (parseForcedSceneHeading p).1 := by
  unfold parseForcedSceneHeading
  try dsimp only
  repeat' split
  all_goals first
    | exact Effect.same
    | (dsimp only; refine Effect.add _ ?_; simp [ruleElement, FountainElement.getType])

theorem parseForcedCharacter_effect (p : FountainParser) : Effect p (parseForcedCharacter p).1 := by
  unfold parseForcedCharacter
  try dsimp only
  repeat' split
  all_goals first
    | exact Effect.same
    | (dsimp only; refine Effect.add _ ?_; simp [ruleElement, FountainElement.getType])

theorem parseForcedTransition_effect (p : FountainParser) : Effect p (parseForcedTransition p).1 := by
  unfold parseForcedTransition
  try dsimp only
  repeat' split
  all_goals first
    | exact Effect.same
    | (dsimp only; refine Effect.add _ ?_; simp [ruleElement, FountainElement.getType])

theorem parsePageBreak_effect (p : FountainParser) : Effect p (parsePageBreak p).1 := by
  unfold parsePageBreak
  try dsimp only
  repeat' split
  all_goals first
    | exact Effect.same
    | (dsimp only; refine Effect.add _ ?_; simp [ruleElement, FountainElement.getType])

theorem parseLyrics_effect (p : FountainParser) : Effect p (parseLyrics p).1 := by
  unfold parseLyrics
  try dsimp only
  repeat' split
  all_goals first
    | exact Effect.same
    | (dsimp only; refine Effect.add _ ?_; simp [ruleElement, FountainElement.getType])

theorem parseSynopsis_effect (p : FountainParser) : Effect p (parseSynopsis p).1 := by
  unfold parseSynopsis
  try dsimp only
  repeat' split
  all_goals first
    | exact Effect.same
    | (dsimp only; refine Effect.add _ ?_; simp [ruleElement, FountainElement.getType])

theorem parseCenteredText_effect (p : FountainParser) : Effect p (parseCenteredText p).1 := by
  unfold parseCenteredText
  try dsimp only
  repeat' split
  all_goals first
    | exact Effect.same
    | (dsimp only; refine Effect.add _ ?_; simp [ruleElement, FountainElement.getType])

theorem parseSceneHeading_effect (p : FountainParser) : Effect p (parseSceneHeading p).1 := by
  unfold parseSceneHeading
  try dsimp only
  repeat' split
  all_goals first
    | exact Effect.same
    | (dsimp only; refine Effect.add _ ?_; simp [ruleElement, FountainElement.getType])

theorem parseParenthesis_effect (p : FountainParser) : Effect p (parseParenthesis p).1 := by
  unfold parseParenthesis
  try dsimp only
  repeat' split
  all_goals first
    | exact Effect.same
    | (dsimp only; refine Effect.add _ ?_; simp [ruleElement, FountainElement.getType])

theorem parseTransition_effect (p : FountainParser) : Effect p (parseTransition p).1 := by
  unfold parseTransition
  repeat' split
  all_goals first
    | exact Effect.same
    | exact Effect.pend _ ⟨Or.inr rfl, rfl, _, rfl⟩

theorem parseCharacter_effect (p : FountainParser) : Effect p (parseCharacter p).1 := by
  unfold parseCharacter
  try dsimp only
  repeat' split
  all_goals first
    | exact Effect.same
    | exact Effect.pend _ ⟨Or.inl rfl, rfl, _, rfl⟩

theorem parseDialogue_effect (p : FountainParser) : Effect p (parseDialogue p).1 := by
  unfold parseDialogue
  dsimp only
  split
  · dsimp only; refine Effect.add _ ?_; simp [ruleElement, FountainElement.getType]
  · split
    · rename_i hlast
      split
      · split
        · exact Effect.append2 _ _ hlast
        · exact Effect.add2 _ _ hlast
      · split
        · split
          · exact Effect.append _ hlast
          · dsimp only; refine Effect.add _ ?_; simp [ruleElement, FountainElement.getType]
        · exact Effect.same
    · exact Effect.same

/-- Every classification rule has one of the effects of `Effect`. -/
theorem rules_effect : ∀ f ∈ rules, ∀ p, Effect p (f p).1 := by
  intro f hf
  simp only [rules, List.mem_cons, List.mem_singleton, List.not_mem_nil, or_false] at hf
  rcases hf with rfl | rfl | rfl | rfl | rfl | rfl | rfl | rfl | rfl | rfl | rfl | rfl | rfl | rfl
  · exact parseSection_effect
  · exact parseForcedAction_effect
  · exact parseForcedSceneHeading_effect
  · exact parseForcedCharacter_effect
  · exact parseForcedTransition_effect
  · exact parsePageBreak_effect
  · exact parseLyrics_effect
  · exact parseSynopsis_effect
  · exact parseCenteredText_effect
  · exact parseSceneHeading_effect
  · exact parseTransition_effect
  · exact parseParenthesis_effect
  · exact parseCharacter_effect
  · exact parseDialogue_effect

theorem firstOf_effect (fs : List (FountainParser → FountainParser × Bool))
    (hfs : ∀ f ∈ fs, ∀ p, Effect p (f p).1)
    (hun : ∀ f ∈ fs, ∀ p, (f p).2 = false → (f p).1 = p) (p : FountainParser) :
    Effect p (firstOf fs p).1 := by
  induction fs generalizing p with
  | nil => exact Effect.same
  | cons f fs ih =>
    simp only [firstOf]
    by_cases hf : (f p).2 = true
    · simp only [hf, ↓reduceIte]
      exact hfs f (by simp) p
    · simp only [hf]
      have e := hun f (by simp) p (by simpa using hf)
      rw [e]
      exact ih (fun g hg => hfs g (by simp [hg])) (fun g hg => hun g (by simp [hg])) p

/-- Outside the title page, classification of a line has one of the effects of `Effect`. -/
theorem classify_effect (p : FountainParser) (ht : p.inTitlePage = false) :
    Effect p (classify p) := by
  simp only [classify, ht, Bool.false_eq_true, ↓reduceIte]
  split
  · exact firstOf_effect rules rules_effect rules_unchanged p
  · rename_i h
    have := firstOf_unchanged rules rules_unchanged p (by simpa using h)
    rw [this]
    refine Effect.add _ ?_; simp [ruleElement, FountainElement.getType]

theorem getType_appendLine (e : FountainElement) (l : Str) :
    (e.appendLine l).getType = e.getType := by
  cases e <;> rfl

theorem kinds_appendLineAt (l : Str) : ∀ (es : List FountainElement) (i : Nat),
    kinds (appendLineAt es i l) = kinds es
  | [], _ => rfl
  | e :: es, 0 => by simp [appendLineAt, kinds, getType_appendLine]
  | e :: es, i + 1 => by
    have := kinds_appendLineAt l es i
    simp only [kinds] at this
    simp [appendLineAt, kinds, this]

theorem foldl_appendToElement_elements (i : Nat) (pads : List FountainElement) :
    ∀ p : FountainParser,
      kinds (pads.foldl (fun q padAction =>
        q.appendToElement i padAction.getTextRaw) p).script.elements = kinds p.script.elements := by
  induction pads with
  | nil => intro p; rfl
  | cons a as ih =>
    intro p
    simp only [List.foldl_cons]
    rw [ih]
    exact kinds_appendLineAt _ _ _

theorem foldl_addPad_elements (pads : List FountainElement) :
    ∀ p : FountainParser,
      (pads.foldl (fun q padAction =>
        { q with script := q.script.addElement padAction }) p).script.elements
        = p.script.elements ++ pads := by
  induction pads with
  | nil => intro p; simp
  | cons a as ih =>
    intro p
    simp only [List.foldl_cons]
    rw [ih]
    simp [FountainScript.addElement]

theorem flushed_frame (p : FountainParser) (e : FountainElement) :
    (p.flushed e).frame = p.frame := by
  unfold flushed
  repeat' split
  all_goals first
    | rfl
    | exact foldl_appendToElement_frame _ _ _
    | exact foldl_addPad_frame _ _

theorem flushed_pending (p : FountainParser) (e : FountainElement) :
    (p.flushed e).pending = p.pending := by
  unfold flushed
  repeat' split
  all_goals first
    | rfl
    | exact foldl_appendToElement_pending _ _ _
    | exact foldl_addPad_pending _ _

theorem flushed_nil (p : FountainParser) (e : FountainElement) (h : p.padActions = []) :
    p.flushed e = p := by
  simp [flushed, h]

/-- What flushing does to the document: nothing, or it appends lines to elements without
changing their kinds (only when the last element is a plain action), or it appends the
buffered blank actions as elements. -/
theorem flushed_elements (p : FountainParser) (e : FountainElement) :
    (p.flushed e).script.elements = p.script.elements
    ∨ (lastIsPlainAction p.getLastElement = true
        ∧ kinds (p.flushed e).script.elements = kinds p.script.elements)
    ∨ (p.flushed e).script.elements = p.script.elements ++ p.padActions := by
  unfold flushed
  split
  · split
    · rename_i h
      right; left
      simp only [Bool.and_eq_true] at h
      exact ⟨h.2, foldl_appendToElement_elements _ _ _⟩
    · right; right
      exact foldl_addPad_elements _ _
  · left; rfl

/-- The function `addElement` on an element that is not a blank action: flush the buffer,
clear it, then merge the element into the last one or commit it. -/
theorem addElement_flushed (p : FountainParser) (e : FountainElement)
    (h : (e.getType == .ACTION && e.isEmpty && !e.isCentered) = false) :
    p.addElement e
      = if p.mergeActions && e.getType == .ACTION && !e.isCentered
            && lastIsPlainAction p.getLastElement then
          ({ p.flushed e with padActions := [] } : FountainParser).appendToElement
            (p.script.elements.length - 1) e.getTextRaw
        else
          { p.flushed e with
            script := (p.flushed e).script.addElement e
            padActions := []
            inDialogue := e.getType == .CHARACTER || e.getType == .PARENTHESIS
              || e.getType == .DIALOGUE } := by
  have hm : (p.flushed e).mergeActions = p.mergeActions := frame_mergeActions (flushed_frame p e)
  unfold addElement
  simp only [h, Bool.false_eq_true, ↓reduceIte]
  unfold flushed at hm ⊢
  simp only [hm]

theorem countNotes_append (es fs : List FountainElement) :
    countNotes (es ++ fs) = countNotes es + countNotes fs := by
  simp [countNotes, kinds]

theorem countNotes_of_kinds {es fs : List FountainElement} (h : kinds es = kinds fs) :
    countNotes es = countNotes fs := by
  simp [countNotes, h]

theorem countNotes_actions (pads : List FountainElement)
    (h : ∀ a ∈ pads, a.getType = .ACTION) : countNotes pads = 0 := by
  induction pads with
  | nil => rfl
  | cons a as ih =>
    have ha := h a (by simp)
    have := ih (fun b hb => h b (by simp [hb]))
    simp only [countNotes, kinds, List.map_cons] at this ⊢
    rw [List.count_cons, this, ha]
    decide

theorem countNotes_singleton (e : FountainElement) (h : e.getType ≠ .NOTES) :
    countNotes [e] = 0 := by
  simp only [countNotes, kinds, List.map_cons, List.map_nil]
  rw [List.count_cons]
  simp [h]

/-- Flushing the buffer commits no notes element. -/
theorem flushed_countNotes (p : FountainParser) (e : FountainElement)
    (hp : ∀ a ∈ p.padActions, a.getType = .ACTION) :
    countNotes (p.flushed e).script.elements = countNotes p.script.elements := by
  rcases flushed_elements p e with h | ⟨-, h⟩ | h
  · rw [h]
  · exact countNotes_of_kinds h
  · rw [h, countNotes_append, countNotes_actions _ hp]
    rfl

/-- The document assembler commits no notes element unless it is handed one. -/
theorem addElement_countNotes (p : FountainParser) (e : FountainElement)
    (hp : ∀ a ∈ p.padActions, a.getType = .ACTION) (he : e.getType ≠ .NOTES) :
    countNotes (p.addElement e).script.elements = countNotes p.script.elements := by
  cases hb : (e.getType == .ACTION && e.isEmpty && !e.isCentered) with
  | true =>
    rw [addElement_blank p e hb]
    split <;> rfl
  | false =>
    rw [addElement_flushed p e hb]
    split
    · simp only [appendToElement]
      rw [countNotes_of_kinds (kinds_appendLineAt _ _ _)]
      exact flushed_countNotes p e hp
    · simp only [FountainScript.addElement]
      rw [countNotes_append, countNotes_singleton e he, flushed_countNotes p e hp]
      rfl

/-- The buffer of blank action lines only ever holds actions. -/
theorem addElement_padActions (p : FountainParser) (e : FountainElement)
    (hp : ∀ a ∈ p.padActions, a.getType = .ACTION) :
    ∀ a ∈ (p.addElement e).padActions, a.getType = .ACTION := by
  cases hb : (e.getType == .ACTION && e.isEmpty && !e.isCentered) with
  | true =>
    rw [addElement_blank p e hb]
    have he : e.getType = .ACTION := by
      simp only [Bool.and_eq_true, beq_iff_eq] at hb
      exact hb.1.1
    split
    · intro a ha
      simp only [List.mem_append, List.mem_singleton] at ha
      rcases ha with ha | rfl
      · exact hp a ha
      · exact he
    · exact hp
  | false =>
    rw [addElement_flushed p e hb]
    split
    · intro a ha
      simp [appendToElement] at ha
    · intro a ha
      simp at ha

theorem flushed_extends (p : FountainParser) (e : FountainElement)
    (h : lastIsPlainAction p.getLastElement = false) :
    p.script.elements <+: (p.flushed e).script.elements := by
  rcases flushed_elements p e with h1 | ⟨h1, -⟩ | h1
  · rw [h1]
  · rw [h] at h1; exact absurd h1 (by simp)
  · rw [h1]; exact List.prefix_append _ _

/-- When the last element is not a plain action, the document assembler leaves every committed
element as it is. -/
theorem addElement_extends (p : FountainParser) (e : FountainElement)
    (h : lastIsPlainAction p.getLastElement = false) :
    p.script.elements <+: (p.addElement e).script.elements := by
  cases hb : (e.getType == .ACTION && e.isEmpty && !e.isCentered) with
  | true =>
    rw [addElement_blank p e hb]
    split <;> exact List.prefix_refl _
  | false =>
    rw [addElement_flushed p e hb]
    simp only [h, Bool.and_false, Bool.false_eq_true, ↓reduceIte, FountainScript.addElement]
    exact (flushed_extends p e h).trans (List.prefix_append _ _)

/-- A rule effect leaves every committed element as it is when the last element is neither a
plain action nor a dialogue. -/
theorem effect_extends (p q : FountainParser) (h : Effect p q)
    (hp : lastIsPlainAction p.getLastElement = false)
    (hd : lastIs p.getLastElement .DIALOGUE = false) :
    p.script.elements <+: q.script.elements := by
  cases h with
  | same => exact List.prefix_refl _
  | add e _ => exact addElement_extends p e hp
  | add2 t1 t2 h => rw [hd] at h; exact absurd h (by simp)
  | append l h => rw [hd] at h; exact absurd h (by simp)
  | append2 l1 l2 h => rw [hd] at h; exact absurd h (by simp)
  | pend x _ => exact List.prefix_refl _

theorem infix_of_cons_snoc (pat c : Str) (x y : Char) (h1 : ∀ d ∈ pat.head?, d ≠ x)
    (h2 : ∀ d ∈ pat.getLast?, d ≠ y) (hne : pat ≠ []) (h : pat <:+: x :: (c ++ [y])) :
    pat <:+: c := by
  rcases List.infix_cons_iff.1 h with hpre | hi
  · exfalso
    obtain ⟨t, ht⟩ := hpre
    cases pat with
    | nil => exact hne rfl
    | cons d ds =>
      simp only [List.cons_append, List.cons.injEq] at ht
      exact h1 d (by simp) ht.1
  · rw [← List.reverse_infix, List.reverse_append, List.reverse_singleton,
      List.singleton_append] at hi
    rcases List.infix_cons_iff.1 hi with hpre | hi2
    · exfalso
      obtain ⟨t, ht⟩ := hpre
      cases hr : pat.reverse with
      | nil => exact hne (by simpa using hr)
      | cons d ds =>
        rw [hr] at ht
        simp only [List.cons_append, List.cons.injEq] at ht
        have : pat.getLast? = some d := by
          rw [List.getLast?_eq_head?_reverse, hr]; rfl
        exact h2 d (by simp [this]) ht.1
    · exact List.reverse_infix.1 hi2

theorem contains_centered (c : Str) (h : contains c "===".toList = false) :
    contains ('>' :: (c ++ ['<'])) "===".toList = false := by
  cases h2 : contains ('>' :: (c ++ ['<'])) "===".toList with
  | false => rfl
  | true =>
    rw [contains_infix_iff] at h2
    have := infix_of_cons_snoc _ c '>' '<' (by decide) (by decide) (by decide) h2
    rw [← contains_infix_iff, h] at this
    exact absurd this (by simp)

theorem endsWith_snoc (s : Str) (y : Char) : endsWith (s ++ [y]) [y] = true := by
  simp [endsWith, List.isSuffixOf, List.isPrefixOf]

/-- State after a centered line: the pending element is resolved, then the centered action is
handed to the document assembler. -/
theorem addLine_centered (p : FountainParser) (l c : Str)
    (ht : p.inTitlePage = false) (hbo : p.boneyard = none) (hno : p.note = none)
    (hl : trim l = '>' :: (c ++ ['<'])) (hc : contains c "===".toList = false) :
    addLine p l
      = (if !p.pending.isEmpty then parsePending (p.loadLine l) else p.loadLine l).addElement
          (.Action c false true) := by
  have ho : opensBlock l = false := by
    simp only [opensBlock, hl, show "/*".toList = '/' :: ['*'] from rfl,
      show "[[".toList = '[' :: ['['] from rfl,
      startsWith_cons_ne '>' '/' _ _ (by decide), startsWith_cons_ne '>' '[' _ _ (by decide),
      Bool.false_and, Bool.or_self]
  rw [addLine_eq_classify p l hbo hno ho]
  generalize hr : (if (!p.pending.isEmpty) = true then parsePending (p.loadLine l)
    else p.loadLine l) = r
  have hfr : r.frame = (p.loadLine l).frame := by
    rw [← hr]
    split
    · exact parsePending_frame _
    · rfl
  have hlt : r.lineTrim = '>' :: (c ++ ['<']) := (frame_lineTrim hfr).trans hl
  have hti : r.inTitlePage = false := (frame_inTitlePage hfr).trans ht
  have hend : endsWith r.lineTrim "<".toList = true := by
    rw [hlt]
    exact endsWith_snoc ('>' :: c) '<'
  have h1 := parseSection_none r _ _ hlt (by decide)
  have h2 := parseForcedAction_none r _ _ hlt (by decide)
  have h3 := parseForcedSceneHeading_none r _ _ hlt (by decide)
  have h4 := parseForcedCharacter_none r _ _ hlt (by decide)
  have h5 : parseForcedTransition r = (r, false) := by
    simp only [parseForcedTransition, hend, Bool.not_true, Bool.and_false, Bool.false_eq_true,
      ↓reduceIte]
  have h6 := parsePageBreak_none r (by rw [hlt]; exact contains_centered c hc)
  have h7 := parseLyrics_none r _ _ hlt (by decide)
  have h8 := parseSynopsis_none r _ _ hlt (by decide)
  have h9 : parseCenteredText r = (r.addElement (.Action c false true), true) := by
    have hs : startsWith r.lineTrim ">".toList = true := by
      rw [hlt]; simp [startsWith, List.isPrefixOf]
    have hsub : substrLen r.lineTrim 1 (r.lineTrim.length - 2) = c := by
      rw [hlt]
      simp [substrLen]
    simp only [parseCenteredText, hs, hend, Bool.and_self, ↓reduceIte, hsub]
  simp only [classify, hti, Bool.false_eq_true, ↓reduceIte, rules, firstOf, h1, h2, h3, h4, h5,
    h6, h7, h8, h9]

/-- A line that opens a block commits nothing. -/
theorem addLine_opens (p : FountainParser) (l : Str) (hbo : p.boneyard = none)
    (hno : p.note = none) (ho : opensBlock l = true) :
    (addLine p l).script.elements = p.script.elements := by
  simp only [opensBlock] at ho
  cases h1 : startsWith (trim l) "/*".toList with
  | true =>
    simp only [addLine, firstOf, parseBoneyard, loadLine, hbo, h1, ↓reduceIte]
  | false =>
    rw [h1] at ho
    simp only [Bool.false_or] at ho
    simp only [addLine, firstOf, parseBoneyard, parseNotes, loadLine, hbo, hno, h1, ho,
      Bool.false_eq_true, ↓reduceIte]

theorem pendingOk_element (x : PendingElement) (h : pendingOk x) :
    x.element.getType ≠ .NOTES ∧ x.backup.getType ≠ .NOTES := by
  obtain ⟨h1, h2, t, h3⟩ := h
  constructor
  · rw [h2]
    rcases h1 with h1 | h1 <;> rw [h1] <;> decide
  · rw [h3]
    simp [FountainElement.getType]

/-- A rule effect keeps the buffers well-formed and commits no notes element. -/
theorem effect_buffersOk (p q : FountainParser) (h : Effect p q) (hp : buffersOk p) :
    buffersOk q ∧ countNotes q.script.elements = countNotes p.script.elements := by
  cases h with
  | same => exact ⟨hp, rfl⟩
  | add e he =>
    refine ⟨⟨?_, addElement_padActions p e hp.2⟩, addElement_countNotes p e hp.2 he.1⟩
    rw [addElement_pending]
    exact hp.1
  | add2 t1 t2 _ =>
    have h1 := addElement_padActions p (.Dialogue t1) hp.2
    refine ⟨⟨?_, addElement_padActions _ (.Dialogue t2) h1⟩, ?_⟩
    · rw [addElement_pending, addElement_pending]
      exact hp.1
    · rw [addElement_countNotes _ _ h1 (by simp [FountainElement.getType]),
        addElement_countNotes _ _ hp.2 (by simp [FountainElement.getType])]
  | append l _ =>
    exact ⟨hp, countNotes_of_kinds (kinds_appendLineAt _ _ _)⟩
  | append2 l1 l2 _ =>
    refine ⟨hp, ?_⟩
    simp only [appendToElement]
    exact countNotes_of_kinds ((kinds_appendLineAt _ _ _).trans (kinds_appendLineAt _ _ _))
  | pend x hx =>
    refine ⟨⟨?_, hp.2⟩, rfl⟩
    intro y hy
    simp only [List.mem_append, List.mem_singleton] at hy
    rcases hy with hy | rfl
    · exact hp.1 y hy
    · exact hx

theorem resolvePending_ok (p : FountainParser) (x : PendingElement) (hx : pendingOk x)
    (hp : ∀ a ∈ p.padActions, a.getType = .ACTION) :
    (∀ a ∈ (resolvePending p x).padActions, a.getType = .ACTION)
    ∧ countNotes (resolvePending p x).script.elements = countNotes p.script.elements := by
  have hk := pendingOk_element x hx
  unfold resolvePending
  repeat' split
  all_goals first
    | exact ⟨hp, rfl⟩
    | exact ⟨addElement_padActions _ _ hp, addElement_countNotes _ _ hp hk.1⟩
    | exact ⟨addElement_padActions _ _ hp, addElement_countNotes _ _ hp hk.2⟩

theorem foldl_resolvePending_ok (xs : List PendingElement) (hxs : ∀ x ∈ xs, pendingOk x) :
    ∀ p : FountainParser, (∀ a ∈ p.padActions, a.getType = .ACTION) →
      (∀ a ∈ (xs.foldl resolvePending p).padActions, a.getType = .ACTION)
      ∧ countNotes (xs.foldl resolvePending p).script.elements
          = countNotes p.script.elements := by
  induction xs with
  | nil => intro p hp; exact ⟨hp, rfl⟩
  | cons x xs ih =>
    intro p hp
    simp only [List.foldl_cons]
    have h1 := resolvePending_ok p x (hxs x (by simp)) hp
    have h2 := ih (fun y hy => hxs y (by simp [hy])) _ h1.1
    exact ⟨h2.1, h2.2.trans h1.2⟩

/-- Resolution of the pending elements keeps the buffers well-formed and commits no notes
element. -/
theorem parsePending_ok (p : FountainParser) (hp : buffersOk p) :
    buffersOk (parsePending p)
    ∧ countNotes (parsePending p).script.elements = countNotes p.script.elements := by
  have := foldl_resolvePending_ok p.pending hp.1 p hp.2
  refine ⟨⟨?_, this.1⟩, this.2⟩
  intro x hx
  simp [parsePending] at hx

theorem parseTitlePage_elements (p : FountainParser) :
    (parseTitlePage p).1.script.elements = p.script.elements
    ∧ (parseTitlePage p).1.padActions = p.padActions := by
  unfold parseTitlePage
  repeat' split
  all_goals exact ⟨rfl, rfl⟩

/-- Classification of a line keeps the buffers well-formed and commits no notes element. -/
theorem classify_ok (p : FountainParser) (hp : buffersOk p) :
    buffersOk (classify p)
    ∧ countNotes (classify p).script.elements = countNotes p.script.elements := by
  unfold classify
  simp only
  generalize hr : (if p.inTitlePage = true then parseTitlePage p else (p, false)) = r
  have hk : buffersOk r.1 ∧ r.1.script.elements = p.script.elements := by
    rw [← hr]
    split
    · refine ⟨⟨?_, ?_⟩, (parseTitlePage_elements p).1⟩
      · rw [(parseTitlePage_keeps p).1]; exact hp.1
      · rw [(parseTitlePage_elements p).2]; exact hp.2
    · exact ⟨hp, rfl⟩
  split
  · exact ⟨hk.1, by rw [hk.2]⟩
  · have he := firstOf_effect rules rules_effect rules_unchanged r.1
    have h1 := effect_buffersOk _ _ he hk.1
    split
    · exact ⟨h1.1, by rw [h1.2, hk.2]⟩
    · simp only [parseAction]
      refine ⟨⟨?_, addElement_padActions _ _ h1.1.2⟩, ?_⟩
      · rw [addElement_pending]; exact h1.1.1
      · rw [addElement_countNotes _ _ h1.1.2 (by simp [FountainElement.getType]), h1.2, hk.2]

theorem buffersOk_fresh (mA mD : Bool) : buffersOk (fresh mA mD) := by
  constructor <;> intro x hx <;> simp [fresh] at hx

theorem parseBoneyard_buffers (p : FountainParser) :
    (parseBoneyard p).1.pending = p.pending ∧ (parseBoneyard p).1.padActions = p.padActions := by
  unfold parseBoneyard
  repeat' split
  all_goals exact ⟨rfl, rfl⟩

theorem parseNotes_buffers (p : FountainParser) :
    (parseNotes p).1.pending = p.pending ∧ (parseNotes p).1.padActions = p.padActions := by
  unfold parseNotes
  repeat' split
  all_goals exact ⟨rfl, rfl⟩

/-- Every call of `addLine` keeps the buffers well-formed. -/
theorem addLine_buffersOk (p : FountainParser) (l : Str) (hp : buffersOk p) :
    buffersOk (addLine p l) := by
  have hP : buffersOk (p.loadLine l) := hp
  unfold addLine
  simp only [firstOf]
  generalize p.loadLine l = P at hP
  have hB : buffersOk (parseBoneyard P).1 :=
    ⟨by rw [(parseBoneyard_buffers P).1]; exact hP.1,
      by rw [(parseBoneyard_buffers P).2]; exact hP.2⟩
  cases h1 : (parseBoneyard P).2 with
  | true => simpa only [↓reduceIte] using hB
  | false =>
    simp only [Bool.false_eq_true, ↓reduceIte]
    generalize (parseBoneyard P).1 = B at hB
    have hN : buffersOk (parseNotes B).1 :=
      ⟨by rw [(parseNotes_buffers B).1]; exact hB.1,
        by rw [(parseNotes_buffers B).2]; exact hB.2⟩
    cases h2 : (parseNotes B).2 with
    | true => simpa only [↓reduceIte] using hN
    | false =>
      simp only [Bool.false_eq_true, ↓reduceIte]
      generalize (parseNotes B).1 = N at hN
      apply (classify_ok _ _).1
      split
      · exact (parsePending_ok N hN).1
      · exact hN

theorem effect_blocks (p q : FountainParser) (h : Effect p q) :
    q.note = p.note ∧ q.boneyard = p.boneyard := by
  cases h with
  | same => exact ⟨rfl, rfl⟩
  | add e _ => exact ⟨frame_note (addElement_frame p e), frame_boneyard (addElement_frame p e)⟩
  | add2 t1 t2 _ =>
    exact ⟨(frame_note (addElement_frame _ _)).trans (frame_note (addElement_frame _ _)),
      (frame_boneyard (addElement_frame _ _)).trans (frame_boneyard (addElement_frame _ _))⟩
  | append l _ => exact ⟨rfl, rfl⟩
  | append2 l1 l2 _ => exact ⟨rfl, rfl⟩
  | pend x _ => exact ⟨rfl, rfl⟩

theorem parseTitlePage_blocks (p : FountainParser) :
    (parseTitlePage p).1.note = p.note ∧ (parseTitlePage p).1.boneyard = p.boneyard := by
  unfold parseTitlePage
  repeat' split
  all_goals exact ⟨rfl, rfl⟩

/-- Classification of a line leaves the two block buffers alone. -/
theorem classify_blocks (p : FountainParser) :
    (classify p).note = p.note ∧ (classify p).boneyard = p.boneyard := by
  unfold classify
  simp only
  generalize hr : (if p.inTitlePage = true then parseTitlePage p else (p, false)) = r
  have hk : r.1.note = p.note ∧ r.1.boneyard = p.boneyard := by
    rw [← hr]
    split
    · exact parseTitlePage_blocks p
    · exact ⟨rfl, rfl⟩
  split
  · exact hk
  · have he := effect_blocks _ _ (firstOf_effect rules rules_effect rules_unchanged r.1)
    split
    · exact ⟨he.1.trans hk.1, he.2.trans hk.2⟩
    · simp only [parseAction]
      exact ⟨(frame_note (addElement_frame _ _)).trans (he.1.trans hk.1),
        (frame_boneyard (addElement_frame _ _)).trans (he.2.trans hk.2)⟩

/-- An open boneyard block holds a boneyard element, after every call of `addLine`. -/
theorem addLine_boneyard (p : FountainParser) (l : Str)
    (hb : ∀ b, p.boneyard = some b → b.getType = .BONEYARD) :
    ∀ b, (addLine p l).boneyard = some b → b.getType = .BONEYARD := by
  have hP : ∀ b, (p.loadLine l).boneyard = some b → b.getType = .BONEYARD := hb
  unfold addLine
  simp only [firstOf]
  generalize p.loadLine l = P at hP
  cases hbo : P.boneyard with
  | some b0 =>
    have h1 : (parseBoneyard P).2 = true := by
      simp only [parseBoneyard, hbo]
      split <;> rfl
    simp only [h1, ↓reduceIte]
    simp only [parseBoneyard, hbo]
    split
    · intro b h
      cases h
    · intro b h
      simp only [Option.some.injEq] at h
      rw [← h, getType_appendLine]
      exact hP b0 hbo
  | none =>
    cases hs : startsWith P.lineTrim "/*".toList with
    | true =>
      simp only [parseBoneyard, hbo, hs, ↓reduceIte]
      intro b h
      simp only [Option.some.injEq] at h
      rw [← h]
      rfl
    | false =>
      have hB : parseBoneyard P = (P, false) := by
        simp only [parseBoneyard, hbo, hs, Bool.false_eq_true, ↓reduceIte]
      simp only [hB, Bool.false_eq_true, ↓reduceIte]
      have hN : (parseNotes P).1.boneyard = none := by
        rw [← hbo]
        unfold parseNotes
        repeat' split
        all_goals rfl
      cases h2 : (parseNotes P).2 with
      | true =>
        simp only [↓reduceIte]
        rw [hN]
        intro b h
        cases h
      | false =>
        simp only [Bool.false_eq_true, ↓reduceIte]
        generalize (parseNotes P).1 = N at hN
        rw [(classify_blocks _).2]
        have : (if (!N.pending.isEmpty) = true then parsePending N else N).boneyard = none := by
          split
          · exact (frame_boneyard (parsePending_frame N)).trans hN
          · exact hN
        rw [this]
        intro b h
        cases h

/-- With no notes block open, a line that does not open one leaves none open and commits no
notes element. -/
theorem addLine_no_notes (p : FountainParser) (l : Str) (hp : buffersOk p)
    (hbk : ∀ b, p.boneyard = some b → b.getType = .BONEYARD)
    (hn : p.note = none)
    (hc : (startsWith (trim l) "[[".toList && !contains (trim l) "]]".toList) = false) :
    (addLine p l).note = none
    ∧ countNotes (addLine p l).script.elements = countNotes p.script.elements := by
  have hP : buffersOk (p.loadLine l) := hp
  have hPn : (p.loadLine l).note = none := hn
  have hPl : (p.loadLine l).lineTrim = trim l := rfl
  have hPe : (p.loadLine l).script.elements = p.script.elements := rfl
  have hPb : ∀ b, (p.loadLine l).boneyard = some b → b.getType = .BONEYARD := hbk
  unfold addLine
  simp only [firstOf]
  rw [← hPe]
  generalize p.loadLine l = P at hP hPn hPl hPb
  have hN : parseNotes P = (P, false) := by
    simp only [parseNotes, hPn, hPl, hc, Bool.false_eq_true, ↓reduceIte]
  cases hb : P.boneyard with
  | some b =>
    have h1 : (parseBoneyard P).2 = true := by
      simp only [parseBoneyard, hb]
      split <;> rfl
    simp only [h1, ↓reduceIte]
    simp only [parseBoneyard, hb]
    split
    · refine ⟨hPn, ?_⟩
      simp only [FountainScript.addElement, countNotes_append]
      rw [countNotes_singleton _ (by rw [getType_appendLine, hPb b hb]; decide)]
      rfl
    · exact ⟨hPn, rfl⟩
  | none =>
    cases hs : startsWith P.lineTrim "/*".toList with
    | true =>
      simp only [parseBoneyard, hb, hs, ↓reduceIte, and_true]
      exact hPn
    | false =>
      have hB : parseBoneyard P = (P, false) := by
        simp only [parseBoneyard, hb, hs, Bool.false_eq_true, ↓reduceIte]
      simp only [hB, hN, Bool.false_eq_true, ↓reduceIte]
      rw [(classify_blocks _).1]
      have hR : buffersOk (if (!P.pending.isEmpty) = true then parsePending P else P)
          ∧ (if (!P.pending.isEmpty) = true then parsePending P else P).note = none
          ∧ countNotes (if (!P.pending.isEmpty) = true then parsePending P else P).script.elements
              = countNotes P.script.elements := by
        split
        · exact ⟨(parsePending_ok P hP).1, (frame_note (parsePending_frame P)).trans hPn,
            (parsePending_ok P hP).2⟩
        · exact ⟨hP, hPn, rfl⟩
      exact ⟨hR.2.1, ((classify_ok _ hR.1).2).trans hR.2.2⟩

/-- In every state that the parser reaches from a fresh one, the buffers are well-formed and a
boneyard block that is open holds a boneyard element. -/
theorem reachable_ok (mA mD : Bool) (lines : List Str) :
    buffersOk (lines.foldl addLine (fresh mA mD))
    ∧ ∀ b, (lines.foldl addLine (fresh mA mD)).boneyard = some b → b.getType = .BONEYARD := by
  have : ∀ (ls : List Str) (p : FountainParser),
      (buffersOk p ∧ ∀ b, p.boneyard = some b → b.getType = .BONEYARD) →
      (buffersOk (ls.foldl addLine p)
        ∧ ∀ b, (ls.foldl addLine p).boneyard = some b → b.getType = .BONEYARD) := by
    intro ls
    induction ls with
    | nil => intro p hp; exact hp
    | cons l ls ih =>
      intro p hp
      exact ih _ ⟨addLine_buffersOk p l hp.1, addLine_boneyard p l hp.2⟩
  refine this lines _ ⟨buffersOk_fresh mA mD, ?_⟩
  intro b h
  cases h

theorem addLine_notes_open (p : FountainParser) (l1 : Str) (hbo : p.boneyard = none)
    (hno : p.note = none) (h1 : startsWith (trim l1) "[[".toList = true)
    (h2 : contains (trim l1) "]]".toList = false) :
    addLine p l1 = { p.loadLine l1 with note := some (.Notes (substr (trim l1) 2)),
                                         lineBeforeNote := l1 } := by
  have hs : startsWith (trim l1) "/*".toList = false := by
    cases ht : trim l1 with
    | nil => rw [ht] at h1; exact absurd h1 (by decide)
    | cons c cs =>
      rw [ht] at h1
      cases hc : decide (c = '[') with
      | true =>
        rw [decide_eq_true_eq] at hc
        subst hc
        rfl
      | false =>
        rw [decide_eq_false_iff_not] at hc
        rw [show "[[".toList = '[' :: ['['] from rfl, startsWith_cons_ne c '[' cs _ hc] at h1
        exact absurd h1 (by decide)
  simp only [addLine, firstOf, parseBoneyard, parseNotes, loadLine, hbo, hno, hs, h1, h2,
    Bool.false_eq_true, ↓reduceIte, Bool.not_false, Bool.and_self]

theorem addLine_notes_close (p : FountainParser) (l2 : Str) (n : FountainElement)
    (hbo : p.boneyard = none) (hno : p.note = some n)
    (h1 : startsWith (trim l2) "/*".toList = false) (h2 : contains l2 "]]".toList = true) :
    (addLine p l2).script.elements = p.script.elements ++ [n.appendLine (trim l2)]
    ∧ (addLine p l2).note = none := by
  have h3 : contains (trim l2) "]]".toList = true :=
    contains_trim l2 "]]".toList h2 (by decide) (by decide)
  simp only [addLine, firstOf, parseBoneyard, parseNotes, loadLine, hbo, hno, h1, h3,
    Bool.false_eq_true, ↓reduceIte, FountainScript.addElement, and_self]

/-- C8 (notes opening), with the reading of "does not start with" made exact. First part, in every
state that the parser reaches from a fresh one and in which no notes block is open: a line whose
trimmed form starts with `[[` and contains `]]` leaves no notes block open, and the number of
notes elements of the document stays the same. Second part: on a fresh parser, in both merge
modes, `[[note text]]` is committed as one plain action with that text. Third part, for a parser
with no block open: when the trimmed form of `l1` starts with `[[` and contains no `]]`, the line
`l1` commits nothing; when `l2` contains `]]` and its trimmed form does not start with `/*`, the
line `l2` commits exactly one element, the notes element whose text is the trimmed `l1` without
its first two characters, a line feed, then the trimmed `l2`, and the block is closed. -/
theorem notes_opening :
    (∀ (mA mD : Bool) (lines : List Str) (l : Str),
      (lines.foldl addLine (fresh mA mD)).note = none →
      startsWith (trim l) "[[".toList = true → contains (trim l) "]]".toList = true →
      (addLine (lines.foldl addLine (fresh mA mD)) l).note = none
      ∧ countNotes (addLine (lines.foldl addLine (fresh mA mD)) l).script.elements
          = countNotes (lines.foldl addLine (fresh mA mD)).script.elements)
    ∧ (∀ mA mD : Bool,
        (addLine (fresh mA mD) "[[note text]]".toList).script.elements
          = [FountainElement.Action "[[note text]]".toList false false])
    ∧ (∀ (p : FountainParser) (l1 l2 : Str),
        p.boneyard = none → p.note = none →
        startsWith (trim l1) "[[".toList = true → contains (trim l1) "]]".toList = false →
        contains l2 "]]".toList = true → startsWith (trim l2) "/*".toList = false →
        (addLine p l1).script.elements = p.script.elements
        ∧ (addLine (addLine p l1) l2).script.elements
            = p.script.elements
                ++ [FountainElement.Notes (substr (trim l1) 2 ++ '\n' :: trim l2)]
        ∧ (addLine (addLine p l1) l2).note = none) := by
  refine ⟨?_, ?_, ?_⟩
  · intro mA mD lines l hn h1 h2
    have hr := reachable_ok mA mD lines
    exact addLine_no_notes _ l hr.1 hr.2 hn (by rw [h1, h2]; rfl)
  · decide
  · intro p l1 l2 hbo hno h1 h2 h3 h4
    have ho := addLine_notes_open p l1 hbo hno h1 h2
    have hc := addLine_notes_close (addLine p l1) l2 (.Notes (substr (trim l1) 2))
      (by rw [ho]; exact hbo) (by rw [ho]) h4 h3
    refine ⟨by rw [ho]; rfl, ?_, hc.2⟩
    rw [hc.1, ho]
    rfl

/-- C8, at the input of the claim: on a fresh parser the lines `[[note` and `more]]` commit one
notes element, with the text of both lines. -/
theorem notes_opening_witness :
    (addLine (fresh true true) "[[note".toList).script.elements = []
    ∧ (addLine (addLine (fresh true true) "[[note".toList) "more]]".toList).script.elements
        = [FountainElement.Notes "note\nmore]]".toList]
    ∧ (addLine (addLine (fresh true true) "[[note".toList) "more]]".toList).note = none :=
  notes_opening.2.2 (fresh true true) "[[note".toList "more]]".toList rfl rfl
    (by decide) (by decide) (by decide) (by decide)

/-- C8 as written fails for a second line that starts with white space followed by `/*`: the line
` /* x]]` contains `]]` and does not start with `/*`, yet its trimmed form does, so it opens a
boneyard block, the notes block stays open and no notes element is committed, also not at the end
of the input. -/
theorem notes_opening_counterexample :
    startsWith (trim "[[note".toList) "[[".toList = true
    ∧ contains (trim "[[note".toList) "]]".toList = false
    ∧ contains " /* x]]".toList "]]".toList = true
    ∧ startsWith " /* x]]".toList "/*".toList = false
    ∧ (addLine (addLine (fresh true true) "[[note".toList) " /* x]]".toList).script.elements = []
    ∧ (addLine (addLine (fresh true true) "[[note".toList) " /* x]]".toList).note
        = some (FountainElement.Notes "note".toList)
    ∧ (addLines (fresh true true) ["[[note".toList, " /* x]]".toList]).script.elements = [] := by
  decide

/-! ## Unterminated blocks and open blocks -/

/-- While a boneyard block is open, `addLine` hands every line to it and does nothing else: the
trimmed line is appended to the block, and the block is committed when the line contains the
closing marker. -/
theorem boneyard_absorbs (p : FountainParser) (l : Str) (b : FountainElement)
    (hb : p.boneyard = some b) :
    addLine p l
      = if contains (trim l) "*/".toList then
          { p.loadLine l with
            script := p.script.addElement (b.appendLine (trim l)), boneyard := none }
        else { p.loadLine l with boneyard := some (b.appendLine (trim l)) } := by
  simp only [addLine, firstOf, parseBoneyard, loadLine, hb]
  split <;> rfl

/-- While a notes block is open and no boneyard block is, `addLine` hands every line that does
not open a boneyard block to the notes block and does nothing else. -/
theorem notes_absorbs (p : FountainParser) (l : Str) (n : FountainElement)
    (hbo : p.boneyard = none) (hn : p.note = some n)
    (hs : startsWith (trim l) "/*".toList = false) :
    addLine p l
      = if contains (trim l) "]]".toList then
          { p.loadLine l with
            script := p.script.addElement (n.appendLine (trim l)), note := none }
        else { p.loadLine l with note := some (n.appendLine (trim l)) } := by
  simp only [addLine, firstOf, parseBoneyard, parseNotes, loadLine, hbo, hn, hs,
    Bool.false_eq_true, ↓reduceIte]
  split <;> rfl

/-- With no boneyard block open, a line whose trimmed form starts with the boneyard marker opens
one and does nothing else, also while a notes block is open: the line is not appended to the
notes block. -/
theorem boneyard_opens (p : FountainParser) (l : Str)
    (hbo : p.boneyard = none) (hs : startsWith (trim l) "/*".toList = true) :
    addLine p l
      = { p.loadLine l with boneyard := some (.Boneyard (trim l)), lineBeforeBoneyard := l } := by
  simp only [addLine, firstOf, parseBoneyard, loadLine, hbo, hs, ↓reduceIte]

theorem finalizeParsing_nothing_pending (p : FountainParser) (h : p.pending = []) :
    (finalizeParsing p).script = p.script := by
  simp [finalizeParsing, parsePending, h]

/-- C14 (amended). First part: while a boneyard block `b` is open, `addLine` on any line `l`
only loads the line and appends its trimmed form to the block; when the trimmed line contains
`*/` the block is committed as the new last element and closed. Nothing else changes: no other
block is opened, no header is added, the pending elements and the buffered blank lines stay, and
no rule runs. Second part: while a notes block `n` is open and no boneyard block is, the same
holds, with `]]` as the closing marker, for every line whose trimmed form does not start with
`/*`. Third part: such a line with `/*` is not appended to the notes block; it opens a boneyard
block, which then absorbs the following lines. -/
theorem open_block_absorbs :
    (∀ (p : FountainParser) (l : Str) (b : FountainElement), p.boneyard = some b →
      addLine p l
        = if contains (trim l) "*/".toList then
            { p.loadLine l with
              script := p.script.addElement (b.appendLine (trim l)), boneyard := none }
          else { p.loadLine l with boneyard := some (b.appendLine (trim l)) })
    ∧ (∀ (p : FountainParser) (l : Str) (n : FountainElement),
        p.boneyard = none → p.note = some n → startsWith (trim l) "/*".toList = false →
        addLine p l
          = if contains (trim l) "]]".toList then
              { p.loadLine l with
                script := p.script.addElement (n.appendLine (trim l)), note := none }
            else { p.loadLine l with note := some (n.appendLine (trim l)) })
    ∧ (∀ (p : FountainParser) (l : Str) (n : FountainElement),
        p.boneyard = none → p.note = some n → startsWith (trim l) "/*".toList = true →
        addLine p l
          = { p.loadLine l with
              boneyard := some (FountainElement.Boneyard (trim l)), lineBeforeBoneyard := l }) :=
  ⟨boneyard_absorbs, notes_absorbs, fun p l _ hbo _ hs => boneyard_opens p l hbo hs⟩

/-- C14, at concrete inputs: inside the boneyard block opened by `/* a`, the line `Title: x` is
appended to the block and adds no header, and the line `b */` commits the block. -/
theorem open_block_absorbs_witness :
    (addLine (addLine (fresh true true) "/* a".toList) "Title: x".toList
      = { (addLine (fresh true true) "/* a".toList).loadLine "Title: x".toList with
          boneyard := some (FountainElement.Boneyard "/* a\nTitle: x".toList) })
    ∧ (addLine (addLine (fresh true true) "/* a".toList) "b */".toList).script
      = ⟨[FountainElement.Boneyard "/* a\nb */".toList], []⟩ :=
  ⟨(open_block_absorbs.1 (addLine (fresh true true) "/* a".toList) "Title: x".toList
      (FountainElement.Boneyard "/* a".toList) (by decide)).trans (by decide),
    by decide⟩

/-- C14 as written fails for an open notes block: after `[[note`, the line `/* x` is not
appended to the notes block, whose text stays `note`; it opens a boneyard block. The next line
`y ]]` goes to the boneyard block as well, so the closing marker of the notes block does not
commit it. -/
theorem open_block_absorbs_counterexample :
    (addLine (fresh true true) "[[note".toList).note
      = some (FountainElement.Notes "note".toList)
    ∧ (addLine (addLine (fresh true true) "[[note".toList) "/* x".toList).note
      = some (FountainElement.Notes "note".toList)
    ∧ (addLine (addLine (fresh true true) "[[note".toList) "/* x".toList).boneyard
      = some (FountainElement.Boneyard "/* x".toList)
    ∧ (addLine (addLine (addLine (fresh true true) "[[note".toList) "/* x".toList)
        "y ]]".toList).note = some (FountainElement.Notes "note".toList)
    ∧ (addLine (addLine (addLine (fresh true true) "[[note".toList) "/* x".toList)
        "y ]]".toList).script.elements = [] := by
  decide

/-! ## Pending elements at the end of the input -/

theorem foldl_appendToElement_withLines (i : Nat) (q : FountainParser)
    (pads : List FountainElement) :
    ∀ p : FountainParser,
      pads.foldl (fun r padAction => r.appendToElement i padAction.getTextRaw) (p.withLines q)
        = (pads.foldl (fun r padAction => r.appendToElement i padAction.getTextRaw) p).withLines
            q := by
  induction pads with
  | nil => intro p; rfl
  | cons a as ih =>
    intro p
    simp only [List.foldl_cons]
    exact ih (p.appendToElement i a.getTextRaw)

theorem foldl_addPad_withLines (q : FountainParser) (pads : List FountainElement) :
    ∀ p : FountainParser,
      pads.foldl (fun r padAction => { r with script := r.script.addElement padAction })
          (p.withLines q)
        = (pads.foldl (fun r padAction => { r with script := r.script.addElement padAction })
            p).withLines q := by
  induction pads with
  | nil => intro p; rfl
  | cons a as ih =>
    intro p
    simp only [List.foldl_cons]
    exact ih { p with script := p.script.addElement a }

theorem flushed_withLines (p q : FountainParser) (e : FountainElement) :
    (p.withLines q).flushed e = (p.flushed e).withLines q := by
  have h1 : (p.withLines q).script = p.script := rfl
  have h2 : (p.withLines q).padActions = p.padActions := rfl
  have h3 : (p.withLines q).mergeActions = p.mergeActions := rfl
  unfold flushed
  simp only [getLastElement, h1, h2, h3]
  split
  · split
    · exact foldl_appendToElement_withLines _ _ _ _
    · exact foldl_addPad_withLines _ _ _
  · rfl

/-- The document assembler neither reads nor writes the line buffers and the pending list. -/
theorem addElement_withLines (p q : FountainParser) (e : FountainElement) :
    (p.withLines q).addElement e = (p.addElement e).withLines q := by
  have h1 : (p.withLines q).getLastElement = p.getLastElement := rfl
  have h3 : (p.withLines q).mergeActions = p.mergeActions := rfl
  have h4 : (p.withLines q).script = p.script := rfl
  cases hb : (e.getType == .ACTION && e.isEmpty && !e.isCentered) with
  | true =>
    rw [addElement_blank _ e hb, addElement_blank p e hb, h1]
    split <;> rfl
  | false =>
    rw [addElement_flushed _ e hb, addElement_flushed p e hb, h1, h3, h4, flushed_withLines]
    split <;> rfl

theorem resolvePending_withLines (p q : FountainParser) (x : PendingElement)
    (h : q.lineTrim = p.lineTrim) :
    resolvePending (p.withLines q) x = (resolvePending p x).withLines q := by
  have h1 : (p.withLines q).lineTrim = p.lineTrim := h
  unfold resolvePending lineTrimBlank
  rw [h1]
  repeat' split
  all_goals first
    | rfl
    | exact addElement_withLines _ _ _

theorem foldl_resolvePending_withLines (q : FountainParser) (xs : List PendingElement) :
    ∀ p : FountainParser, q.lineTrim = p.lineTrim →
      xs.foldl resolvePending (p.withLines q) = (xs.foldl resolvePending p).withLines q := by
  induction xs with
  | nil => intro p _; rfl
  | cons x xs ih =>
    intro p h
    simp only [List.foldl_cons]
    rw [resolvePending_withLines p q x h]
    exact ih _ (h.trans (frame_lineTrim (resolvePending_frame p x)).symm)

/-- Resolution of the pending elements does not depend on the line buffers other than
`lineTrim`. -/
theorem parsePending_withLines (p q : FountainParser) (h : q.lineTrim = p.lineTrim)
    (hp : q.pending = p.pending) :
    (parsePending (p.withLines q)).script = (parsePending p).script := by
  unfold parsePending
  rw [show (p.withLines q).pending = p.pending from hp, foldl_resolvePending_withLines q _ p h]
  rfl

theorem finalizeParsing_pending (p : FountainParser) : (finalizeParsing p).pending = [] := rfl

/-- At the end of the input the pending elements are resolved as by an empty next line: outside
the title page and outside blocks, after a line that is not blank, `finalizeParsing` and
`addLine` on the empty line give the same document. -/
theorem finalizeParsing_as_empty_line (p : FountainParser) (ht : p.inTitlePage = false)
    (hbo : p.boneyard = none) (hno : p.note = none) (hl : isEmptyOrWhitespace p.line = false) :
    (finalizeParsing p).script = (addLine p []).script ∧ (addLine p []).pending = [] := by
  rw [addLine_eq_classify p [] hbo hno (by decide)]
  obtain ⟨R, hR⟩ : ∃ R, R = (if !p.pending.isEmpty then parsePending (p.loadLine [])
      else p.loadLine []) := ⟨_, rfl⟩
  rw [← hR]
  have hfr : R.frame = (p.loadLine []).frame := by
    rw [hR]
    split
    · exact parsePending_frame _
    · rfl
  have hpe : (!p.pending.isEmpty) = false → p.pending = [] := by
    intro h
    cases hp : p.pending with
    | nil => rfl
    | cons x xs => rw [hp] at h; simp at h
  have hRp : R.pending = [] := by
    rw [hR]
    split
    · rfl
    · rename_i h
      exact hpe (by simpa using h)
  have hRs : R.script = (finalizeParsing p).script := by
    rw [hR]
    split
    · have e : p.loadLine []
          = ({ p with line := [], lineTrim := [] } : FountainParser).withLines (p.loadLine []) :=
        rfl
      have e2 := parsePending_withLines
        ({ p with line := [], lineTrim := [] } : FountainParser) (p.loadLine []) rfl rfl
      rw [e, e2]
      rfl
    · rename_i h
      rw [finalizeParsing_nothing_pending p (hpe (by simpa using h))]
      rfl
  have h1 : R.lineTrim = [] := frame_lineTrim hfr
  have h2 : R.line = [] := frame_line hfr
  have h3 : R.inTitlePage = false := (frame_inTitlePage hfr).trans ht
  have h4 : R.lastLineEmpty = false := by
    have : R.frame.lastLineEmpty = (p.loadLine []).frame.lastLineEmpty := by rw [hfr]
    exact this.trans hl
  have hd : parseDialogue R = (R, false) := by
    simp only [parseDialogue, h1, h2, h4, List.isEmpty_nil, Bool.not_true, Bool.false_and,
      Bool.false_eq_true, ↓reduceIte, Bool.not_false, Bool.and_false, ite_self]
  have hc := classify_blank R h1 (by rw [h2]; rfl) h3 hd
  have hcp := classify_blank_pending R h1 (by rw [h2]; rfl)
  refine ⟨?_, hcp.1.trans hRp⟩
  rw [hc, ← hRs]
  simp only [parseAction]
  rw [addElement_blank R _ (by rw [h2]; rfl)]
  split <;> rfl

/-- State after a character cue `L` that follows a blank line, with nothing pending before. -/
theorem addLine_cue_state (s : FountainParser) (L : Str) (info : CharacterInfo)
    (ht : s.inTitlePage = false) (hbo : s.boneyard = none) (hno : s.note = none)
    (hp : s.pending = []) (hl : isEmptyOrWhitespace s.line = true)
    (hL : opensBlock L = false) (hearlier : (s.loadLine L).matchedBefore 12 = false)
    (hcue : (regex_match (stripContd (trim L)) regexCharacter).isSome = true)
    (hdec : decodeCharacter (stripContd (trim L)) = some info) :
    addLine s L
      = { s.loadLine L with
          pending := [⟨.CHARACTER,
            .Character (stripContd (trim L)) info.name info.extension info.dual,
            .Action (trim L) false false⟩] } := by
  rw [addLine_eq_classify s L hbo hno hL]
  have e0 : (if (!s.pending.isEmpty) = true then parsePending (s.loadLine L) else s.loadLine L)
      = s.loadLine L := by
    rw [hp]; rfl
  rw [e0]
  have hr := rules_split 12 _ hearlier
  have hti : (s.loadLine L).inTitlePage = false := ht
  simp only [classify, hti, Bool.false_eq_true, ↓reduceIte]
  rw [hr]
  simp only [rules, List.drop, firstOf, parseCharacter, loadLine_lineTrim,
    loadLine_lastLineEmpty, hl, hcue, hdec, Bool.and_self, ↓reduceIte]
  rw [show (s.loadLine L).pending = [] from hp]
  simp only [hti, List.nil_append]

/-- Finalization with one pending element hands one element to the document assembler: the
fallback of a character cue, the element itself of a transition. -/
theorem finalizeParsing_single (s q : FountainParser) (x : PendingElement)
    (hq : q.withLines s = s) (hp : q.pending = [x])
    (hx : x.type = .CHARACTER ∨ x.type = .TRANSITION) :
    (finalizeParsing q).script
      = (s.addElement (if x.type = .CHARACTER then x.backup else x.element)).script := by
  have e : ({ q with line := [], lineTrim := [] } : FountainParser)
      = s.withLines { q with line := [], lineTrim := [] } := by
    conv_rhs => rw [← hq]
    rfl
  have h1 : (finalizeParsing q).script
      = (resolvePending ({ q with line := [], lineTrim := [] } : FountainParser) x).script := by
    simp only [finalizeParsing, parsePending, hp, List.foldl]
  rw [h1, e]
  obtain ⟨Z, hZ⟩ : ∃ Z, Z = s.withLines ({ q with line := [], lineTrim := [] } : FountainParser) :=
    ⟨_, rfl⟩
  rw [← hZ]
  have hl : Z.lineTrim = [] := by rw [hZ]; rfl
  have ha : ∀ e, (Z.addElement e).script = (s.addElement e).script := by
    intro e
    rw [hZ, addElement_withLines]
    rfl
  rcases hx with hx | hx
  · simp only [resolvePending, hx, hl, show (Element.CHARACTER == Element.TRANSITION) = false by decide,
      show (Element.CHARACTER == Element.CHARACTER) = true by decide, Bool.false_eq_true,
      ↓reduceIte, List.isEmpty_nil, Bool.not_true, Bool.false_and]
    exact ha _
  · simp only [resolvePending, hx, hl, show (Element.TRANSITION == Element.TRANSITION) = true by decide,
      ↓reduceIte, lineTrimBlank, List.isEmpty_nil, Bool.true_or,
      show (Element.TRANSITION = Element.CHARACTER) = False by simp]
    exact ha _

/-- C12 (amended). Finalization empties the pending buffer, and it resolves what is pending as
an empty next line would: outside the title page and outside blocks, after a line that is not
blank, `finalizeParsing` and `addLine` on the empty line give the same document. For a parser
outside the title page, with no block open and nothing pending, whose last line was blank: a
character cue `L` as last line of the input commits nothing by itself, and finalization hands
its fallback, the plain Action with text `trim L`, to the document assembler; a transition
candidate `T` as last line commits nothing by itself, and finalization commits the Transition
with text `trim T` as a new last element, not the fallback Action. -/
theorem pending_at_end :
    (∀ p : FountainParser, (finalizeParsing p).pending = [])
    ∧ (∀ p : FountainParser, p.inTitlePage = false → p.boneyard = none → p.note = none →
        isEmptyOrWhitespace p.line = false →
        (finalizeParsing p).script = (addLine p []).script)
    ∧ (∀ (s : FountainParser) (L : Str) (info : CharacterInfo),
        s.inTitlePage = false → s.boneyard = none → s.note = none → s.pending = [] →
        isEmptyOrWhitespace s.line = true → opensBlock L = false →
        (s.loadLine L).matchedBefore 12 = false →
        (regex_match (stripContd (trim L)) regexCharacter).isSome = true →
        decodeCharacter (stripContd (trim L)) = some info →
        (addLine s L).script = s.script
        ∧ (addLines s [L]).script
            = (s.addElement (FountainElement.Action (trim L) false false)).script)
    ∧ (∀ (s : FountainParser) (T : Str),
        s.inTitlePage = false → s.boneyard = none → s.note = none → s.pending = [] →
        isEmptyOrWhitespace s.line = true →
        (regex_match (trim T) regexTransition).isSome = true →
        (regex_search (trim T) regexHeading).isSome = false →
        (addLine s T).script = s.script
        ∧ (addLines s [T]).script.elements
            = s.script.elements ++ [FountainElement.Transition (trim T) false]) := by
  refine ⟨finalizeParsing_pending, ?_, ?_, ?_⟩
  · intro p ht hbo hno hl
    exact (finalizeParsing_as_empty_line p ht hbo hno hl).1
  · intro s L info ht hbo hno hp hl hL hearlier hcue hdec
    have h := addLine_cue_state s L info ht hbo hno hp hl hL hearlier hcue hdec
    refine ⟨by rw [h]; rfl, ?_⟩
    simp only [addLines, List.foldl]
    rw [finalizeParsing_single s (addLine s L) _ (by rw [h]; rfl) (by rw [h]) (Or.inl rfl)]
    rfl
  · intro s T ht hbo hno hp hl htrans hhead
    have h := addLine_transition s T ht hbo hno hp hl htrans hhead
    refine ⟨by rw [h]; rfl, ?_⟩
    simp only [addLines, List.foldl]
    rw [finalizeParsing_single s (addLine s T) _ (by rw [h]; rfl) (by rw [h]) (Or.inr rfl)]
    simp only [show (Element.TRANSITION = Element.CHARACTER) = False by simp, ↓reduceIte]
    rw [addElement_nonAction s _ (by simp [FountainElement.getType])]
    rfl

/-- C12, at the inputs of the claim: after a blank first line, the last line `JOHN` is resolved
to its fallback Action, and the last line `CUT TO:` to the Transition. -/
theorem pending_at_end_witness :
    (addLines (addLine (fresh true true) []) ["JOHN".toList]).script
      = ((addLine (fresh true true) []).addElement
          (FountainElement.Action (trim "JOHN".toList) false false)).script
    ∧ (addLines (addLine (fresh true true) []) ["CUT TO:".toList]).script.elements
      = (addLine (fresh true true) []).script.elements
          ++ [FountainElement.Transition (trim "CUT TO:".toList) false] :=
  ⟨(pending_at_end.2.2.1 (addLine (fresh true true) []) "JOHN".toList
      ⟨"JOHN".toList, [], false⟩ (by decide) (by decide) (by decide) (by decide) (by decide)
      (by decide) (by decide) (by decide) (by decide)).2,
    (pending_at_end.2.2.2 (addLine (fresh true true) []) "CUT TO:".toList
      (by decide) (by decide) (by decide) (by decide) (by decide) (by decide) (by decide)).2⟩

/-- C12 as written fails at its second input: for the lines blank, `CUT TO:` the returned
document is the Transition `CUT TO:`, not the fallback Action built from the line; the pending
buffer is empty afterwards. -/
theorem pending_at_end_counterexample :
    (addLines (fresh true true) [[], "CUT TO:".toList]).script.elements
      = [FountainElement.Transition "CUT TO:".toList false]
    ∧ (addLines (fresh true true) [[], "CUT TO:".toList]).script.elements
      ≠ [FountainElement.Action "CUT TO:".toList false false]
    ∧ (addLine (addLine (fresh true true) []) "CUT TO:".toList).pending
      = [⟨Element.TRANSITION, FountainElement.Transition "CUT TO:".toList false,
          FountainElement.Action "CUT TO:".toList false false⟩]
    ∧ (addLines (fresh true true) [[], "CUT TO:".toList]).pending = [] := by
  decide

/-! ## The end of title-page mode -/

/-- A rule effect leaves alone every member that the document assembler never writes. -/
theorem effect_frame (p q : FountainParser) (h : Effect p q) : q.frame = p.frame := by
  cases h with
  | same => rfl
  | add e _ => exact addElement_frame p e
  | add2 t1 t2 _ => exact (addElement_frame _ _).trans (addElement_frame _ _)
  | append l _ => exact appendToElement_frame p _ l
  | append2 l1 l2 _ => exact (appendToElement_frame _ _ _).trans (appendToElement_frame _ _ _)
  | pend x _ => rfl

/-- Outside title-page mode, classification of a line leaves the title page, the mode and the
block buffers alone. -/
theorem classify_frame (p : FountainParser) (h : p.inTitlePage = false) :
    (classify p).frame = p.frame := by
  unfold classify
  simp only [h, Bool.false_eq_true, ↓reduceIte]
  have he := effect_frame _ _ (firstOf_effect rules rules_effect rules_unchanged p)
  split
  · exact he
  · simp only [parseAction]
    exact (addElement_frame _ _).trans he

theorem parseBoneyard_title (p : FountainParser) :
    (parseBoneyard p).1.inTitlePage = p.inTitlePage
    ∧ (parseBoneyard p).1.script.headers = p.script.headers := by
  unfold parseBoneyard
  repeat' split
  all_goals exact ⟨rfl, rfl⟩

theorem parseNotes_title (p : FountainParser) :
    (parseNotes p).1.inTitlePage = p.inTitlePage
    ∧ (parseNotes p).1.script.headers = p.script.headers := by
  unfold parseNotes
  repeat' split
  all_goals exact ⟨rfl, rfl⟩

/-- Outside title-page mode, `addLine` stays outside and leaves the headers as they are. -/
theorem addLine_title (p : FountainParser) (l : Str) (h : p.inTitlePage = false) :
    (addLine p l).inTitlePage = false ∧ (addLine p l).script.headers = p.script.headers := by
  have hP : (p.loadLine l).inTitlePage = false := h
  have hH : (p.loadLine l).script.headers = p.script.headers := rfl
  unfold addLine
  simp only [firstOf]
  rw [← hH]
  generalize p.loadLine l = P at hP
  have hB := parseBoneyard_title P
  cases h1 : (parseBoneyard P).2 with
  | true =>
    simp only [↓reduceIte]
    exact ⟨hB.1.trans hP, hB.2⟩
  | false =>
    simp only [Bool.false_eq_true, ↓reduceIte]
    rw [← hB.2]
    replace hB : (parseBoneyard P).1.inTitlePage = false := hB.1.trans hP
    generalize (parseBoneyard P).1 = B at hB
    have hN := parseNotes_title B
    cases h2 : (parseNotes B).2 with
    | true =>
      simp only [↓reduceIte]
      exact ⟨hN.1.trans hB, hN.2⟩
    | false =>
      simp only [Bool.false_eq_true, ↓reduceIte]
      rw [← hN.2]
      replace hN : (parseNotes B).1.inTitlePage = false := hN.1.trans hB
      generalize (parseNotes B).1 = N at hN
      have hR : (if (!N.pending.isEmpty) = true then parsePending N else N).frame = N.frame := by
        split
        · exact parsePending_frame N
        · rfl
      have hRt := (frame_inTitlePage hR).trans hN
      have hC := classify_frame _ hRt
      exact ⟨(frame_inTitlePage hC).trans hRt, (frame_headers hC).trans (frame_headers hR)⟩

theorem foldl_addLine_title (lines : List Str) :
    ∀ p : FountainParser, p.inTitlePage = false →
      (lines.foldl addLine p).inTitlePage = false
      ∧ (lines.foldl addLine p).script.headers = p.script.headers := by
  induction lines with
  | nil => intro p h; exact ⟨h, rfl⟩
  | cons l ls ih =>
    intro p h
    have h1 := addLine_title p l h
    have h2 := ih _ h1.1
    exact ⟨h2.1, h2.2.trans h1.2⟩

theorem frame_multiLineHeader {p q : FountainParser} (h : q.frame = p.frame) :
    q.multiLineHeader = p.multiLineHeader := by
  show q.frame.multiLineHeader = p.frame.multiLineHeader
  rw [h]

/-- A line that fails both title-page patterns, and that the block scanners do not take, ends
title-page mode and leaves the headers as they are. -/
theorem addLine_exits_headers (q : FountainParser) (l : Str) (hbo : q.boneyard = none)
    (hno : q.note = none) (ho : opensBlock l = false)
    (h1 : (regex_match l regexTitleEntry).isSome = false)
    (h2 : (q.multiLineHeader && (regex_search l regexTitleMultilineEntry).isSome) = false) :
    (addLine q l).inTitlePage = false ∧ (addLine q l).script.headers = q.script.headers := by
  cases ht : q.inTitlePage with
  | false => exact addLine_title q l ht
  | true =>
    rw [addLine_eq_classify q l hbo hno ho]
    obtain ⟨R, hR⟩ : ∃ R, R = (if !q.pending.isEmpty then parsePending (q.loadLine l)
        else q.loadLine l) := ⟨_, rfl⟩
    rw [← hR]
    have hfr : R.frame = (q.loadLine l).frame := by
      rw [hR]
      split
      · exact parsePending_frame _
      · rfl
    have hl : R.line = l := frame_line hfr
    have hm : R.multiLineHeader = q.multiLineHeader := (frame_multiLineHeader hfr).trans rfl
    have hh : R.script.headers = q.script.headers := (frame_headers hfr).trans rfl
    have hn : regex_match R.line regexTitleEntry = none := by
      rw [hl]
      cases hrm : regex_match l regexTitleEntry with
      | none => rfl
      | some m => rw [hrm] at h1; exact absurd h1 (by simp)
    have hT : parseTitlePage R = ({ R with inTitlePage := false }, false) := by
      unfold parseTitlePage
      rw [hn]
      simp only [hm, hl, h2, Bool.false_eq_true, ↓reduceIte]
    have hRt : R.inTitlePage = true := ((frame_inTitlePage hfr).trans rfl).trans ht
    obtain ⟨R1, hR1⟩ : ∃ R1, R1 = ({ R with inTitlePage := false } : FountainParser) := ⟨_, rfl⟩
    rw [← hR1] at hT
    have h1t : R1.inTitlePage = false := by rw [hR1]
    have h1h : R1.script.headers = q.script.headers := by rw [hR1]; exact hh
    have he := effect_frame _ _ (firstOf_effect rules rules_effect rules_unchanged R1)
    simp only [classify, hRt, hT, Bool.false_eq_true, ↓reduceIte]
    split
    · exact ⟨(frame_inTitlePage he).trans h1t, (frame_headers he).trans h1h⟩
    · simp only [parseAction]
      exact ⟨(frame_inTitlePage ((addElement_frame _ _).trans he)).trans h1t,
        (frame_headers ((addElement_frame _ _).trans he)).trans h1h⟩

/-- A line that a block scanner takes leaves the title-page mode and the headers as they
are. -/
theorem addLine_block_title (p : FountainParser) (l : Str)
    (h : (firstOf [parseBoneyard, parseNotes] (p.loadLine l)).2 = true) :
    (addLine p l).inTitlePage = p.inTitlePage
    ∧ (addLine p l).script.headers = p.script.headers := by
  have hP : (p.loadLine l).inTitlePage = p.inTitlePage := rfl
  have hH : (p.loadLine l).script.headers = p.script.headers := rfl
  unfold addLine
  simp only [h, ↓reduceIte]
  rw [← hP, ← hH]
  generalize p.loadLine l = P
  simp only [firstOf]
  have hB := parseBoneyard_title P
  cases h1 : (parseBoneyard P).2 with
  | true =>
    simp only [↓reduceIte]
    exact hB
  | false =>
    simp only [Bool.false_eq_true, ↓reduceIte]
    have hN := parseNotes_title (parseBoneyard P).1
    cases h2 : (parseNotes (parseBoneyard P).1).2 with
    | true =>
      simp only [↓reduceIte]
      exact ⟨hN.1.trans hB.1, hN.2.trans hB.2⟩
    | false =>
      simp only [Bool.false_eq_true, ↓reduceIte]
      exact ⟨hN.1.trans hB.1, hN.2.trans hB.2⟩

/-- C13. First part: a line that the block scanners do not take and that fails both the
`key: value` pattern and the indented-continuation pattern ends title-page mode and adds no
header, and after it every sequence of lines, whatever they contain, leaves the parser outside
title-page mode and the headers exactly as they were, entry by entry, also after finalization.
Second part: the same from every state outside title-page mode. Third part: outside title-page
mode a line that the block scanners do not take is classified by the ordered rules, then by the
fallback, after the resolution of what is pending. Fourth part: a line that a block scanner
takes changes neither the mode nor the headers, so it does not end title-page mode even when
it fails both patterns. -/
theorem title_page_exit :
    (∀ (q : FountainParser) (l : Str) (ls : List Str), q.boneyard = none → q.note = none →
      opensBlock l = false → (regex_match l regexTitleEntry).isSome = false →
      (q.multiLineHeader && (regex_search l regexTitleMultilineEntry).isSome) = false →
      (addLine q l).inTitlePage = false
      ∧ (addLine q l).script.headers = q.script.headers
      ∧ (ls.foldl addLine (addLine q l)).inTitlePage = false
      ∧ (ls.foldl addLine (addLine q l)).script.headers = q.script.headers
      ∧ (addLines (addLine q l) ls).script.headers = q.script.headers)
    ∧ (∀ (p : FountainParser) (lines : List Str), p.inTitlePage = false →
        (lines.foldl addLine p).inTitlePage = false
        ∧ (lines.foldl addLine p).script.headers = p.script.headers
        ∧ (addLines p lines).script.headers = p.script.headers)
    ∧ (∀ (p : FountainParser) (l : Str), p.inTitlePage = false →
        p.boneyard = none → p.note = none → opensBlock l = false →
        addLine p l
          = if (firstOf rules
                (if !p.pending.isEmpty then parsePending (p.loadLine l) else p.loadLine l)).2
            then (firstOf rules
                (if !p.pending.isEmpty then parsePending (p.loadLine l) else p.loadLine l)).1
            else parseAction (firstOf rules
                (if !p.pending.isEmpty then parsePending (p.loadLine l) else p.loadLine l)).1)
    ∧ (∀ (p : FountainParser) (l : Str),
        (firstOf [parseBoneyard, parseNotes] (p.loadLine l)).2 = true →
        addLine p l = (firstOf [parseBoneyard, parseNotes] (p.loadLine l)).1
        ∧ (addLine p l).inTitlePage = p.inTitlePage
        ∧ (addLine p l).script.headers = p.script.headers) := by
  have hfin : ∀ (p : FountainParser) (lines : List Str), p.inTitlePage = false →
      (lines.foldl addLine p).inTitlePage = false
      ∧ (lines.foldl addLine p).script.headers = p.script.headers
      ∧ (addLines p lines).script.headers = p.script.headers := by
    intro p lines h
    have h1 := foldl_addLine_title lines p h
    refine ⟨h1.1, h1.2, ?_⟩
    unfold addLines finalizeParsing
    exact ((frame_headers (parsePending_frame _)).trans rfl).trans h1.2
  refine ⟨?_, hfin, ?_, ?_⟩
  · intro q l ls hbo hno ho h1 h2
    have he := addLine_exits_headers q l hbo hno ho h1 h2
    have hf := hfin (addLine q l) ls he.1
    exact ⟨he.1, he.2, hf.1, hf.2.1.trans he.2, hf.2.2.trans he.2⟩
  · intro p l h hbo hno ho
    rw [addLine_eq_classify p l hbo hno ho]
    have hR : (if (!p.pending.isEmpty) = true then parsePending (p.loadLine l)
        else p.loadLine l).inTitlePage = false := by
      split
      · exact (frame_inTitlePage (parsePending_frame _)).trans h
      · exact h
    unfold classify
    simp only [hR, Bool.false_eq_true, ↓reduceIte]
  · intro p l h
    refine ⟨?_, addLine_block_title p l h⟩
    unfold addLine
    simp only [h, ↓reduceIte]

/-- C13, at concrete inputs: on a fresh parser the line `Title: A` adds a header and the empty
line, which fails both patterns, ends title-page mode; after that the lines `Author: X` and an
indented line add no header and are committed as one Action. -/
theorem title_page_exit_witness :
    (addLine (fresh true true) "Title: A".toList).script.headers
      = [FountainElement.TitleEntry "Title".toList "A".toList]
    ∧ ((addLine (addLine (fresh true true) "Title: A".toList) []).inTitlePage = false
      ∧ (addLine (addLine (fresh true true) "Title: A".toList) []).script.headers
        = (addLine (fresh true true) "Title: A".toList).script.headers
      ∧ (["Author: X".toList, "   indented".toList].foldl addLine
          (addLine (addLine (fresh true true) "Title: A".toList) [])).inTitlePage = false
      ∧ (["Author: X".toList, "   indented".toList].foldl addLine
          (addLine (addLine (fresh true true) "Title: A".toList) [])).script.headers
        = (addLine (fresh true true) "Title: A".toList).script.headers
      ∧ (addLines (addLine (addLine (fresh true true) "Title: A".toList) [])
          ["Author: X".toList, "   indented".toList]).script.headers
        = (addLine (fresh true true) "Title: A".toList).script.headers)
    ∧ (addLines (addLine (addLine (fresh true true) "Title: A".toList) [])
        ["Author: X".toList, "   indented".toList]).script
      = ⟨[FountainElement.Action "Author: X\n   indented".toList false false],
          [FountainElement.TitleEntry "Title".toList "A".toList]⟩ :=
  ⟨by decide,
    title_page_exit.1 (addLine (fresh true true) "Title: A".toList) []
      ["Author: X".toList, "   indented".toList] (by decide) (by decide) (by decide)
      (by decide) (by decide),
    by decide⟩

/-- C13 as written fails when the line that fails both patterns is taken by a block scanner:
on a fresh parser, after `Title: A`, the line `/* x` matches neither title-page pattern, yet it
opens a boneyard block and title-page mode stays on; after the block is closed by `y */`, the
line `Author: B` still adds a second header. -/
theorem title_page_exit_counterexample :
    (regex_match "/* x".toList regexTitleEntry).isSome = false
    ∧ (regex_search "/* x".toList regexTitleMultilineEntry).isSome = false
    ∧ (["Title: A".toList, "/* x".toList].foldl addLine (fresh true true)).inTitlePage = true
    ∧ (["Title: A".toList, "/* x".toList].foldl addLine (fresh true true)).script.headers
      = [FountainElement.TitleEntry "Title".toList "A".toList]
    ∧ (["Title: A".toList, "/* x".toList, "y */".toList, "Author: B".toList].foldl addLine
        (fresh true true)).script.headers
      = [FountainElement.TitleEntry "Title".toList "A".toList,
          FountainElement.TitleEntry "Author".toList "B".toList]
    ∧ (addLines (fresh true true)
        ["Title: A".toList, "/* x".toList, "y */".toList, "Author: B".toList]).script.headers
      ≠ (["Title: A".toList, "/* x".toList].foldl addLine (fresh true true)).script.headers := by
  decide

/-! ## The pending buffer -/

/-- Classification of a line: either the title-page scanner takes the line, or the line has
one of the effects of `Effect` on the parser outside title-page mode. -/
theorem classify_title_or_effect (p : FountainParser) :
    (p.inTitlePage = true ∧ (parseTitlePage p).2 = true ∧ classify p = (parseTitlePage p).1)
    ∨ Effect { p with inTitlePage := false } (classify p) := by
  cases ht : p.inTitlePage with
  | false =>
    right
    have e : ({ p with inTitlePage := false } : FountainParser) = p := by
      cases p
      simp only at ht
      subst ht
      rfl
    rw [e]
    exact classify_effect p ht
  | true =>
    cases h2 : (parseTitlePage p).2 with
    | true =>
      left
      refine ⟨rfl, rfl, ?_⟩
      simp only [classify, ht, h2, ↓reduceIte]
    | false =>
      right
      have h1 : (parseTitlePage p).1 = { p with inTitlePage := false } := by
        revert h2
        unfold parseTitlePage
        repeat' split
        all_goals first
          | (intro _; rfl)
          | (intro h; exact absurd h (by simp))
      have hc : classify p = classify { p with inTitlePage := false } := by
        simp only [classify, ht, h2, h1, Bool.false_eq_true, ↓reduceIte]
      rw [hc]
      exact classify_effect _ rfl

theorem effect_pending (p q : FountainParser) (h : Effect p q) :
    q.pending = p.pending ∨ ∃ x, pendingOk x ∧ q.pending = p.pending ++ [x] := by
  cases h with
  | same => exact Or.inl rfl
  | add e _ => exact Or.inl (addElement_pending p e)
  | add2 t1 t2 _ => exact Or.inl ((addElement_pending _ _).trans (addElement_pending _ _))
  | append l _ => exact Or.inl rfl
  | append2 l1 l2 _ => exact Or.inl rfl
  | pend x hx => exact Or.inr ⟨x, hx, rfl⟩

/-- Classification of a line adds at most one pending element. -/
theorem classify_pending (p : FountainParser) :
    (classify p).pending = p.pending
    ∨ ∃ x, pendingOk x ∧ (classify p).pending = p.pending ++ [x] := by
  rcases classify_title_or_effect p with ⟨-, -, h⟩ | h
  · left
    rw [h]
    exact (parseTitlePage_keeps p).1
  · exact effect_pending { p with inTitlePage := false } _ h

theorem isEmpty_false_pending (p : FountainParser) (h : ¬ (!p.pending.isEmpty) = true) :
    p.pending = [] := by
  cases hp : p.pending with
  | nil => rfl
  | cons x xs => rw [hp] at h; simp at h

/-- The parser on which `addLine` runs the classification, when the block scanners do not take
the line: what was pending has been resolved and the pending buffer is empty. -/
theorem addLine_resolved (p : FountainParser) (l : Str)
    (h : (firstOf [parseBoneyard, parseNotes] (p.loadLine l)).2 = false) :
    addLine p l
      = classify (if !p.pending.isEmpty then parsePending (p.loadLine l) else p.loadLine l)
    ∧ (if !p.pending.isEmpty then parsePending (p.loadLine l) else p.loadLine l).pending = [] := by
  have hu := firstOf_unchanged [parseBoneyard, parseNotes]
    (fun f hf => by
      simp only [List.mem_cons, List.mem_singleton, List.not_mem_nil, or_false] at hf
      rcases hf with rfl | rfl
      · exact fun q hq => unchanged_of_true_or parseBoneyard_true_or q hq
      · exact fun q hq => unchanged_of_true_or parseNotes_true_or q hq)
    (p.loadLine l) h
  constructor
  · unfold addLine
    simp only [h, hu, Bool.false_eq_true, ↓reduceIte]
    rfl
  · split
    · rfl
    · rename_i hp
      exact isEmpty_false_pending p hp

theorem blocks_pending (p : FountainParser) :
    (firstOf [parseBoneyard, parseNotes] p).1.pending = p.pending := by
  simp only [firstOf]
  split
  · exact (parseBoneyard_buffers p).1
  · split
    · exact ((parseNotes_buffers _).1).trans (parseBoneyard_buffers p).1
    · exact ((parseNotes_buffers _).1).trans (parseBoneyard_buffers p).1

/-- After `addLine` the pending buffer is what it was, when a block scanner took the line, and
otherwise it is empty or holds the one candidate that the line created. -/
theorem addLine_pending (p : FountainParser) (l : Str) :
    ((firstOf [parseBoneyard, parseNotes] (p.loadLine l)).2 = true
      ∧ (addLine p l).pending = p.pending)
    ∨ (addLine p l).pending = []
    ∨ ∃ x, pendingOk x ∧ (addLine p l).pending = [x] := by
  cases h : (firstOf [parseBoneyard, parseNotes] (p.loadLine l)).2 with
  | true =>
    left
    refine ⟨rfl, ?_⟩
    have e : addLine p l = (firstOf [parseBoneyard, parseNotes] (p.loadLine l)).1 := by
      unfold addLine
      simp only [h, ↓reduceIte]
    rw [e]
    exact blocks_pending _
  | false =>
    right
    obtain ⟨h1, h2⟩ := addLine_resolved p l h
    rw [h1]
    rcases classify_pending
      (if !p.pending.isEmpty then parsePending (p.loadLine l) else p.loadLine l) with hc | ⟨x, hx, hc⟩
    · left
      rw [hc, h2]
    · right
      refine ⟨x, hx, ?_⟩
      rw [hc, h2]
      rfl

/-- From a fresh parser, the pending buffer is always empty or holds one candidate. -/
theorem reachable_pending (mA mD : Bool) (lines : List Str) :
    (lines.foldl addLine (fresh mA mD)).pending = []
    ∨ ∃ x, pendingOk x ∧ (lines.foldl addLine (fresh mA mD)).pending = [x] := by
  have : ∀ (ls : List Str) (p : FountainParser),
      (p.pending = [] ∨ ∃ x, pendingOk x ∧ p.pending = [x]) →
      ((ls.foldl addLine p).pending = [] ∨ ∃ x, pendingOk x ∧ (ls.foldl addLine p).pending = [x]) := by
    intro ls
    induction ls with
    | nil => intro p hp; exact hp
    | cons l ls ih =>
      intro p hp
      apply ih
      rcases addLine_pending p l with ⟨-, h⟩ | h | h
      · rw [h]; exact hp
      · exact Or.inl h
      · exact Or.inr h
  exact this lines _ (Or.inl rfl)

/-- With at most one element pending, `parsePending` hands at most one element to the document
assembler. -/
theorem parsePending_single (p : FountainParser) (h : p.pending.length ≤ 1) :
    parsePending p = { p with pending := [] }
    ∨ ∃ x, p.pending = [x]
        ∧ (parsePending p = { p.addElement x.element with pending := [] }
          ∨ parsePending p = { p.addElement x.backup with pending := [] }) := by
  cases hp : p.pending with
  | nil => left; simp [parsePending, hp]
  | cons x xs =>
    cases xs with
    | cons y ys => rw [hp] at h; simp at h
    | nil =>
      simp only [parsePending, hp, List.foldl, resolvePending]
      repeat' split
      all_goals first
        | exact Or.inl rfl
        | exact Or.inr ⟨x, rfl, Or.inl rfl⟩
        | exact Or.inr ⟨x, rfl, Or.inr rfl⟩

/-- C20 (amended in its last clause). First part: from a fresh parser, after every sequence of
`addLine` calls the pending buffer holds at most one element: it is empty, or it holds one
candidate, a character or a transition with a plain Action as fallback; so the two kinds are
never outstanding together. Second part: whenever the block scanners do not take the line,
`addLine` runs the classification on a parser whose pending buffer is empty, and it is still
empty after the title-page scanner, when the ordered rules run. Third part: with at most one
element pending, `parsePending` hands at most one element to the document assembler, the
candidate or its fallback, and empties the buffer. -/
theorem pending_bound :
    (∀ (mA mD : Bool) (lines : List Str),
      (lines.foldl addLine (fresh mA mD)).pending.length ≤ 1
      ∧ ((lines.foldl addLine (fresh mA mD)).pending = []
        ∨ ∃ x, pendingOk x ∧ (lines.foldl addLine (fresh mA mD)).pending = [x]))
    ∧ (∀ (p : FountainParser) (l : Str),
        (firstOf [parseBoneyard, parseNotes] (p.loadLine l)).2 = false →
        addLine p l
          = classify (if !p.pending.isEmpty then parsePending (p.loadLine l) else p.loadLine l)
        ∧ (if !p.pending.isEmpty then parsePending (p.loadLine l) else p.loadLine l).pending = []
        ∧ (parseTitlePage
            (if !p.pending.isEmpty then parsePending (p.loadLine l)
              else p.loadLine l)).1.pending = [])
    ∧ (∀ p : FountainParser, p.pending.length ≤ 1 →
        parsePending p = { p with pending := [] }
        ∨ ∃ x, p.pending = [x]
            ∧ (parsePending p = { p.addElement x.element with pending := [] }
              ∨ parsePending p = { p.addElement x.backup with pending := [] })) := by
  refine ⟨?_, ?_, parsePending_single⟩
  · intro mA mD lines
    have h := reachable_pending mA mD lines
    refine ⟨?_, h⟩
    rcases h with h | ⟨x, -, h⟩ <;> rw [h] <;> simp
  · intro p l h
    obtain ⟨h1, h2⟩ := addLine_resolved p l h
    exact ⟨h1, h2, ((parseTitlePage_keeps _).1).trans h2⟩

/-- C20, at a concrete input: after the lines blank, `JOHN` the buffer holds one candidate,
and the next line `Hello` is classified on a parser with an empty buffer. -/
theorem pending_bound_witness :
    ([[], "JOHN".toList].foldl addLine (fresh true true)).pending.length = 1
    ∧ (addLine ([[], "JOHN".toList].foldl addLine (fresh true true)) "Hello".toList
        = classify (if !([[], "JOHN".toList].foldl addLine (fresh true true)).pending.isEmpty
            then parsePending
              (([[], "JOHN".toList].foldl addLine (fresh true true)).loadLine "Hello".toList)
            else ([[], "JOHN".toList].foldl addLine (fresh true true)).loadLine "Hello".toList)
      ∧ (if !([[], "JOHN".toList].foldl addLine (fresh true true)).pending.isEmpty
            then parsePending
              (([[], "JOHN".toList].foldl addLine (fresh true true)).loadLine "Hello".toList)
            else ([[], "JOHN".toList].foldl addLine (fresh true true)).loadLine
              "Hello".toList).pending = []) :=
  ⟨by decide,
    (pending_bound.2.1 ([[], "JOHN".toList].foldl addLine (fresh true true)) "Hello".toList
      (by decide)).1,
    (pending_bound.2.1 ([[], "JOHN".toList].foldl addLine (fresh true true)) "Hello".toList
      (by decide)).2.1⟩

/-- C20 as written fails in its last clause: with merge-actions disabled, after the lines blank,
`Action text.`, blank, `CUT TO:` the document has one element; the call of `parsePending` for
the next line `x` resolves the one pending element, and the assembler commits two elements in
that call, the buffered blank Action and the fallback Action `CUT TO:`. -/
theorem pending_bound_counterexample :
    ([[], "Action text.".toList, [], "CUT TO:".toList].foldl addLine
        (fresh false true)).script.elements
      = [FountainElement.Action "Action text.".toList false false]
    ∧ ([[], "Action text.".toList, [], "CUT TO:".toList].foldl addLine
        (fresh false true)).pending.length = 1
    ∧ (parsePending (([[], "Action text.".toList, [], "CUT TO:".toList].foldl addLine
        (fresh false true)).loadLine "x".toList)).script.elements
      = [FountainElement.Action "Action text.".toList false false,
         FountainElement.Action [] false false,
         FountainElement.Action "CUT TO:".toList false false] := by
  decide

/-! ## The document only grows -/

theorem kinds_append (es fs : List FountainElement) : kinds (es ++ fs) = kinds es ++ kinds fs := by
  simp [kinds]

/-- The document assembler keeps the kinds of the committed elements, in order, and adds new
elements at the end only. -/
theorem addElement_kinds (p : FountainParser) (e : FountainElement) :
    kinds p.script.elements <+: kinds (p.addElement e).script.elements := by
  have hf : kinds p.script.elements <+: kinds (p.flushed e).script.elements := by
    rcases flushed_elements p e with h | ⟨-, h⟩ | h
    · rw [h]
    · rw [h]
    · rw [h, kinds_append]; exact List.prefix_append _ _
  cases hb : (e.getType == .ACTION && e.isEmpty && !e.isCentered) with
  | true =>
    rw [addElement_blank p e hb]
    split <;> exact List.prefix_refl _
  | false =>
    rw [addElement_flushed p e hb]
    split
    · simp only [appendToElement]
      rw [kinds_appendLineAt]
      exact hf
    · simp only [FountainScript.addElement, kinds_append]
      exact hf.trans (List.prefix_append _ _)

theorem effect_kinds (p q : FountainParser) (h : Effect p q) :
    kinds p.script.elements <+: kinds q.script.elements := by
  cases h with
  | same => exact List.prefix_refl _
  | add e _ => exact addElement_kinds p e
  | add2 t1 t2 _ => exact (addElement_kinds p _).trans (addElement_kinds _ _)
  | append l _ =>
    simp only [appendToElement]
    rw [kinds_appendLineAt]
  | append2 l1 l2 _ =>
    simp only [appendToElement]
    rw [kinds_appendLineAt, kinds_appendLineAt]
  | pend x _ => exact List.prefix_refl _

theorem classify_kinds (p : FountainParser) :
    kinds p.script.elements <+: kinds (classify p).script.elements := by
  rcases classify_title_or_effect p with ⟨-, -, h⟩ | h
  · rw [h, (parseTitlePage_elements p).1]
  · exact effect_kinds { p with inTitlePage := false } _ h

theorem resolvePending_kinds (p : FountainParser) (x : PendingElement) :
    kinds p.script.elements <+: kinds (resolvePending p x).script.elements := by
  unfold resolvePending
  repeat' split
  all_goals first
    | exact List.prefix_refl _
    | exact addElement_kinds _ _

theorem parsePending_kinds (p : FountainParser) :
    kinds p.script.elements <+: kinds (parsePending p).script.elements := by
  have : ∀ (xs : List PendingElement) (q : FountainParser),
      kinds q.script.elements <+: kinds (xs.foldl resolvePending q).script.elements := by
    intro xs
    induction xs with
    | nil => intro q; exact List.prefix_refl _
    | cons x xs ih => intro q; exact (resolvePending_kinds q x).trans (ih _)
  exact this p.pending p

theorem parseBoneyard_kinds (p : FountainParser) :
    kinds p.script.elements <+: kinds (parseBoneyard p).1.script.elements := by
  unfold parseBoneyard
  repeat' split
  all_goals first
    | exact List.prefix_refl _
    | (simp only [FountainScript.addElement, kinds_append]; exact List.prefix_append _ _)

theorem parseNotes_kinds (p : FountainParser) :
    kinds p.script.elements <+: kinds (parseNotes p).1.script.elements := by
  unfold parseNotes
  repeat' split
  all_goals first
    | exact List.prefix_refl _
    | (simp only [FountainScript.addElement, kinds_append]; exact List.prefix_append _ _)

/-- Every call of `addLine` keeps the kinds of the committed elements, in order, and adds new
elements at the end only. -/
theorem addLine_kinds (p : FountainParser) (l : Str) :
    kinds p.script.elements <+: kinds (addLine p l).script.elements := by
  have hP : kinds p.script.elements <+: kinds (p.loadLine l).script.elements :=
    List.prefix_refl _
  unfold addLine
  simp only [firstOf]
  generalize p.loadLine l = P at hP
  have hB := hP.trans (parseBoneyard_kinds P)
  split
  · exact hB
  · generalize (parseBoneyard P).1 = B at hB
    have hN := hB.trans (parseNotes_kinds B)
    split
    · exact hN
    · generalize (parseNotes B).1 = N at hN
      simp only [Bool.false_eq_true, ↓reduceIte]
      refine (hN.trans ?_).trans (classify_kinds _)
      split
      · exact parsePending_kinds N
      · exact List.prefix_refl _

theorem foldl_addLine_kinds (ls : List Str) :
    ∀ p : FountainParser,
      kinds p.script.elements <+: kinds (ls.foldl addLine p).script.elements := by
  induction ls with
  | nil => intro p; exact List.prefix_refl _
  | cons l ls ih => intro p; exact (addLine_kinds p l).trans (ih _)

theorem repGreedy_isSome (p : Char → Bool) (k : Str → Option MState)
    (hk : ∀ r, (k r).isSome = true) : ∀ s : Str, (repGreedy p 0 s k).isSome = true
  | [] => by simpa [repGreedy] using hk []
  | c :: cs => by
    have ih := repGreedy_isSome p k hk cs
    by_cases hc : p c = true
    · simp only [repGreedy, hc, ↓reduceIte]
      cases h : repGreedy p 0 cs k with
      | none => rw [h] at ih; exact absurd ih (by simp)
      | some r => rfl
    · simp only [repGreedy, hc, Bool.false_eq_true, ↓reduceIte]
      exact hk _

theorem orElse_isSome_right {α : Type} (a : Option α) (b : Unit → Option α)
    (h : (b ()).isSome = true) : (a.orElse b).isSome = true := by
  cases a with
  | none => simpa [Option.orElse] using h
  | some x => rfl

/-- The second alternative of `regexHeading` matches at every position where the text
`fade in:` stands. -/
theorem regexHeading_lower_here (full v : Str) :
    (regexHeading.run full ⟨"fade in:".toList ++ v, []⟩ some).isSome = true := by
  unfold regexHeading
  simp only [Re.run]
  apply orElse_isSome_right
  simp only [Re.cat, Re.litI, Re.chrI, Re.run, String.toList, List.map, List.cons_append,
    List.nil_append]
  simp only [show ('f'.toLower == 'F'.toLower) = true by decide,
    show ('a'.toLower == 'A'.toLower) = true by decide,
    show ('d'.toLower == 'D'.toLower) = true by decide,
    show ('e'.toLower == 'E'.toLower) = true by decide,
    show (' '.toLower == ' '.toLower) = true by decide,
    show ('i'.toLower == 'I'.toLower) = true by decide,
    show ('n'.toLower == 'N'.toLower) = true by decide,
    show (':'.toLower == ':'.toLower) = true by decide, ↓reduceIte]
  apply repGreedy_isSome
  intro r
  rfl

/-- The second alternative of `regexHeading` matches at every position where the text
`FADE IN:` stands. -/
theorem regexHeading_upper_here (full v : Str) :
    (regexHeading.run full ⟨"FADE IN:".toList ++ v, []⟩ some).isSome = true := by
  unfold regexHeading
  simp only [Re.run]
  apply orElse_isSome_right
  simp only [Re.cat, Re.litI, Re.chrI, Re.run, String.toList, List.map, List.cons_append,
    List.nil_append, beq_self_eq_true, ↓reduceIte]
  apply repGreedy_isSome
  intro r
  rfl

theorem orElse_isSome_left {α : Type} (a : Option α) (b : Unit → Option α)
    (h : a.isSome = true) : (a.orElse b).isSome = true := by
  cases a with
  | none => exact absurd h (by simp)
  | some x => rfl

/-- The call `regex_search` succeeds when the regex matches at some position of the line. -/
theorem searchFrom_isSome (full : Str) (re : Re) (w : Str) (hw : w ≠ [])
    (h : ∀ v, (re.run full ⟨w ++ v, []⟩ some).isSome = true) :
    ∀ u v : Str, (searchFrom full re (u ++ w ++ v)).isSome = true
  | [], v => by
    cases w with
    | nil => exact absurd rfl hw
    | cons c cs =>
      simp only [List.nil_append, List.cons_append, searchFrom]
      exact orElse_isSome_left _ _ (h v)
  | d :: u, v => by
    simp only [List.cons_append, searchFrom]
    apply orElse_isSome_right
    have := searchFrom_isSome full re w hw h u v
    simpa using this

/-- The scene-heading regex is found in every line in which `FADE IN:` or `fade in:` occurs,
at whatever position. -/
theorem regexHeading_anywhere (u v : Str) :
    (regex_search (u ++ "FADE IN:".toList ++ v) regexHeading).isSome = true
    ∧ (regex_search (u ++ "fade in:".toList ++ v) regexHeading).isSome = true :=
  ⟨searchFrom_isSome _ _ _ (by decide) (regexHeading_upper_here _) u v,
    searchFrom_isSome _ _ _ (by decide) (regexHeading_lower_here _) u v⟩

/-- C19: evaluation at the failing input. The alternative `(FADE IN:\s*)` of the scene-heading
regex is outside the scope of the anchor `^`, and the regex is used with `regex_search`, so the
regex is found in every line in which `FADE IN:` occurs (in either case) at any position, and
the scene-heading rule takes the line. Outside the title page the line
`We slowly fade in: a city`, which does not begin with a scene keyword, is committed as a
non-forced scene heading with the whole line as text, in every merge mode. -/
theorem scene_heading_unanchored :
    (∀ u v : Str,
      (regex_search (u ++ "FADE IN:".toList ++ v) regexHeading).isSome = true
      ∧ (regex_search (u ++ "fade in:".toList ++ v) regexHeading).isSome = true)
    ∧ (∀ (p : FountainParser) (u v : Str),
        (parseSceneHeading { p with lineTrim := u ++ "fade in:".toList ++ v }).2 = true)
    ∧ (addLines (fresh true true) [[], "We slowly fade in: a city".toList]).script.elements
        = [FountainElement.Heading "We slowly fade in: a city".toList [] false]
    ∧ (addLines (fresh false false) [[], "We slowly fade in: a city".toList]).script.elements
        = [FountainElement.Heading "We slowly fade in: a city".toList [] false] := by
  refine ⟨regexHeading_anywhere, ?_, by decide, by decide⟩
  intro p u v
  unfold parseSceneHeading
  simp only [(regexHeading_anywhere u v).2, ↓reduceIte]
  split <;> rfl

/-! ## Blank lines between action lines -/

theorem lastIs_of_getLast (es : List FountainElement) (e : FountainElement) (t : Element) :
    lastIs (es ++ [e]).getLast? t = (e.getType == t) := by
  simp [lastIs]

/-- An empty line after an Action element, with nothing pending: the blank Action is buffered
and nothing is committed. -/
theorem empty_after_action (q : FountainParser) (e : FountainElement)
    (ht : q.inTitlePage = false) (hbo : q.boneyard = none) (hno : q.note = none)
    (hp : q.pending = []) (hlast : q.getLastElement = some e) (he : e.getType = .ACTION) :
    addLine q []
      = { q.loadLine [] with
          inDialogue := false,
          padActions := q.padActions ++ [FountainElement.Action [] false false] } := by
  rw [addLine_eq_classify q [] hbo hno (by decide)]
  have e0 : (if (!q.pending.isEmpty) = true then parsePending (q.loadLine []) else q.loadLine [])
      = q.loadLine [] := by
    rw [hp]; rfl
  rw [e0]
  have hl : (q.loadLine []).getLastElement = some e := hlast
  have hd : parseDialogue (q.loadLine []) = (q.loadLine [], false) := by
    simp only [parseDialogue, hl, lastIs, he, loadLine_line, List.isEmpty_nil, Bool.not_true,
      Bool.false_and, Bool.false_eq_true, ↓reduceIte,
      show (Element.ACTION == Element.DIALOGUE) = false by decide]
  rw [classify_blank (q.loadLine []) rfl rfl ht hd]
  simp only [parseAction]
  rw [addElement_blank _ _ (by rfl), hl]
  simp only [lastIs, he, beq_self_eq_true, ↓reduceIte]
  rfl

/-- After an Action element, `k` empty lines commit nothing: they put `k` blank Actions into
the buffer. -/
theorem empties_after_action (e : FountainElement) (he : e.getType = .ACTION) :
    ∀ (k : Nat) (q : FountainParser),
      q.inTitlePage = false → q.boneyard = none → q.note = none → q.pending = [] →
      q.getLastElement = some e →
      ((List.replicate k ([] : Str)).foldl addLine q).inTitlePage = false
      ∧ ((List.replicate k ([] : Str)).foldl addLine q).boneyard = none
      ∧ ((List.replicate k ([] : Str)).foldl addLine q).note = none
      ∧ ((List.replicate k ([] : Str)).foldl addLine q).pending = []
      ∧ ((List.replicate k ([] : Str)).foldl addLine q).mergeActions = q.mergeActions
      ∧ ((List.replicate k ([] : Str)).foldl addLine q).script = q.script
      ∧ ((List.replicate k ([] : Str)).foldl addLine q).padActions
          = q.padActions ++ List.replicate k (FountainElement.Action [] false false)
  | 0, q, ht, hbo, hno, hp, _ => by
    refine ⟨ht, hbo, hno, hp, rfl, rfl, ?_⟩
    simp
  | k + 1, q, ht, hbo, hno, hp, hl => by
    have h1 := empty_after_action q e ht hbo hno hp hl he
    have ih := empties_after_action e he k (addLine q [])
      (by rw [h1]; exact ht) (by rw [h1]; exact hbo) (by rw [h1]; exact hno)
      (by rw [h1]; exact hp) (by rw [h1]; exact hl)
    simp only [List.replicate, List.foldl]
    obtain ⟨i1, i2, i3, i4, i5, i6, i7⟩ := ih
    refine ⟨i1, i2, i3, i4, ?_, ?_, ?_⟩
    · rw [i5, h1]; rfl
    · rw [i6, h1]; rfl
    · rw [i7, h1]
      simp only [List.append_assoc, List.singleton_append]

theorem mergedOk_snoc : ∀ (es : List FountainElement) (e : FountainElement),
    mergedOk (es ++ [e]) = (mergedOk es && pairOk es.getLast? e)
  | [], e => rfl
  | [x], e => by simp [mergedOk, pairOk]
  | x :: y :: rest, e => by
    have ih := mergedOk_snoc (y :: rest) e
    simp only [List.cons_append] at ih ⊢
    simp only [mergedOk, ih, List.getLast?_cons_cons, Bool.and_assoc]

theorem plainAction_appendLine (e : FountainElement) (t : Str) :
    plainAction (e.appendLine t) = plainAction e := by
  cases e <;> rfl

theorem pairOk_appendLine (o : Option FountainElement) (e : FountainElement) (t : Str) :
    pairOk o (e.appendLine t) = pairOk o e := by
  cases o with
  | none => rfl
  | some x => simp only [pairOk, plainAction_appendLine]

theorem lastIsPlainAction_eq (es : List FountainElement) (e : FountainElement) :
    lastIsPlainAction (es ++ [e]).getLast? = plainAction e := by
  simp [lastIsPlainAction, plainAction]

/-- Appending a line to the last element changes neither the length of the document nor the
invariant nor the kind of the last element. -/
theorem appendLineAt_last_inv (es : List FountainElement) (t : Str) :
    (appendLineAt es (es.length - 1) t).length = es.length
    ∧ mergedOk (appendLineAt es (es.length - 1) t) = mergedOk es
    ∧ lastIsPlainAction (appendLineAt es (es.length - 1) t).getLast?
        = lastIsPlainAction es.getLast? := by
  rcases List.eq_nil_or_concat es with h | ⟨init, last, h⟩
  · subst h; exact ⟨rfl, rfl, rfl⟩
  · rw [List.concat_eq_append] at h
    subst h
    have hl : (init ++ [last]).length - 1 = init.length := by simp
    rw [hl, appendLineAt_last]
    refine ⟨by simp, ?_, ?_⟩
    · rw [mergedOk_snoc, mergedOk_snoc, pairOk_appendLine]
    · rw [lastIsPlainAction_eq, lastIsPlainAction_eq, plainAction_appendLine]

theorem foldl_appendToElement_inv (pads : List FountainElement) :
    ∀ (p : FountainParser) (i : Nat), i = p.script.elements.length - 1 →
      (pads.foldl (fun q padAction => q.appendToElement i padAction.getTextRaw)
          p).script.elements.length = p.script.elements.length
      ∧ mergedOk (pads.foldl (fun q padAction => q.appendToElement i padAction.getTextRaw)
          p).script.elements = mergedOk p.script.elements
      ∧ lastIsPlainAction (pads.foldl (fun q padAction =>
          q.appendToElement i padAction.getTextRaw) p).getLastElement
        = lastIsPlainAction p.getLastElement := by
  induction pads with
  | nil => intro p i _; exact ⟨rfl, rfl, rfl⟩
  | cons a as ih =>
    intro p i hi
    simp only [List.foldl_cons]
    have h1 := appendLineAt_last_inv p.script.elements a.getTextRaw
    rw [← hi] at h1
    have h2 := ih (p.appendToElement i a.getTextRaw) i (by
      show i = (appendLineAt p.script.elements i a.getTextRaw).length - 1
      rw [h1.1]; exact hi)
    exact ⟨h2.1.trans h1.1, h2.2.1.trans h1.2.1, h2.2.2.trans h1.2.2⟩

/-- Blank non-centered Actions may be committed after a last element that is not a
non-centered Action, or is a blank one. -/
theorem mergedOk_append_pads : ∀ (pads es : List FountainElement),
    mergedOk es = true → (∀ a ∈ pads, plainAction a = true ∧ a.isEmpty = true) →
    (∀ x ∈ es.getLast?, (plainAction x && !x.isEmpty) = false) →
    mergedOk (es ++ pads) = true
    ∧ ∀ x ∈ (es ++ pads).getLast?, (plainAction x && !x.isEmpty) = false
  | [], es, h, _, hc => by
    rw [List.append_nil]
    exact ⟨h, hc⟩
  | a :: as, es, h, hp, hc => by
    have ha := hp a (by simp)
    have h1 : mergedOk (es ++ [a]) = true := by
      rw [mergedOk_snoc, h, Bool.true_and]
      cases hl : es.getLast? with
      | none => rfl
      | some x =>
        have := hc x (by simp [hl])
        simp only [pairOk]
        cases hx : plainAction x <;> cases he : x.isEmpty <;> simp_all
    have h2 : ∀ x ∈ (es ++ [a]).getLast?, (plainAction x && !x.isEmpty) = false := by
      intro x hx
      have hx2 : x = a := by simpa using hx.symm
      subst hx2
      simp [ha.2]
    have := mergedOk_append_pads as (es ++ [a]) h1 (fun b hb => hp b (by simp [hb])) h2
    rw [List.append_assoc, List.singleton_append] at this
    exact this

theorem not_plain_last (es : List FountainElement)
    (h : lastIsPlainAction es.getLast? = false) :
    ∀ x ∈ es.getLast?, (plainAction x && !x.isEmpty) = false := by
  intro x hx
  have hx2 : es.getLast? = some x := hx
  rw [hx2] at h
  have : plainAction x = false := h
  simp [this]

/-- The flush of the buffered blank lines in merge-actions mode keeps the invariant of the
document. -/
theorem flushed_inv (p : FountainParser) (e : FountainElement) (hm : p.mergeActions = true)
    (h1 : mergedOk p.script.elements = true)
    (h2 : ∀ a ∈ p.padActions, plainAction a = true ∧ a.isEmpty = true) :
    mergedOk (p.flushed e).script.elements = true
    ∧ (lastIsPlainAction p.getLastElement = true →
        (p.flushed e).script.elements.length = p.script.elements.length)
    ∧ (lastIsPlainAction p.getLastElement = false →
        ∀ x ∈ (p.flushed e).script.elements.getLast?, (plainAction x && !x.isEmpty) = false) := by
  unfold flushed
  split
  · cases hl : lastIsPlainAction p.getLastElement with
    | true =>
      simp only [hm, Bool.and_self, ↓reduceIte]
      have := foldl_appendToElement_inv p.padActions p (p.script.elements.length - 1) rfl
      exact ⟨this.2.1.trans h1, fun _ => this.1, fun h => absurd h (by simp)⟩
    | false =>
      simp only [hm, Bool.and_false, Bool.false_eq_true, ↓reduceIte]
      rw [foldl_addPad_elements]
      have := mergedOk_append_pads p.padActions p.script.elements h1 h2
        (not_plain_last _ hl)
      exact ⟨this.1, fun h => absurd h (by simp), fun _ => this.2⟩
  · exact ⟨h1, fun _ => rfl, fun h => not_plain_last _ h⟩

/-- The document assembler in merge-actions mode keeps the invariant of the document and of
the buffer of blank lines. -/
theorem addElement_inv (p : FountainParser) (e : FountainElement) (hm : p.mergeActions = true)
    (h1 : mergedOk p.script.elements = true)
    (h2 : ∀ a ∈ p.padActions, plainAction a = true ∧ a.isEmpty = true) :
    mergedOk (p.addElement e).script.elements = true
    ∧ ∀ a ∈ (p.addElement e).padActions, plainAction a = true ∧ a.isEmpty = true := by
  cases hb : (e.getType == .ACTION && e.isEmpty && !e.isCentered) with
  | true =>
    rw [addElement_blank p e hb]
    have he : plainAction e = true ∧ e.isEmpty = true := by
      simp only [Bool.and_eq_true] at hb
      exact ⟨by simp [plainAction, hb.1.1, hb.2], hb.1.2⟩
    split
    · refine ⟨h1, ?_⟩
      intro a ha
      simp only [List.mem_append, List.mem_singleton] at ha
      rcases ha with ha | rfl
      · exact h2 a ha
      · exact he
    · exact ⟨h1, h2⟩
  | false =>
    obtain ⟨f1, f2, f3⟩ := flushed_inv p e hm h1 h2
    rw [addElement_flushed p e hb]
    split
    · rename_i hc
      simp only [Bool.and_eq_true] at hc
      refine ⟨?_, by intro a ha; simp [appendToElement] at ha⟩
      simp only [appendToElement]
      rw [← f2 hc.2]
      exact (appendLineAt_last_inv _ _).2.1.trans f1
    · rename_i hc
      refine ⟨?_, by intro a ha; simp at ha⟩
      simp only [FountainScript.addElement]
      rw [mergedOk_snoc, f1, Bool.true_and]
      cases hl : lastIsPlainAction p.getLastElement with
      | false =>
        cases hg : (p.flushed e).script.elements.getLast? with
        | none => rfl
        | some x =>
          have := f3 hl x (by simp [hg])
          simp only [pairOk]
          cases hx : plainAction x <;> cases hx2 : x.isEmpty <;> simp_all
      | true =>
        have hpe : plainAction e = false := by
          cases hpe : plainAction e with
          | false => rfl
          | true =>
            exfalso
            apply hc
            simp only [plainAction, Bool.and_eq_true] at hpe
            simp [hm, hl, hpe.1, hpe.2]
        cases hg : (p.flushed e).script.elements.getLast? with
        | none => rfl
        | some x => simp [pairOk, hpe]

theorem addElement_MergeInv (p : FountainParser) (e : FountainElement) (h : MergeInv p) :
    MergeInv (p.addElement e) := by
  obtain ⟨hm, h1, h2, h3, h4⟩ := h
  have hf := addElement_frame p e
  have := addElement_inv p e hm h1 h2
  refine ⟨(frame_mergeActions hf).trans hm, this.1, this.2, ?_, ?_⟩
  · rw [frame_boneyard hf]; exact h3
  · rw [frame_note hf]; exact h4

theorem appendToElement_MergeInv (p : FountainParser) (l : Str) (h : MergeInv p) :
    MergeInv (p.appendToElement (p.script.elements.length - 1) l) := by
  obtain ⟨hm, h1, h2, h3, h4⟩ := h
  refine ⟨hm, ?_, h2, h3, h4⟩
  simp only [appendToElement]
  exact (appendLineAt_last_inv _ _).2.1.trans h1

theorem appendToElement_length (p : FountainParser) (l : Str) :
    (p.appendToElement (p.script.elements.length - 1) l).script.elements.length
      = p.script.elements.length :=
  (appendLineAt_last_inv _ _).1

/-- Every effect of a classification rule keeps the invariant. -/
theorem effect_MergeInv (p q : FountainParser) (h : Effect p q) (hp : MergeInv p) :
    MergeInv q := by
  cases h with
  | same => exact hp
  | add e _ => exact addElement_MergeInv p e hp
  | add2 t1 t2 _ => exact addElement_MergeInv _ _ (addElement_MergeInv p _ hp)
  | append l _ => exact appendToElement_MergeInv p l hp
  | append2 l1 l2 _ =>
    have h1 := appendToElement_MergeInv p l1 hp
    have h2 := appendToElement_MergeInv _ l2 h1
    rw [appendToElement_length] at h2
    exact h2
  | pend x _ => exact hp

theorem resolvePending_MergeInv (p : FountainParser) (x : PendingElement) (hp : MergeInv p) :
    MergeInv (resolvePending p x) := by
  unfold resolvePending
  repeat' split
  all_goals first
    | exact hp
    | exact addElement_MergeInv _ _ hp

theorem parsePending_MergeInv (p : FountainParser) (hp : MergeInv p) :
    MergeInv (parsePending p) := by
  have : ∀ (xs : List PendingElement) (q : FountainParser), MergeInv q →
      MergeInv (xs.foldl resolvePending q) := by
    intro xs
    induction xs with
    | nil => intro q hq; exact hq
    | cons x xs ih => intro q hq; exact ih _ (resolvePending_MergeInv q x hq)
  exact this p.pending p hp

theorem parseTitlePage_MergeInv (p : FountainParser) (hp : MergeInv p) :
    MergeInv (parseTitlePage p).1 := by
  unfold parseTitlePage
  repeat' split
  all_goals exact hp

theorem mergedOk_snoc_other (es : List FountainElement) (b : FountainElement)
    (h : mergedOk es = true) (hb : plainAction b = false) : mergedOk (es ++ [b]) = true := by
  rw [mergedOk_snoc, h, Bool.true_and]
  cases es.getLast? with
  | none => rfl
  | some x => simp [pairOk, hb]

theorem parseBoneyard_MergeInv (p : FountainParser) (hp : MergeInv p) :
    MergeInv (parseBoneyard p).1 := by
  obtain ⟨hm, h1, h2, h3, h4⟩ := hp
  unfold parseBoneyard
  split
  · split
    · refine ⟨hm, h1, h2, ?_, h4⟩
      intro b hb
      simp only [Option.some.injEq] at hb
      rw [← hb]; rfl
    · exact ⟨hm, h1, h2, h3, h4⟩
  · rename_i b hb
    have ht : (b.appendLine p.lineTrim).getType = .BONEYARD := by
      rw [getType_appendLine]; exact h3 b hb
    split
    · dsimp only
      refine ⟨hm, ?_, h2, (by intro c hc; cases hc), h4⟩
      exact mergedOk_snoc_other _ _ h1 (by simp [plainAction, ht])
    · dsimp only
      refine ⟨hm, h1, h2, ?_, h4⟩
      intro c hc
      simp only [Option.some.injEq] at hc
      rw [← hc]; exact ht

theorem parseNotes_MergeInv (p : FountainParser) (hp : MergeInv p) :
    MergeInv (parseNotes p).1 := by
  obtain ⟨hm, h1, h2, h3, h4⟩ := hp
  unfold parseNotes
  split
  · split
    · refine ⟨hm, h1, h2, h3, ?_⟩
      intro b hb
      simp only [Option.some.injEq] at hb
      rw [← hb]; rfl
    · exact ⟨hm, h1, h2, h3, h4⟩
  · rename_i n hn
    have ht : (n.appendLine p.lineTrim).getType = .NOTES := by
      rw [getType_appendLine]; exact h4 n hn
    split
    · dsimp only
      refine ⟨hm, ?_, h2, h3, (by intro c hc; cases hc)⟩
      exact mergedOk_snoc_other _ _ h1 (by simp [plainAction, ht])
    · dsimp only
      refine ⟨hm, h1, h2, h3, ?_⟩
      intro c hc
      simp only [Option.some.injEq] at hc
      rw [← hc]; exact ht

theorem classify_MergeInv (p : FountainParser) (hp : MergeInv p) : MergeInv (classify p) := by
  rcases classify_title_or_effect p with ⟨-, -, h⟩ | h
  · rw [h]; exact parseTitlePage_MergeInv p hp
  · exact effect_MergeInv { p with inTitlePage := false } _ h hp

/-- Every call of `addLine` keeps the invariant of merge-actions mode. -/
theorem addLine_MergeInv (p : FountainParser) (l : Str) (hp : MergeInv p) :
    MergeInv (addLine p l) := by
  have hP : MergeInv (p.loadLine l) := hp
  unfold addLine
  simp only [firstOf]
  generalize p.loadLine l = P at hP
  have hB := parseBoneyard_MergeInv P hP
  split
  · exact hB
  · generalize (parseBoneyard P).1 = B at hB
    have hN := parseNotes_MergeInv B hB
    split
    · exact hN
    · generalize (parseNotes B).1 = N at hN
      simp only [Bool.false_eq_true, ↓reduceIte]
      apply classify_MergeInv
      split
      · exact parsePending_MergeInv N hN
      · exact hN

theorem foldl_addLine_MergeInv (ls : List Str) :
    ∀ p : FountainParser, MergeInv p → MergeInv (ls.foldl addLine p) := by
  induction ls with
  | nil => intro p hp; exact hp
  | cons l ls ih => intro p hp; exact ih _ (addLine_MergeInv p l hp)

theorem fresh_MergeInv (mD : Bool) : MergeInv (fresh true mD) := by
  refine ⟨rfl, rfl, ?_, ?_, ?_⟩
  · intro a ha; simp [fresh] at ha
  · intro b hb; cases hb
  · intro n hn; cases hn

/-- In merge-actions mode a non-centered Action that is not blank, handed to the assembler
when the last element is a non-centered Action, is appended to that element together with the
buffered blank lines: the document gets no new element. -/
theorem addElement_coalesces (p : FountainParser) (e : FountainElement)
    (hm : p.mergeActions = true) (he : plainAction e = true) (hne : e.isEmpty = false)
    (hl : lastIsPlainAction p.getLastElement = true) :
    (p.addElement e).script.elements.length = p.script.elements.length
    ∧ (p.addElement e).padActions = [] := by
  simp only [plainAction, Bool.and_eq_true] at he
  have hb : (e.getType == .ACTION && e.isEmpty && !e.isCentered) = false := by
    simp [hne]
  have hf : (p.flushed e).script.elements.length = p.script.elements.length := by
    unfold flushed
    split
    · simp only [hm, hl, Bool.and_self, ↓reduceIte]
      exact (foldl_appendToElement_inv p.padActions p _ rfl).1
    · rfl
  rw [addElement_flushed p e hb]
  simp only [hm, he.1, he.2, hl, Bool.and_self, ↓reduceIte, appendToElement, and_true]
  rw [← hf]
  exact (appendLineAt_last_inv _ _).1

/-- C17 as written fails: with merge-actions enabled, the lines blank, `>C<`, blank, `b` give a
centered Action followed by two consecutive non-centered Actions, the blank line and `b`; two
blank lines give three of them; the same happens after a Boneyard element (lines blank, `a`,
blank, `/* x`, `y */`, `b`). -/
theorem merge_actions_invariant_counterexample :
    (addLines (fresh true true) [[], ">C<".toList, [], "b".toList]).script.elements
      = [FountainElement.Action "C".toList false true, FountainElement.Action [] false false,
         FountainElement.Action "b".toList false false]
    ∧ noAdjacentPlainActions
        (addLines (fresh true true) [[], ">C<".toList, [], "b".toList]).script.elements = false
    ∧ noAdjacentPlainActions
        ([[], ">C<".toList, [], "b".toList].foldl addLine (fresh true true)).script.elements
        = false
    ∧ (addLines (fresh true true) [[], ">C<".toList, [], [], "b".toList]).script.elements
      = [FountainElement.Action "C".toList false true, FountainElement.Action [] false false,
         FountainElement.Action [] false false, FountainElement.Action "b".toList false false]
    ∧ (addLines (fresh true true)
        [[], "a".toList, [], "/* x".toList, "y */".toList, "b".toList]).script.elements
      = [FountainElement.Action "a".toList false false,
         FountainElement.Boneyard "/* x\ny */".toList, FountainElement.Action [] false false,
         FountainElement.Action "b".toList false false] := by
  decide

/-! ## Dialogue continuation: the two kinds of blank line -/

/-- After an empty previous line, a line that reaches the dialogue rule is not claimed by it:
the line goes to the fallback `parseAction`. A blank line then commits nothing; a line that is
not blank is committed as a new Action element, after the buffered blank lines. -/
theorem dialogue_after_empty (s : FountainParser) (l t : Str)
    (hp : s.pending = []) (hline : s.line = [])
    (ht : s.inTitlePage = false) (hbo : s.boneyard = none) (hno : s.note = none)
    (hlast : s.getLastElement = some (.Dialogue t))
    (hlo : opensBlock l = false)
    (hreach : (s.loadLine l).matchedBefore 13 = false) :
    addLine s l = parseAction (s.loadLine l)
    ∧ (isEmptyOrWhitespace l = false →
        (addLine s l).script.elements
          = s.script.elements ++ s.padActions ++ [.Action l false false])
    ∧ (isEmptyOrWhitespace l = true → (addLine s l).script.elements = s.script.elements) := by
  have hl2 : (s.loadLine l).getLastElement = some (.Dialogue t) := hlast
  have hstep : addLine s l = parseAction (s.loadLine l) := by
    rw [addLine_eq_classify s l hbo hno hlo]
    have e0 : (if (!s.pending.isEmpty) = true then parsePending (s.loadLine l)
        else s.loadLine l) = s.loadLine l := by
      rw [hp]; rfl
    rw [e0]
    have hti : (s.loadLine l).inTitlePage = false := ht
    simp only [classify, hti, Bool.false_eq_true, ↓reduceIte]
    rw [rules_split 13 _ hreach]
    have hd : parseDialogue (s.loadLine l) = (s.loadLine l, false) := by
      simp only [parseDialogue, hl2, lastIs, FountainElement.getType,
        show (Element.DIALOGUE == Element.CHARACTER) = false by decide,
        show (Element.DIALOGUE == Element.PARENTHESIS) = false by decide,
        show (Element.DIALOGUE == Element.DIALOGUE) = true by decide, Bool.or_self,
        Bool.and_false, Bool.false_eq_true, ↓reduceIte, loadLine_lastLineEmpty,
        loadLine_lastLine, hline, show isEmptyOrWhitespace ([] : Str) = true from rfl,
        List.isEmpty_nil, Bool.not_true, Bool.false_and, Bool.and_self]
    simp only [rules, List.drop, firstOf, hd, Bool.false_eq_true, ↓reduceIte]
  have hnp : lastIsPlainAction (s.loadLine l).getLastElement = false := by
    rw [hl2]; rfl
  have hna : lastIs (s.loadLine l).getLastElement .ACTION = false := by
    rw [hl2]; rfl
  refine ⟨hstep, ?_, ?_⟩
  · intro hne
    rw [hstep]
    have hb : ((FountainElement.Action l false false).getType == .ACTION
        && (FountainElement.Action l false false).isEmpty
        && !(FountainElement.Action l false false).isCentered) = false := by
      simp [FountainElement.getType, FountainElement.isEmpty, FountainElement.getTextRaw, hne]
    unfold parseAction
    rw [show (s.loadLine l).line = l from rfl, addElement_flushed _ _ hb]
    simp only [hnp, Bool.and_false, Bool.false_eq_true, ↓reduceIte, FountainScript.addElement]
    have hf : ((s.loadLine l).flushed (.Action l false false)).script.elements
        = s.script.elements ++ s.padActions := by
      unfold flushed
      simp only [hnp, Bool.and_false, Bool.false_eq_true, ↓reduceIte]
      split
      · rw [foldl_addPad_elements]
        rfl
      · rename_i h
        have : s.padActions = [] := by
          have h' : (s.loadLine l).padActions = s.padActions := rfl
          rw [h'] at h
          cases hpa : s.padActions with
          | nil => rfl
          | cons a as =>
            rw [hpa] at h
            simp [FountainElement.getType] at h
        rw [this]
        simp [loadLine]
    rw [hf]
  · intro hbl
    rw [hstep]
    have hb : ((FountainElement.Action l false false).getType == .ACTION
        && (FountainElement.Action l false false).isEmpty
        && !(FountainElement.Action l false false).isCentered) = true := by
      simp [FountainElement.getType, FountainElement.isEmpty, FountainElement.getTextRaw, hbl,
        FountainElement.isCentered]
    unfold parseAction
    rw [show (s.loadLine l).line = l from rfl, addElement_blank _ _ hb]
    simp only [hna, Bool.false_eq_true, ↓reduceIte]
    rfl

/-- C10 (amended): the previous input line `b` was blank, it left the parser outside the title
page and outside blocks, and the last committed element is a Dialogue with text `t`; the line
`l` opens no block and none of the thirteen rules before the dialogue rule claims it. First
part: when `b` is whitespace-only and not empty (at least one whitespace character), `l`
continues the dialogue: with merge-dialogue enabled an empty line and then `trim l` are
appended to that Dialogue element; with merge-dialogue disabled a Dialogue with empty text and
a Dialogue with text `trim l` are committed; in neither mode is the line committed as an
Action. Second part: when `b` is empty, the dialogue is not continued: the line goes to the
fallback `parseAction`, which commits a line that is not blank as a new Action element with
the raw line as text (after the buffered blank lines, if any), and commits nothing for a blank
line. -/
theorem dialogue_continuation (s0 : FountainParser) (b l t : Str)
    (hb : isEmptyOrWhitespace b = true)
    (ht : (addLine s0 b).inTitlePage = false) (hbo : (addLine s0 b).boneyard = none)
    (hno : (addLine s0 b).note = none)
    (hlast : (addLine s0 b).getLastElement = some (.Dialogue t))
    (hlo : opensBlock l = false)
    (hreach : ((addLine s0 b).loadLine l).matchedBefore 13 = false) :
    let s := addLine s0 b
    (b ≠ [] →
      (s.mergeDialogue = true →
        (addLine s l).script.elements
          = s.script.elements.dropLast ++ [.Dialogue ((t ++ '\n' :: []) ++ '\n' :: trim l)])
      ∧ (s.mergeDialogue = false →
        (addLine s l).script.elements
          = s.script.elements ++ [.Dialogue [], .Dialogue (trim l)]))
    ∧ (b = [] →
      addLine s l = parseAction (s.loadLine l)
      ∧ (isEmptyOrWhitespace l = false →
          (addLine s l).script.elements
            = s.script.elements ++ s.padActions ++ [.Action l false false])
      ∧ (isEmptyOrWhitespace l = true → (addLine s l).script.elements = s.script.elements)) := by
  intro s
  refine ⟨fun hbne => dialogue_after_spaces s0 b l t hb hbne ht hbo hno hlast hlo hreach, ?_⟩
  intro hbe
  have hpl := addLine_blank_pending s0 b hb hbo hno
  exact dialogue_after_empty s l t hpl.1 (hpl.2.trans hbe) ht hbo hno hlast hlo hreach

/-- C10, witness: blank, `JOHN`, `Hello.`, then a line of two spaces and `more words`, in both
merge-dialogue modes; and the same with an empty line in place of the two spaces, where
`more words` becomes an Action. -/
theorem dialogue_continuation_witness :
    (addLine (addLine (addLine (addLine (addLine (fresh true true) []) "JOHN".toList)
        "Hello.".toList) "  ".toList) "more words".toList).script.elements
      = (addLine (addLine (addLine (addLine (fresh true true) []) "JOHN".toList)
          "Hello.".toList) "  ".toList).script.elements.dropLast
        ++ [.Dialogue (("Hello.".toList ++ '\n' :: []) ++ '\n' :: trim "more words".toList)]
    ∧ (addLine (addLine (addLine (addLine (addLine (fresh true false) []) "JOHN".toList)
        "Hello.".toList) "  ".toList) "more words".toList).script.elements
      = (addLine (addLine (addLine (addLine (fresh true false) []) "JOHN".toList)
          "Hello.".toList) "  ".toList).script.elements
        ++ [.Dialogue [], .Dialogue (trim "more words".toList)]
    ∧ (addLine (addLine (addLine (addLine (addLine (fresh true true) []) "JOHN".toList)
        "Hello.".toList) []) "more words".toList).script.elements
      = (addLine (addLine (addLine (addLine (fresh true true) []) "JOHN".toList)
          "Hello.".toList) []).script.elements
        ++ (addLine (addLine (addLine (addLine (fresh true true) []) "JOHN".toList)
          "Hello.".toList) []).padActions
        ++ [.Action "more words".toList false false] :=
  ⟨((dialogue_continuation
      (addLine (addLine (addLine (fresh true true) []) "JOHN".toList) "Hello.".toList)
      "  ".toList "more words".toList "Hello.".toList
      (by decide) (by decide) (by decide) (by decide) (by decide) (by decide)
      (by decide)).1 (by decide)).1 (by decide),
   ((dialogue_continuation
      (addLine (addLine (addLine (fresh true false) []) "JOHN".toList) "Hello.".toList)
      "  ".toList "more words".toList "Hello.".toList
      (by decide) (by decide) (by decide) (by decide) (by decide) (by decide)
      (by decide)).1 (by decide)).2 (by decide),
   ((dialogue_continuation
      (addLine (addLine (addLine (fresh true true) []) "JOHN".toList) "Hello.".toList)
      [] "more words".toList "Hello.".toList
      (by decide) (by decide) (by decide) (by decide) (by decide) (by decide)
      (by decide)).2 rfl).2.1 (by decide)⟩

/-! ## Continuations of a document -/

theorem nil_or_snoc (es : List FountainElement) :
    es = [] ∨ ∃ (E : List FountainElement) (x : FountainElement), es = E ++ [x] := by
  rcases List.eq_nil_or_concat es with h | ⟨E, x, h⟩
  · exact Or.inl h
  · exact Or.inr ⟨E, x, by rw [h, List.concat_eq_append]⟩

theorem extendLast_snoc (E : List FountainElement) (x : FountainElement) (ls : List Str) :
    extendLast (E ++ [x]) ls = E ++ [ls.foldl FountainElement.appendLine x] := by
  simp [extendLast]

theorem extendLast_nil (es : List FountainElement) : extendLast es [] = es := by
  rcases nil_or_snoc es with h | ⟨E, x, h⟩
  · subst h; rfl
  · subst h; rw [extendLast_snoc]; rfl

theorem extendLast_length (es : List FountainElement) (ls : List Str) :
    (extendLast es ls).length = es.length := by
  rcases nil_or_snoc es with h | ⟨E, x, h⟩
  · subst h; rfl
  · subst h; rw [extendLast_snoc]; simp

theorem appendLineAt_extendLast (es : List FountainElement) (l : Str) :
    appendLineAt es (es.length - 1) l = extendLast es [l] := by
  rcases nil_or_snoc es with h | ⟨E, x, h⟩
  · subst h; rfl
  · subst h
    rw [extendLast_snoc]
    simp only [List.length_append, List.length_singleton, Nat.add_sub_cancel]
    exact appendLineAt_last E x l

theorem extendLast_extendLast (es : List FountainElement) (a b : List Str) :
    extendLast (extendLast es a) b = extendLast es (a ++ b) := by
  rcases nil_or_snoc es with h | ⟨E, x, h⟩
  · subst h; rfl
  · subst h; simp only [extendLast_snoc, List.foldl_append]

theorem extendLast_append (es more : List FountainElement) (ls : List Str) (h : more ≠ []) :
    extendLast (es ++ more) ls = es ++ extendLast more ls := by
  rcases nil_or_snoc more with h1 | ⟨M, x, h1⟩
  · exact absurd h1 h
  · subst h1
    rw [← List.append_assoc, extendLast_snoc, extendLast_snoc, List.append_assoc]

/-- The lines appended to an Action end up in its text, each after a line feed. -/
theorem foldl_appendLine_action (ls : List Str) : ∀ (t : Str) (f c : Bool),
    ls.foldl FountainElement.appendLine (.Action t f c)
      = .Action (ls.foldl (fun acc l => acc ++ '\n' :: l) t) f c := by
  induction ls with
  | nil => intro t f c; rfl
  | cons l ls ih =>
    intro t f c
    simp only [List.foldl_cons]
    exact ih _ f c

theorem canExtend_of_plain (o : Option FountainElement)
    (h : lastIsPlainAction o = true) : canExtend o = true := by
  cases o with
  | none => exact absurd h (by simp [lastIsPlainAction])
  | some x =>
    simp only [lastIsPlainAction] at h
    simp [canExtend, plainAction, h]

theorem canExtend_of_dialogue (o : Option FountainElement)
    (h : lastIs o .DIALOGUE = true) : canExtend o = true := by
  cases o with
  | none => exact absurd h (by simp [lastIs])
  | some x =>
    simp only [lastIs] at h
    simp [canExtend, h]

theorem grows_refl (D : List FountainElement) : Grows D D :=
  ⟨[], [], by rw [extendLast_nil, List.append_nil], fun h => absurd rfl h⟩

theorem grows_append (D more : List FountainElement) : Grows D (D ++ more) :=
  ⟨[], more, by rw [extendLast_nil], fun h => absurd rfl h⟩

theorem grows_extend (D : List FountainElement) (ls : List Str)
    (h : canExtend D.getLast? = true) : Grows D (extendLast D ls) :=
  ⟨ls, [], by rw [List.append_nil], fun _ => h⟩

theorem grows_trans {A B C : List FountainElement} (h1 : Grows A B) (h2 : Grows B C) :
    Grows A C := by
  obtain ⟨l1, m1, hB, t1⟩ := h1
  obtain ⟨l2, m2, hC, t2⟩ := h2
  subst hB
  subst hC
  by_cases hm : m1 = []
  · subst hm
    simp only [List.append_nil] at t2 ⊢
    refine ⟨l1 ++ l2, m2, by rw [extendLast_extendLast], ?_⟩
    intro hne
    by_cases h1 : l1 = []
    · subst h1
      rw [extendLast_nil] at t2
      exact t2 (by simpa using hne)
    · exact t1 h1
  · exact ⟨l1, extendLast m1 l2 ++ m2,
      by rw [extendLast_append _ _ _ hm, List.append_assoc], t1⟩

/-- A document whose last element can take no line is kept as it is, element by element, by
every continuation. -/
theorem grows_sealed {A B : List FountainElement} (h : Grows A B)
    (hs : canExtend A.getLast? = false) : A <+: B := by
  obtain ⟨ls, more, hB, t⟩ := h
  have hl : ls = [] := by
    by_contra hne
    rw [t hne] at hs
    exact absurd hs (by simp)
  subst hl
  rw [extendLast_nil] at hB
  exact ⟨more, hB.symm⟩

theorem foldl_appendToElement_extendLast (n : Nat) (pads : List FountainElement) :
    ∀ q : FountainParser, q.script.elements.length - 1 = n →
      (pads.foldl (fun q padAction => q.appendToElement n padAction.getTextRaw) q).script.elements
        = extendLast q.script.elements (pads.map FountainElement.getTextRaw) := by
  induction pads with
  | nil => intro q _; exact (extendLast_nil _).symm
  | cons a as ih =>
    intro q hq
    simp only [List.foldl_cons, List.map_cons]
    have e : (q.appendToElement n a.getTextRaw).script.elements
        = extendLast q.script.elements [a.getTextRaw] := by
      subst hq
      exact appendLineAt_extendLast _ _
    rw [ih (q.appendToElement n a.getTextRaw) (by rw [e, extendLast_length]; exact hq), e,
      extendLast_extendLast]
    rfl

/-- In merge-actions mode, in front of an action and after a non-centered Action, the flush
appends the texts of the buffered blank lines to that Action. -/
theorem flushed_merge (p : FountainParser) (e : FountainElement) (hm : p.mergeActions = true)
    (ha : e.getType = .ACTION) (hl : lastIsPlainAction p.getLastElement = true) :
    (p.flushed e).script.elements
      = extendLast p.script.elements (p.padActions.map FountainElement.getTextRaw) := by
  unfold flushed
  cases hp : p.padActions with
  | nil =>
    simp only [List.isEmpty_nil, Bool.not_true, Bool.and_false, Bool.false_eq_true, ↓reduceIte,
      List.map_nil]
    exact (extendLast_nil _).symm
  | cons a as =>
    simp only [ha, beq_self_eq_true, List.isEmpty_cons, Bool.not_false, Bool.and_self, hm, hl,
      ↓reduceIte]
    exact foldl_appendToElement_extendLast _ _ p rfl

/-- In merge-actions mode, a non-centered Action that is not blank, handed to the document
assembler when the last element is a non-centered Action, is merged into that element: the
texts of the buffered blank lines and then its own text are appended to it, nothing else
changes in the document, and the buffer is empty afterwards. -/
theorem addElement_merged (p : FountainParser) (e : FountainElement)
    (hm : p.mergeActions = true) (he : plainAction e = true) (hne : e.isEmpty = false)
    (hl : lastIsPlainAction p.getLastElement = true) :
    (p.addElement e).script.elements
      = extendLast p.script.elements
          (p.padActions.map FountainElement.getTextRaw ++ [e.getTextRaw])
    ∧ (p.addElement e).padActions = [] := by
  simp only [plainAction, Bool.and_eq_true, beq_iff_eq] at he
  have hb : (e.getType == .ACTION && e.isEmpty && !e.isCentered) = false := by
    simp [hne]
  have hf := flushed_merge p e hm he.1 hl
  rw [addElement_flushed p e hb]
  simp only [hm, he.1, he.2, hl, beq_self_eq_true, Bool.and_self, ↓reduceIte, appendToElement]
  refine ⟨?_, trivial⟩
  have hlen : p.script.elements.length - 1 = (p.flushed e).script.elements.length - 1 := by
    rw [hf, extendLast_length]
  rw [hlen, appendLineAt_extendLast, hf, extendLast_extendLast]

theorem flushed_grows (p : FountainParser) (e : FountainElement) :
    Grows p.script.elements (p.flushed e).script.elements := by
  unfold flushed
  split
  · split
    · rename_i h
      simp only [Bool.and_eq_true] at h
      rw [foldl_appendToElement_extendLast _ _ p rfl]
      exact grows_extend _ _ (canExtend_of_plain _ h.2)
    · rw [foldl_addPad_elements]
      exact grows_append _ _
  · exact grows_refl _

/-- The document assembler continues the document: it appends lines to the last element or
adds elements after it. -/
theorem addElement_grows (p : FountainParser) (e : FountainElement) :
    Grows p.script.elements (p.addElement e).script.elements := by
  cases hb : (e.getType == .ACTION && e.isEmpty && !e.isCentered) with
  | true =>
    rw [addElement_blank p e hb]
    split <;> exact grows_refl _
  | false =>
    rw [addElement_flushed p e hb]
    split
    · rename_i h
      simp only [Bool.and_eq_true, beq_iff_eq, Bool.not_eq_true', Bool.not_eq_eq_eq_not,
        Bool.not_true] at h
      have hf := flushed_merge p e h.1.1.1 h.1.1.2 h.2
      simp only [appendToElement]
      have hlen : p.script.elements.length - 1 = (p.flushed e).script.elements.length - 1 := by
        rw [hf, extendLast_length]
      rw [hlen, appendLineAt_extendLast, hf, extendLast_extendLast]
      exact grows_extend _ _ (canExtend_of_plain _ h.2)
    · simp only [FountainScript.addElement]
      exact grows_trans (flushed_grows p e) (grows_append _ _)

theorem effect_grows (p q : FountainParser) (h : Effect p q) :
    Grows p.script.elements q.script.elements := by
  cases h with
  | same => exact grows_refl _
  | add e _ => exact addElement_grows p e
  | add2 t1 t2 _ => exact grows_trans (addElement_grows p _) (addElement_grows _ _)
  | append l hd =>
    simp only [appendToElement]
    rw [appendLineAt_extendLast]
    exact grows_extend _ _ (canExtend_of_dialogue _ hd)
  | append2 l1 l2 hd =>
    simp only [appendToElement]
    rw [appendLineAt_extendLast]
    have hlen : p.script.elements.length - 1
        = (extendLast p.script.elements [l1]).length - 1 := by
      rw [extendLast_length]
    rw [hlen, appendLineAt_extendLast, extendLast_extendLast]
    exact grows_extend _ _ (canExtend_of_dialogue _ hd)
  | pend x _ => exact grows_refl _

theorem classify_grows (p : FountainParser) :
    Grows p.script.elements (classify p).script.elements := by
  rcases classify_title_or_effect p with ⟨-, -, h⟩ | h
  · rw [h, (parseTitlePage_elements p).1]
    exact grows_refl _
  · exact effect_grows { p with inTitlePage := false } _ h

theorem resolvePending_grows (p : FountainParser) (x : PendingElement) :
    Grows p.script.elements (resolvePending p x).script.elements := by
  unfold resolvePending
  repeat' split
  all_goals first
    | exact grows_refl _
    | exact addElement_grows _ _

theorem parsePending_grows (p : FountainParser) :
    Grows p.script.elements (parsePending p).script.elements := by
  have : ∀ (xs : List PendingElement) (q : FountainParser),
      Grows q.script.elements (xs.foldl resolvePending q).script.elements := by
    intro xs
    induction xs with
    | nil => intro q; exact grows_refl _
    | cons x xs ih => intro q; exact grows_trans (resolvePending_grows q x) (ih _)
  exact this p.pending p

theorem parseBoneyard_grows (p : FountainParser) :
    Grows p.script.elements (parseBoneyard p).1.script.elements := by
  unfold parseBoneyard
  repeat' split
  all_goals first
    | exact grows_refl _
    | (simp only [FountainScript.addElement]; exact grows_append _ _)

theorem parseNotes_grows (p : FountainParser) :
    Grows p.script.elements (parseNotes p).1.script.elements := by
  unfold parseNotes
  repeat' split
  all_goals first
    | exact grows_refl _
    | (simp only [FountainScript.addElement]; exact grows_append _ _)

/-- Every call of `addLine` continues the document. -/
theorem addLine_grows (p : FountainParser) (l : Str) :
    Grows p.script.elements (addLine p l).script.elements := by
  have hP : Grows p.script.elements (p.loadLine l).script.elements := grows_refl _
  unfold addLine
  simp only [firstOf]
  generalize p.loadLine l = P at hP
  have hB := grows_trans hP (parseBoneyard_grows P)
  split
  · exact hB
  · generalize (parseBoneyard P).1 = B at hB
    have hN := grows_trans hB (parseNotes_grows B)
    split
    · exact hN
    · generalize (parseNotes B).1 = N at hN
      simp only [Bool.false_eq_true, ↓reduceIte]
      refine grows_trans (grows_trans hN ?_) (classify_grows _)
      split
      · exact parsePending_grows N
      · exact grows_refl _

theorem foldl_addLine_grows (ls : List Str) :
    ∀ p : FountainParser, Grows p.script.elements (ls.foldl addLine p).script.elements := by
  induction ls with
  | nil => intro p; exact grows_refl _
  | cons l ls ih => intro p; exact grows_trans (addLine_grows p l) (ih _)

/-- The whole of `addLines`, finalization included, continues the document. -/
theorem addLines_grows (p : FountainParser) (ls : List Str) :
    Grows p.script.elements (addLines p ls).script.elements := by
  unfold addLines finalizeParsing
  exact grows_trans (foldl_addLine_grows ls p) (parsePending_grows _)

/-! ## Centered text -/

/-- C6 (amended). For a parser outside title-page mode with no boneyard or notes block open, a
line whose trimmed form is `>` followed by `c` followed by `<`, where `c` does not contain
`===`, goes through the assembler as the element `Action c` marked centered, in both merge modes
(the two merge switches of `p` are arbitrary). First part: the new element is the new last
element of the document, after the resolution of the pending elements and the flush of the
buffered blank action lines; it is never appended to what precedes it. Second part: what
precedes it continues the old document. Third part: with nothing pending and nothing buffered
the document grows by exactly this element. Fourth part: whatever lines follow, and also after
finalization, the document up to and including the centered element stays as it is, element by
element, so no later line is ever appended to it. -/
theorem centered_text (p : FountainParser) (l c : Str)
    (ht : p.inTitlePage = false) (hbo : p.boneyard = none) (hno : p.note = none)
    (hl : trim l = '>' :: (c ++ ['<'])) (hc : contains c "===".toList = false) :
    let r := if !p.pending.isEmpty then parsePending (p.loadLine l) else p.loadLine l
    let e := FountainElement.Action c false true
    let q := addLine p l
    q.script.elements = (r.flushed e).script.elements ++ [e]
    ∧ Grows p.script.elements (r.flushed e).script.elements
    ∧ (p.pending = [] → p.padActions = [] → q.script.elements = p.script.elements ++ [e])
    ∧ (∀ ls : List Str, q.script.elements <+: (ls.foldl addLine q).script.elements
        ∧ q.script.elements <+: (addLines q ls).script.elements) := by
  intro r e q
  have hq0 : q = r.addElement e := addLine_centered p l c ht hbo hno hl hc
  have hgr : Grows p.script.elements r.script.elements := by
    simp only [r]
    split
    · exact parsePending_grows (p.loadLine l)
    · exact grows_refl _
  have hr2 : p.pending = [] → r = p.loadLine l := by
    intro hp
    simp only [r, hp]
    rfl
  clear_value r
  have hq : q = { r.flushed e with
      script := (r.flushed e).script.addElement e, padActions := [], inDialogue := false } := by
    rw [hq0, addElement_flushed r e (by simp [e, FountainElement.isCentered])]
    simp [e, FountainElement.isCentered, FountainElement.getType]
  have hel : q.script.elements = (r.flushed e).script.elements ++ [e] := by rw [hq]; rfl
  have hseal : canExtend q.script.elements.getLast? = false := by
    rw [hel]
    simp [canExtend, plainAction, e, FountainElement.isCentered, FountainElement.getType]
  refine ⟨hel, grows_trans hgr (flushed_grows r e), ?_, ?_⟩
  · intro hp hpads
    rw [hel, hr2 hp, flushed_nil _ _ (by exact hpads)]
    rfl
  · intro ls
    exact ⟨grows_sealed (foldl_addLine_grows ls q) hseal,
      grows_sealed (addLines_grows q ls) hseal⟩

/-- C6, at concrete inputs: after a blank first line, the line `>THE END<` adds the centered
action `THE END` to the empty document, with the merge switches on; and after the lines blank,
`>C<` the document, one centered Action, is the beginning of the document that the further
lines blank, `b` give: the centered Action, a blank Action and the Action `b`. -/
theorem centered_text_witness :
    (addLine (addLine (fresh true true) []) ">THE END<".toList).script.elements
      = (addLine (fresh true true) []).script.elements
          ++ [FountainElement.Action "THE END".toList false true]
    ∧ ((addLine (addLine (fresh true true) []) ">C<".toList).script.elements
        <+: ([[], "b".toList].foldl addLine
          (addLine (addLine (fresh true true) []) ">C<".toList)).script.elements
      ∧ (addLine (addLine (fresh true true) []) ">C<".toList).script.elements
        <+: (addLines (addLine (addLine (fresh true true) []) ">C<".toList)
          [[], "b".toList]).script.elements)
    ∧ (addLines (fresh true true) [[], ">C<".toList, [], "b".toList]).script.elements
      = [FountainElement.Action "C".toList false true, FountainElement.Action [] false false,
         FountainElement.Action "b".toList false false] :=
  ⟨(centered_text (addLine (fresh true true) []) ">THE END<".toList "THE END".toList
      (by decide) (by decide) (by decide) (by decide) (by decide)).2.2.1 (by decide) (by decide),
    (centered_text (addLine (fresh true true) []) ">C<".toList "C".toList
      (by decide) (by decide) (by decide) (by decide) (by decide)).2.2.2 [[], "b".toList],
    by decide⟩

/-- C6 as written fails in a state with a buffered blank line or a pending element. With
merge-actions off, after the lines blank, `a`, blank the parser is outside title-page mode with
no open block and the document is the Action `a`; the line `>C<` then commits two new Action
elements, the buffered blank line and the centered Action. With merge-actions on, after the
lines blank, `CUT TO:` the document is empty and the line `>C<` commits two Action elements,
the fallback of the pending transition and the centered Action. -/
theorem centered_text_counterexample :
    ([[], "a".toList, []].foldl addLine (fresh false true)).inTitlePage = false
    ∧ ([[], "a".toList, []].foldl addLine (fresh false true)).boneyard = none
    ∧ ([[], "a".toList, []].foldl addLine (fresh false true)).note = none
    ∧ ([[], "a".toList, []].foldl addLine (fresh false true)).script.elements
      = [FountainElement.Action "a".toList false false]
    ∧ (addLine ([[], "a".toList, []].foldl addLine (fresh false true))
        ">C<".toList).script.elements
      = [FountainElement.Action "a".toList false false, FountainElement.Action [] false false,
         FountainElement.Action "C".toList false true]
    ∧ ([[], "CUT TO:".toList].foldl addLine (fresh true true)).inTitlePage = false
    ∧ ([[], "CUT TO:".toList].foldl addLine (fresh true true)).script.elements = []
    ∧ (addLine ([[], "CUT TO:".toList].foldl addLine (fresh true true))
        ">C<".toList).script.elements
      = [FountainElement.Action "CUT TO:".toList false false,
         FountainElement.Action "C".toList false true] := by
  decide

/-! ## The lifetime of a pending element -/

/-- In merge-actions mode, after a non-centered Action with text `t` and with nothing pending,
`k` empty lines and then a line `l` that reaches the fallback are coalesced into that Action:
the texts of the blank lines that were buffered before, `k` empty lines and `l` are appended to
`t`, each after a line feed. -/
theorem action_lines_coalesce (p : FountainParser) (E : List FountainElement) (t l : Str)
    (f : Bool) (k : Nat) (hm : p.mergeActions = true)
    (ht : p.inTitlePage = false) (hbo : p.boneyard = none) (hno : p.note = none)
    (hp : p.pending = []) (hE : p.script.elements = E ++ [.Action t f false])
    (hl : isEmptyOrWhitespace l = false) (hlo : opensBlock l = false)
    (hr : (firstOf rules
      (((List.replicate k ([] : Str)).foldl addLine p).loadLine l)).2 = false) :
    ((List.replicate k ([] : Str) ++ [l]).foldl addLine p).script.elements
      = E ++ [.Action ((p.padActions.map FountainElement.getTextRaw
            ++ List.replicate k ([] : Str) ++ [l]).foldl (fun acc x => acc ++ '\n' :: x) t)
          f false]
    ∧ ((List.replicate k ([] : Str) ++ [l]).foldl addLine p).padActions = [] := by
  have hlast : p.getLastElement = some (.Action t f false) := by
    simp [getLastElement, hE]
  obtain ⟨e1, e2, e3, e4, e5, e6, e7⟩ :=
    empties_after_action (.Action t f false) rfl k p ht hbo hno hp hlast
  rw [List.foldl_append]
  simp only [List.foldl_cons, List.foldl_nil]
  generalize (List.replicate k ([] : Str)).foldl addLine p = S at e1 e2 e3 e4 e5 e6 e7 hr
  rw [addLine_fallback S l e1 e2 e3 e4 hlo hr]
  have hSE : (S.loadLine l).script.elements = E ++ [.Action t f false] := by
    show S.script.elements = _
    rw [e6, hE]
  have hSl : lastIsPlainAction (S.loadLine l).getLastElement = true := by
    simp [getLastElement, hSE, lastIsPlainAction, FountainElement.getType,
      FountainElement.isCentered]
  have hSm : (S.loadLine l).mergeActions = true := e5.trans hm
  have hSp : (S.loadLine l).padActions
      = p.padActions ++ List.replicate k (FountainElement.Action [] false false) := e7
  have h := addElement_merged (S.loadLine l) (.Action l false false) hSm rfl
    (by simp [FountainElement.isEmpty, FountainElement.getTextRaw, hl]) hSl
  refine ⟨?_, h.2⟩
  rw [h.1, hSE, extendLast_snoc, foldl_appendLine_action, hSp]
  simp [FountainElement.getTextRaw]

/-- C17 (amended). First part: with merge-actions enabled, after every sequence of `addLine`
calls on a fresh parser, and after finalization, no non-centered Action with text that is not
blank is directly followed by another non-centered Action (`mergedOk`): of two consecutive
non-centered Actions the first is always a blank one. Second part: in every such state a
non-centered Action that is not blank, handed to the assembler when the last element is a
non-centered Action, is coalesced with it, the buffered blank lines included: the texts of the
buffered blank lines and then the text of the new Action are appended to the last element,
every other element stays as it is, the document gets no new element and the buffer is emptied.
Third part, on lines: in merge-actions mode, when the document ends with a non-centered Action
of text `t` and nothing is pending, `k` empty lines and then a line `l` that reaches the
fallback leave one Action in place of the last element, whose text is `t`, the blank lines
buffered before, the `k` empty lines and `l`, joined by line feeds. -/
theorem merge_actions_invariant :
    (∀ (mD : Bool) (lines : List Str),
      mergedOk (lines.foldl addLine (fresh true mD)).script.elements = true
      ∧ mergedOk (addLines (fresh true mD) lines).script.elements = true)
    ∧ (∀ (mD : Bool) (lines : List Str) (e : FountainElement),
        plainAction e = true → e.isEmpty = false →
        lastIsPlainAction (lines.foldl addLine (fresh true mD)).getLastElement = true →
        ((lines.foldl addLine (fresh true mD)).addElement e).script.elements
          = extendLast (lines.foldl addLine (fresh true mD)).script.elements
              ((lines.foldl addLine (fresh true mD)).padActions.map FountainElement.getTextRaw
                ++ [e.getTextRaw])
        ∧ ((lines.foldl addLine (fresh true mD)).addElement e).script.elements.length
          = (lines.foldl addLine (fresh true mD)).script.elements.length
        ∧ ((lines.foldl addLine (fresh true mD)).addElement e).padActions = [])
    ∧ (∀ (p : FountainParser) (E : List FountainElement) (t l : Str) (f : Bool) (k : Nat),
        p.mergeActions = true → p.inTitlePage = false → p.boneyard = none → p.note = none →
        p.pending = [] → p.script.elements = E ++ [.Action t f false] →
        isEmptyOrWhitespace l = false → opensBlock l = false →
        (firstOf rules (((List.replicate k ([] : Str)).foldl addLine p).loadLine l)).2 = false →
        ((List.replicate k ([] : Str) ++ [l]).foldl addLine p).script.elements
          = E ++ [.Action ((p.padActions.map FountainElement.getTextRaw
                ++ List.replicate k ([] : Str) ++ [l]).foldl (fun acc x => acc ++ '\n' :: x) t)
              f false]
        ∧ ((List.replicate k ([] : Str) ++ [l]).foldl addLine p).padActions = []) := by
  refine ⟨?_, ?_, ?_⟩
  · intro mD lines
    have h := foldl_addLine_MergeInv lines _ (fresh_MergeInv mD)
    refine ⟨h.2.1, ?_⟩
    exact (parsePending_MergeInv
      { lines.foldl addLine (fresh true mD) with line := [], lineTrim := [] } h).2.1
  · intro mD lines e he hne hl
    have h := foldl_addLine_MergeInv lines _ (fresh_MergeInv mD)
    have h2 := addElement_merged _ e h.1 he hne hl
    refine ⟨h2.1, ?_, h2.2⟩
    rw [h2.1, extendLast_length]
  · intro p E t l f k hm ht hbo hno hp hE hl hlo hr
    exact action_lines_coalesce p E t l f k hm ht hbo hno hp hE hl hlo hr

/-- C17, at concrete inputs: after the lines blank, `one`, blank the Action `two` is coalesced
with the Action `one` and the buffered blank line, which gives the one Action with the text
`one`, an empty line, `two`; the same on lines, for the lines blank, `one` followed by two
empty lines and `two`; and the document of the lines blank, `>C<`, blank, `b` satisfies the
amended invariant. -/
theorem merge_actions_invariant_witness :
    ((([[], "one".toList, []].foldl addLine (fresh true true)).addElement
        (FountainElement.Action "two".toList false false)).script.elements
      = extendLast ([[], "one".toList, []].foldl addLine (fresh true true)).script.elements
          (([[], "one".toList, []].foldl addLine (fresh true true)).padActions.map
              FountainElement.getTextRaw
            ++ [(FountainElement.Action "two".toList false false).getTextRaw])
      ∧ (([[], "one".toList, []].foldl addLine (fresh true true)).addElement
          (FountainElement.Action "two".toList false false)).script.elements.length
        = ([[], "one".toList, []].foldl addLine (fresh true true)).script.elements.length
      ∧ (([[], "one".toList, []].foldl addLine (fresh true true)).addElement
          (FountainElement.Action "two".toList false false)).padActions = [])
    ∧ (([[], "one".toList, []].foldl addLine (fresh true true)).addElement
        (FountainElement.Action "two".toList false false)).script.elements
      = [FountainElement.Action "one\n\ntwo".toList false false]
    ∧ (((List.replicate 2 ([] : Str) ++ ["two".toList]).foldl addLine
          ([[], "one".toList].foldl addLine (fresh true true))).script.elements
        = [] ++ [FountainElement.Action
            ((([[], "one".toList].foldl addLine (fresh true true)).padActions.map
                FountainElement.getTextRaw
              ++ List.replicate 2 ([] : Str) ++ ["two".toList]).foldl
              (fun acc x => acc ++ '\n' :: x) "one".toList) false false]
      ∧ ((List.replicate 2 ([] : Str) ++ ["two".toList]).foldl addLine
          ([[], "one".toList].foldl addLine (fresh true true))).padActions = [])
    ∧ (addLines (fresh true true) [[], "one".toList, [], [], "two".toList]).script.elements
      = [FountainElement.Action "one\n\n\ntwo".toList false false]
    ∧ mergedOk (addLines (fresh true true)
        [[], ">C<".toList, [], "b".toList]).script.elements = true :=
  ⟨merge_actions_invariant.2.1 true [[], "one".toList, []]
      (FountainElement.Action "two".toList false false) (by decide) (by decide) (by decide),
    by decide,
    merge_actions_invariant.2.2 ([[], "one".toList].foldl addLine (fresh true true)) []
      "one".toList "two".toList false 2 (by decide) (by decide) (by decide) (by decide)
      (by decide) (by decide) (by decide) (by decide) (by decide),
    by decide,
    (merge_actions_invariant.1 true [[], ">C<".toList, [], "b".toList]).2⟩

end Fountain
